import Mathlib

/-!
# Semantic-analysis core of the Jule compiler front end (package `sema`)

A shallow embedding of `src/sema/fn.go` and `src/sema/type2.go`:
the function instance manager (`Fn.instance`, `Fn.append_instance`), the type
compatibility checker (`_TypeCompatibilityChecker`), constant narrowing
(`sig_assignable`, `unsig_assignable`, `int_assignable`), the assignment type
checker (`_AssignTypeChecker`) and dynamic type annotation
(`_DynamicTypeAnnotation`).

Conventions of the embedding.

* A Go pointer that may be `nil` is an `Option`.
* Pointer identity of declarations (`*Struct`, `*Trait`, `*Enum`) is equality of
  the `Id` the declaration carries.
* A run that would panic in Go (nil dereference, index out of range) returns
  `Except.error`; the recursive checker carries a fuel argument and reports
  `Fault.out_of_fuel` when it is exhausted.
* Diagnostics pushed with `push_err` are returned, in order, next to the result.
-/

namespace Sema

/-! ## Diagnostics and faults -/

/-- One record of the diagnostic log: error kind and formatted arguments
(the position is the checker's `error_token`, fixed during one run). -/
structure Diag where
  key : String
  args : List String
  deriving DecidableEq, Repr

/-- Ways a run of the Go code stops without returning. -/
inductive Fault
  | nil_deref
  | index_out_of_range
  | out_of_fuel
  deriving DecidableEq, Repr

deriving instance DecidableEq for Except

/-- Result of a checker run: the returned value and the diagnostics pushed. -/
abbrev Run (α : Type) := Except Fault (α × List Diag)

/-! ## Declarations and resolved types -/

/-- Generic parameter of a declaration (`ast.GenericDecl`): its identifier. -/
structure GenericDecl where
  Ident : String
  deriving DecidableEq, Repr

/-- Modelled from the spec: the struct declaration (`sema.Struct`, not among the
sources): identity, name and the traits the declaration implements (by trait
identity). -/
structure Struct where
  Id : Nat
  Ident : String
  Implements : List Nat
  deriving DecidableEq, Repr

/-- Modelled from the spec: the enum declaration (`sema.Enum`, not among the
sources), of which the checkers only use the identity. -/
structure Enum where
  Id : Nat
  Ident : String
  deriving DecidableEq, Repr

/-- Modelled from the spec: the field declaration (`sema.Field`, not among the
sources): name and mutability. -/
structure Field where
  Ident : String
  Mutable : Bool
  deriving DecidableEq, Repr

mutual

/-- Modelled from the spec: the resolved type (`sema.TypeKind`, declared outside
the sources): a closed sum over the variants of section 3, plus the `nil` type
(`kind == nil`). An unsafe pointer is a pointer without element. -/
inductive TypeKind : Type
  | nil
  | prim (kind : String)
  | ref (Elem : TypeKind)
  | ptr (Elem : Option TypeKind)
  | slc (Elem : TypeKind)
  | arr (N : Int) (Elem : TypeKind)
  | map (Key : TypeKind) (Val : TypeKind)
  | strct (s : StructIns)
  | trt (t : Trait)
  | enm (e : Enum)
  | fnc (f : FnIns)
  | tup (Types : List TypeKind)

/-- Modelled from the spec: struct instance (`sema.StructIns`): declaration,
resolved generic arguments and field instances. -/
inductive StructIns : Type
  | mk (Decl : Struct) (Generics : List TypeKind) (Fields : List FieldIns)

/-- Modelled from the spec: field instance (`sema.FieldIns`): the declaration
and its resolved type. -/
inductive FieldIns : Type
  | mk (Decl : Field) (Kind : Option TypeKind)

/-- Type symbol (`sema.TypeSymbol`): the resolved kind of a declared type. -/
inductive TypeSymbol : Type
  | mk (Kind : Option TypeKind)

/-- Return type of fn.go: `RetType`. -/
inductive RetType : Type
  | mk (Kind : Option TypeSymbol) (Idents : List String)

/-- Parameter of fn.go: `Param`. -/
inductive Param : Type
  | mk (Mutable : Bool) (Variadic : Bool) (Kind : Option TypeSymbol) (Ident : String)

/-- Function declaration of fn.go: `Fn`. The back-reference `Decl` of an
instance holds the declaration as it was when the instance was made. -/
inductive Fn : Type
  | mk (Unsafety : Bool) (Ident : String) (Generics : List GenericDecl)
      (Result : Option RetType) (Params : List Param) (Owner : Option Struct)
      (Instances : List FnIns)

/-- Modelled from the spec: the trait declaration (`sema.Trait`): identity, name
and declared methods. -/
inductive Trait : Type
  | mk (Id : Nat) (Ident : String) (Methods : List Fn)

/-- Parameter instance of fn.go: `ParamIns`. -/
inductive ParamIns : Type
  | mk (Decl : Option Param) (Kind : Option TypeKind)

/-- Function instance of fn.go: `FnIns`; `caller` records whether a built-in
caller is attached. -/
inductive FnIns : Type
  | mk (Decl : Fn) (Generics : List (Option TypeKind)) (Params : List (Option ParamIns))
      (Result : Option TypeKind) (caller : Bool) (anon : Bool)

end

instance : Inhabited TypeKind := ⟨TypeKind.nil⟩

namespace StructIns
def Decl : StructIns → Struct
  | mk d _ _ => d
def Generics : StructIns → List TypeKind
  | mk _ g _ => g
def Fields : StructIns → List FieldIns
  | mk _ _ f => f
end StructIns

namespace FieldIns
def Decl : FieldIns → Field
  | mk d _ => d
def Kind : FieldIns → Option TypeKind
  | mk _ k => k
end FieldIns

namespace TypeSymbol
def Kind : TypeSymbol → Option TypeKind
  | mk k => k
end TypeSymbol

namespace RetType
def Kind : RetType → Option TypeSymbol
  | mk k _ => k
def Idents : RetType → List String
  | mk _ i => i
end RetType

namespace Param
def Mutable : Param → Bool
  | mk m _ _ _ => m
def Variadic : Param → Bool
  | mk _ v _ _ => v
def Kind : Param → Option TypeSymbol
  | mk _ _ k _ => k
def Ident : Param → String
  | mk _ _ _ i => i
/-- Reports whether parameter is self (receiver) parameter. -/
def Is_self (p : Param) : Bool := p.Ident == "&self" || p.Ident == "self"
/-- Reports whether self (receiver) parameter is reference. -/
def Is_ref (p : Param) : Bool := p.Ident != "" && p.Ident.front == '&'
end Param

namespace Fn
def Unsafety : Fn → Bool
  | mk u _ _ _ _ _ _ => u
def Ident : Fn → String
  | mk _ i _ _ _ _ _ => i
def Generics : Fn → List GenericDecl
  | mk _ _ g _ _ _ _ => g
def Result : Fn → Option RetType
  | mk _ _ _ r _ _ _ => r
def Params : Fn → List Param
  | mk _ _ _ _ p _ _ => p
def Owner : Fn → Option Struct
  | mk _ _ _ _ _ o _ => o
def Instances : Fn → List FnIns
  | mk _ _ _ _ _ _ i => i
/-- The declaration with its `Instances` field assigned. -/
def set_Instances : Fn → List FnIns → Fn
  | mk u i g r p o _, l => mk u i g r p o l
/-- Reports whether return type is void. -/
def Is_void (f : Fn) : Bool := f.Result.isNone
/-- Reports whether function is method. -/
def Is_method (f : Fn) : Bool := f.Owner.isSome
/-- Reports whether function has return variable(s). -/
def Any_var (f : Fn) : Bool :=
  match f.Result with
  | none => false
  | some r => decide (r.Idents.length > 0)
end Fn

namespace Trait
def Id : Trait → Nat
  | mk n _ _ => n
def Ident : Trait → String
  | mk _ i _ => i
def Methods : Trait → List Fn
  | mk _ _ m => m
end Trait

namespace ParamIns
def Decl : ParamIns → Option Param
  | mk d _ => d
def Kind : ParamIns → Option TypeKind
  | mk _ k => k
end ParamIns

namespace FnIns
def Decl : FnIns → Fn
  | mk d _ _ _ _ _ => d
def Generics : FnIns → List (Option TypeKind)
  | mk _ g _ _ _ _ => g
def Params : FnIns → List (Option ParamIns)
  | mk _ _ p _ _ _ => p
def Result : FnIns → Option TypeKind
  | mk _ _ _ r _ _ => r
def caller : FnIns → Bool
  | mk _ _ _ _ c _ => c
def anon : FnIns → Bool
  | mk _ _ _ _ _ a => a
/-- The instance with its `Generics` field assigned. -/
def set_Generics : FnIns → List (Option TypeKind) → FnIns
  | mk d _ p r c a, g => mk d g p r c a
/-- Reports whether instance is built-in. -/
def Is_builtin (f : FnIns) : Bool := f.caller
end FnIns

namespace TypeKind
/-- Reports whether kind is "nil". -/
def Is_nil : TypeKind → Bool
  | nil => true
  | _ => false
/-- Primitive payload (its kind name), if the type is a primitive. -/
def Prim : TypeKind → Option String
  | prim k => some k
  | _ => none
/-- Element of the reference, if the type is a reference. -/
def Ref : TypeKind → Option TypeKind
  | ref e => some e
  | _ => none
/-- Pointer payload (its element, absent for an unsafe pointer), if the type is
a pointer. -/
def Ptr : TypeKind → Option (Option TypeKind)
  | ptr e => some e
  | _ => none
/-- Element of the slice, if the type is a slice. -/
def Slc : TypeKind → Option TypeKind
  | slc e => some e
  | _ => none
/-- Length and element of the array, if the type is an array. -/
def Arr : TypeKind → Option (Int × TypeKind)
  | arr n e => some (n, e)
  | _ => none
/-- Key and value of the map, if the type is a map. -/
def Map : TypeKind → Option (TypeKind × TypeKind)
  | map k v => some (k, v)
  | _ => none
def Strct : TypeKind → Option StructIns
  | strct s => some s
  | _ => none
def Trt : TypeKind → Option Trait
  | trt t => some t
  | _ => none
def Enm : TypeKind → Option Enum
  | enm e => some e
  | _ => none
def Fnc : TypeKind → Option FnIns
  | fnc f => some f
  | _ => none
def Tup : TypeKind → Option (List TypeKind)
  | tup l => some l
  | _ => none
end TypeKind

/-- Reports whether pointer is unsafe pointer (`*unsafe`): it has no element. -/
def Ptr_Is_unsafe (p : Option TypeKind) : Bool := p.isNone

/-- Modelled from the spec: `Struct.Is_implements` (outside the sources): the
declaration implements the trait, traits compared by identity. -/
def Struct.Is_implements (s : Struct) (t : Trait) : Bool := s.Implements.contains t.Id

/-! ## Floating-point values, constants and expression data -/

/-- Modelled from the spec: a Go `float64` value, exactly: not-a-number, an
infinity, or the finite value `num * 2 ^ exp`. -/
inductive F64
  | nan
  | inf (neg : Bool)
  | fin (num : Int) (exp : Int)

namespace F64

/-- The integer `num * 2 ^ (exp - low)`, for `low ≤ exp`. -/
def scaled (num exp low : Int) : Int := num * 2 ^ (exp - low).toNat

/-- Exact value of a finite float. -/
def val : F64 → Option ℚ
  | fin n e => some ((n : ℚ) * (2 : ℚ) ^ e)
  | _ => none

/-- Go `x <= y` on float64: false when either side is NaN. -/
def le : F64 → F64 → Bool
  | nan, _ => false
  | _, nan => false
  | inf true, _ => true
  | inf false, inf false => true
  | inf false, _ => false
  | fin _ _, inf neg => !neg
  | fin a ea, fin b eb => decide (scaled a ea (min ea eb) ≤ scaled b eb (min ea eb))

/-- Go `x < y` on float64: false when either side is NaN. -/
def lt : F64 → F64 → Bool
  | nan, _ => false
  | _, nan => false
  | inf true, inf true => false
  | inf true, _ => true
  | inf false, _ => false
  | fin _ _, inf neg => !neg
  | fin a ea, fin b eb => decide (scaled a ea (min ea eb) < scaled b eb (min ea eb))

/-- Go `x != 0` on float64: true for NaN and the infinities. -/
def ne_zero : F64 → Bool
  | fin n _ => n != 0
  | _ => true

/-- The float64 zero. -/
def zero : F64 := fin 0 0

/-- Number of binary digits of `n`, for `n < 2 ^ fuel`. -/
def bit_len : Nat → Nat → Nat
  | 0, _ => 0
  | fuel + 1, n => if n = 0 then 0 else bit_len fuel (n / 2) + 1

/-- Conversion of a natural number below `2 ^ 64` to the nearest float64 (53
significant bits, ties to even), as Go's `float64(x)` does. -/
def round_to_f64 (n : Nat) : Nat :=
  if n < 2 ^ 53 then n
  else
    let e := bit_len 64 n - 53
    let q := n / 2 ^ e
    let r := n % 2 ^ e
    let half := 2 ^ (e - 1)
    if r > half || (r == half && q % 2 == 1) then (q + 1) * 2 ^ e else q * 2 ^ e

/-- Go `float64(x)` for an unsigned 64-bit integer. -/
def of_u64 (n : Nat) : F64 := fin (round_to_f64 n) 0

/-- Go `float64(x)` for a signed 64-bit integer. -/
def of_i64 (i : Int) : F64 :=
  if i < 0 then fin (-(round_to_f64 i.natAbs : Int)) 0 else fin (round_to_f64 i.natAbs) 0

/-- Go `math.Modf`: integer and fractional part, both with the sign of the
argument; `Modf(±Inf) = ±Inf, NaN` and `Modf(NaN) = NaN, NaN`. -/
def Modf : F64 → F64 × F64
  | nan => (nan, nan)
  | inf s => (inf s, nan)
  | fin n e =>
    if 0 ≤ e then (fin n e, fin 0 0)
    else
      let d : Int := 2 ^ (-e).toNat
      let i := Int.tdiv n d
      (fin i 0, fin (n - i * d) e)

end F64

/-- Modelled from the spec: a compile-time constant (`constant.Const`, outside
the sources): a value tagged signed, unsigned, float, string or boolean. -/
inductive Const
  | i64 (v : Int)
  | u64 (v : Nat)
  | f64 (v : F64)
  | str (v : String)
  | bool (v : Bool)

namespace Const
def Is_i64 : Const → Bool
  | i64 _ => true
  | _ => false
def Is_u64 : Const → Bool
  | u64 _ => true
  | _ => false
def Is_f64 : Const → Bool
  | f64 _ => true
  | _ => false
/-- Reads the constant as a signed integer (the stored value for an `i64` tag). -/
def Read_i64 : Const → Int
  | i64 v => v
  | u64 v => v
  | _ => 0
/-- Reads the constant as an unsigned integer (the stored value for a `u64` tag). -/
def Read_u64 : Const → Nat
  | u64 v => v
  | i64 v => v.toNat
  | _ => 0
/-- Reads the constant as a float (the stored value for an `f64` tag, the
converted integer for the integer tags). -/
def Read_f64 : Const → F64
  | f64 v => v
  | i64 v => F64.of_i64 v
  | u64 v => F64.of_u64 v
  | _ => F64.zero
/-- Exact mathematical value of a numeric constant. -/
def exact : Const → Option ℚ
  | i64 v => some v
  | u64 v => some v
  | f64 v => v.val
  | _ => none
end Const

/-- Modelled from the spec: the lowered expression model (`sema.ExprModel`,
outside the sources): the synthetic slice `SliceExprModel`, the
`ExplicitDerefExprModel` wrapper, or any other lowered expression, which the
checkers treat as opaque. -/
inductive ExprModel : Type
  | slice (Elem_kind : Option TypeKind) (Elems : List ExprModel)
  | explicit_deref (Expr : ExprModel)
  | other (id : Nat)

instance : Inhabited ExprModel := ⟨ExprModel.other 0⟩

/-- Modelled from the spec: the result of evaluating an expression (`sema.Data`,
outside the sources): resolved type, constant value if compile-time known,
mutability, variadic-spread flag and the lowered expression model. -/
structure Data where
  Kind : TypeKind
  Constant : Option Const
  Mutable : Bool
  Variadiced : Bool
  Model : ExprModel

/-- Reports whether the data is a compile-time constant. -/
def Data.Is_const (d : Data) : Bool := d.Constant.isSome

/-! ## External collaborators -/

/-- Interface of package `types` (outside the sources) as far as the checkers
call it. `Min_of` and `Max_of` return `float64`, as their use in
`sig_assignable` shows. -/
structure Types where
  Is_sig_int : String → Bool
  Is_unsig_int : String → Bool
  Is_int : String → Bool
  Is_float : String → Bool
  Is_num : String → Bool
  Min_of : String → F64
  Max_of : String → F64
  Bitsize_of : String → Nat
  Check_bit_float : String → Nat → Bool
  Types_are_compatible : String → String → Bool

/-- Everything the checkers call that is declared outside the sources: the
string rendering of a resolved type (`TypeKind.To_str`), `is_nil_compatible`,
`strconv.FormatFloat(x, 'e', -1, 64)` and package `types`. -/
structure Env where
  To_str : TypeKind → String
  is_nil_compatible : TypeKind → Bool
  FormatFloat : F64 → String
  types : Types

/-- Modelled from the spec: the documented signed integer kinds. -/
def Is_sig_int (k : String) : Bool := k == "i8" || k == "i16" || k == "i32" || k == "i64"

/-- Modelled from the spec: the documented unsigned integer kinds. -/
def Is_unsig_int (k : String) : Bool := k == "u8" || k == "u16" || k == "u32" || k == "u64"

/-- Modelled from the spec: the documented float kinds. -/
def Is_float (k : String) : Bool := k == "f32" || k == "f64"

/-- Modelled from the spec: the documented maximum of an integer kind, as an
integer. -/
def max_int_of (k : String) : Int :=
  if k == "i8" then 127
  else if k == "i16" then 32767
  else if k == "i32" then 2147483647
  else if k == "i64" then 9223372036854775807
  else if k == "u8" then 255
  else if k == "u16" then 65535
  else if k == "u32" then 4294967295
  else if k == "u64" then 18446744073709551615
  else 0

/-- Modelled from the spec: the documented minimum of an integer kind, as an
integer. -/
def min_int_of (k : String) : Int :=
  if k == "i8" then -128
  else if k == "i16" then -32768
  else if k == "i32" then -2147483648
  else if k == "i64" then -9223372036854775808
  else 0

/-- Modelled from the spec: `types.Max_of`, the documented maximum of a numeric
kind converted to `float64` (the type the function returns). -/
def Max_of (k : String) : F64 :=
  if k == "f32" then F64.fin (2 ^ 24 - 1) 104
  else if k == "f64" then F64.fin (2 ^ 53 - 1) 971
  else F64.of_i64 (max_int_of k)

/-- Modelled from the spec: `types.Min_of`, the documented minimum of a numeric
kind converted to `float64`. -/
def Min_of (k : String) : F64 :=
  if k == "f32" then F64.fin (-(2 ^ 24 - 1)) 104
  else if k == "f64" then F64.fin (-(2 ^ 53 - 1)) 971
  else F64.of_i64 (min_int_of k)

/-- Modelled from the spec: `types.Bitsize_of`, the width of a numeric kind. -/
def Bitsize_of (k : String) : Nat :=
  if k == "i8" || k == "u8" then 8
  else if k == "i16" || k == "u16" then 16
  else if k == "i32" || k == "u32" || k == "f32" then 32
  else if k == "i64" || k == "u64" || k == "f64" then 64
  else 0

/-- Package `types` with the documented numeric kinds; the float range test and
the primitive compatibility table are left to the caller. -/
def documented_types (Check_bit_float : String → Nat → Bool)
    (Types_are_compatible : String → String → Bool) : Types :=
  ⟨Is_sig_int, Is_unsig_int, fun k => Is_sig_int k || Is_unsig_int k, Is_float,
    fun k => Is_sig_int k || Is_unsig_int k || Is_float k, Min_of, Max_of, Bitsize_of,
    Check_bit_float, Types_are_compatible⟩

/-! ## Function instance manager (fn.go) -/

/-- Instance of a parameter: the declaration with no resolved kind yet. -/
def Param.instance (p : Param) : ParamIns := ParamIns.mk (some p) none

namespace Fn

/-- Force to new instance. Dereferencing `Result.Kind` of a declaration whose
result has no type symbol panics. -/
def instance_force (f : Fn) : Except Fault FnIns :=
  let params := f.Params.map (fun p => some p.instance)
  match f.Result with
  | none => .ok (FnIns.mk f [] params none false false)
  | some r =>
    match r.Kind with
    | none => .error Fault.nil_deref
    | some ts => .ok (FnIns.mk f [] params ts.Kind false false)

/-- Inner loop of `append_instance`: `for i, ag := range ains.Generics`, from
position `i` on; reports whether some position renders equal. -/
def scan_generics (To_str : TypeKind → String) (ins : FnIns) :
    List (Option TypeKind) → Nat → Except Fault Bool
  | [], _ => .ok false
  | ag :: rest, i =>
    match ag with
    | none => .error Fault.nil_deref
    | some a =>
      match ins.Generics.get? i with
      | none => .error Fault.index_out_of_range
      | some none => .error Fault.nil_deref
      | some (some g) =>
        if To_str a == To_str g then .ok true else scan_generics To_str ins rest (i + 1)

/-- Outer loop of `append_instance`: `for j, ains := range f.Instances`, from
index `j` on; the index of the first instance reported as existing. -/
def scan_instances (To_str : TypeKind → String) (ins : FnIns) :
    List FnIns → Nat → Except Fault (Option Nat)
  | [], _ => .ok none
  | ains :: rest, j =>
    match scan_generics To_str ins ains.Generics 0 with
    | .error e => .error e
    | .ok true => .ok (some j)
    | .ok false => scan_instances To_str ins rest (j + 1)

/-- The method `append_instance`: the returned pair and the declaration
afterwards. -/
def append_instance (To_str : TypeKind → String) (f : Fn) (ins : FnIns) :
    Except Fault ((Bool × Int) × Fn) :=
  if f.Generics.length == 0 then
    -- Skip already created instance for just one unique combination.
    if f.Instances.length == 1 then .ok ((false, 0), f)
    else .ok ((true, -1), f.set_Instances (f.Instances ++ [ins]))
  else if f.Instances.length == 0 then
    .ok ((true, -1), f.set_Instances (f.Instances ++ [ins]))
  else
    match scan_instances To_str ins f.Instances 0 with
    | .error e => .error e
    | .ok (some j) => .ok ((false, (j : Int)), f)
    | .ok none => .ok ((true, -1), f.set_Instances (f.Instances ++ [ins]))

/-- A sequence of `append_instance` calls on one declaration, in order. -/
def append_all (To_str : TypeKind → String) (f : Fn) : List FnIns → Except Fault Fn
  | [] => .ok f
  | ins :: rest =>
    match f.append_instance To_str ins with
    | .error e => .error e
    | .ok (_, f1) => append_all To_str f1 rest

end Fn

/-- The method `instance`: returns already created instance for just one unique
combination, a forced new instance otherwise. -/
def Fn.instance (f : Fn) : Except Fault FnIns :=
  if f.Generics.length == 0 && f.Instances.length == 1 then
    match f.Instances with
    | i :: _ => .ok i
    | [] => .error Fault.index_out_of_range
  else f.instance_force

/-- A rendering for concrete instances: a primitive renders to its kind name,
`nil` to "nil", every other shape to a fixed mark. -/
def sample_str : TypeKind → String
  | TypeKind.prim k => k
  | TypeKind.nil => "nil"
  | _ => "?"

/-! ## Type compatibility checker (type2.go) -/

/-- Reports whether some method of the trait has a reference receiver; reading
`Params[0]` of a method without parameters panics. -/
def trait_has_reference_receiver_loop : List Fn → Except Fault Bool
  | [] => .ok false
  | f :: rest =>
    match f.Params with
    | [] => .error Fault.index_out_of_range
    | p :: _ => if p.Is_ref && p.Is_self then .ok true else trait_has_reference_receiver_loop rest

/-- The function `trait_has_reference_receiver`. -/
def trait_has_reference_receiver (t : Trait) : Except Fault Bool :=
  trait_has_reference_receiver_loop t.Methods

namespace TypeCompatibilityChecker

/-- The recursive entry `check` as seen by the per-variant methods: deref flag,
`dest`, `src`. -/
abbrev Checker := Bool → Option TypeKind → Option TypeKind → Run Bool

/-- Body shared by the reference and struct cases of `check_trait`. -/
def check_trait_struct (trt : Trait) (ref : Bool) (s : StructIns) : Run Bool :=
  if !s.Decl.Is_implements trt then .ok (false, [])
  else
    match trait_has_reference_receiver trt with
    | .error e => .error e
    | .ok has =>
      if has && !ref then .ok (false, [⟨"trait_has_reference_parametered_function", []⟩])
      else .ok (true, [])

/-- The method `check_trait`. -/
def check_trait (dest src : TypeKind) : Run Bool :=
  if src.Is_nil then .ok (true, [])
  else
    match dest.Trt with
    | none => .error Fault.nil_deref
    | some trt =>
      match src.Ref with
      | some e =>
        -- ref = true; tcc.src = tcc.src.Ref().Elem
        match e.Strct with
        | none => .ok (false, [])
        | some s => check_trait_struct trt true s
      | none =>
        match src.Strct with
        | some s => check_trait_struct trt false s
        | none =>
          match src.Trt with
          | some t => .ok (trt.Id == t.Id, [])
          | none => .ok (false, [])

/-- The method `check_ref`. -/
def check_ref (env : Env) (chk : Checker) (deref : Bool) (dest src : TypeKind) : Run Bool :=
  if env.To_str dest == env.To_str src then .ok (true, [])
  else if !deref then .ok (false, [])
  else
    match src.Ref with
    | none =>
      match dest.Ref with
      | none => .error Fault.nil_deref
      | some e => chk deref (some e) (some src)
    | some e => chk deref (some dest) (some e)

/-- The method `check_ptr`. -/
def check_ptr (chk : Checker) (dest src : TypeKind) : Run Bool :=
  if src.Is_nil then .ok (true, [])
  else
    match src.Ptr with
    | none => .ok (false, [])
    | some sp =>
      match dest.Ptr with
      | none => .error Fault.nil_deref
      | some dp => if Ptr_Is_unsafe dp then .ok (true, []) else chk false dp sp

/-- The method `check_slc`. -/
def check_slc (chk : Checker) (dest src : TypeKind) : Run Bool :=
  if src.Is_nil then .ok (true, [])
  else
    match src.Slc with
    | none => .ok (false, [])
    | some se =>
      match dest.Slc with
      | none => .error Fault.nil_deref
      | some de => chk false (some de) (some se)

/-- The method `check_arr`. -/
def check_arr (chk : Checker) (dest src : TypeKind) : Run Bool :=
  match src.Arr with
  | none => .ok (false, [])
  | some (sn, se) =>
    match dest.Arr with
    | none => .error Fault.nil_deref
    | some (dn, de) => if dn != sn then .ok (false, []) else chk false (some de) (some se)

/-- The method `check_map`. -/
def check_map (chk : Checker) (dest src : TypeKind) : Run Bool :=
  if src.Is_nil then .ok (true, [])
  else
    match src.Map with
    | none => .ok (false, [])
    | some (sk, sv) =>
      match dest.Map with
      | none => .error Fault.nil_deref
      | some (dk, dv) =>
        match chk false (some dk) (some sk) with
        | .error e => .error e
        | .ok (false, l) => .ok (false, l)
        | .ok (true, l) =>
          match chk false (some dv) (some sv) with
          | .error e => .error e
          | .ok (b, l2) => .ok (b, l ++ l2)

/-- Loop of `check_struct`: `for i, dg := range dest.Generics`, from index `i`. -/
def check_struct_loop (chk : Checker) (srcGenerics : List TypeKind) :
    List TypeKind → Nat → Run Bool
  | [], _ => .ok (true, [])
  | dg :: rest, i =>
    match srcGenerics.get? i with
    | none => .error Fault.index_out_of_range
    | some sg =>
      match chk false (some dg) (some sg) with
      | .error e => .error e
      | .ok (false, l) => .ok (false, l)
      | .ok (true, l) =>
        match check_struct_loop chk srcGenerics rest (i + 1) with
        | .error e => .error e
        | .ok (b, l2) => .ok (b, l ++ l2)

/-- The method `check_struct`. -/
def check_struct (chk : Checker) (dest src : TypeKind) : Run Bool :=
  match src.Strct with
  | none => .ok (false, [])
  | some s =>
    match dest.Strct with
    | none => .error Fault.nil_deref
    | some d =>
      if d.Decl.Id != s.Decl.Id then .ok (false, [])
      else if d.Generics.length == 0 then .ok (true, [])
      else check_struct_loop chk s.Generics d.Generics 0

/-- Loop of `check_fn`: `for i := range src.Params`, over the remaining source
entries and the destination entries at the same positions. -/
def check_fn_loop (chk : Checker) :
    List (Option ParamIns) → List (Option ParamIns) → Run Bool
  | [], _ => .ok (true, [])
  | _ :: _, [] => .error Fault.index_out_of_range
  | srcp :: srest, destp :: drest =>
    if srcp.isSome && destp.isSome then .ok (false, [])
    else
      match srcp with
      | none => .error Fault.nil_deref
      | some sp =>
        match destp with
        | none => .error Fault.nil_deref
        | some dp =>
          match chk false dp.Kind sp.Kind with
          | .error e => .error e
          | .ok (false, l) => .ok (false, l)
          | .ok (true, l) =>
            match check_fn_loop chk srest drest with
            | .error e => .error e
            | .ok (b, l2) => .ok (b, l ++ l2)

/-- The method `check_fn`. -/
def check_fn (chk : Checker) (dest src : TypeKind) : Run Bool :=
  if src.Is_nil then .ok (true, [])
  else
    match src.Fnc with
    | none => .ok (false, [])
    | some sf =>
      match dest.Fnc with
      | none => .error Fault.nil_deref
      | some df =>
        if sf.Result.isSome != df.Result.isSome then .ok (false, [])
        else if sf.Params.length != df.Params.length then .ok (false, [])
        else
          match check_fn_loop chk sf.Params df.Params with
          | .error e => .error e
          | .ok (false, l) => .ok (false, l)
          | .ok (true, l) =>
            if sf.Result.isSome then
              match chk false df.Result sf.Result with
              | .error e => .error e
              | .ok (b, l2) => .ok (b, l ++ l2)
            else .ok (true, l)

/-- The method `check_enum`. -/
def check_enum (dest src : TypeKind) : Run Bool :=
  match src.Enm with
  | none => .ok (false, [])
  | some r =>
    match dest.Enm with
    | none => .ok (false, [])
    | some d => .ok (d.Id == r.Id, [])

/-- The method `check`: every recursive entry spends one unit of fuel. -/
def check (env : Env) : Nat → Checker
  | 0, _, _, _ => .error Fault.out_of_fuel
  | fuel + 1, deref, dest, src =>
    match src with
    | none => .ok (false, [])
    | some src =>
      match dest with
      | none => .error Fault.nil_deref
      | some dest =>
        if dest.Ref.isSome then check_ref env (check env fuel) deref dest src
        else
          let src := match src.Ref with
            | some e => e
            | none => src
          if dest.Trt.isSome then check_trait dest src
          else if dest.Ptr.isSome then check_ptr (check env fuel) dest src
          else if dest.Slc.isSome then check_slc (check env fuel) dest src
          else if dest.Arr.isSome then check_arr (check env fuel) dest src
          else if dest.Map.isSome then check_map (check env fuel) dest src
          else if dest.Enm.isSome then check_enum dest src
          else if dest.Strct.isSome then check_struct (check env fuel) dest src
          else if dest.Fnc.isSome then check_fn (check env fuel) dest src
          else if env.is_nil_compatible dest then .ok (src.Is_nil, [])
          else .ok (env.types.Types_are_compatible (env.To_str dest) (env.To_str src), [])

end TypeCompatibilityChecker

/-! ## Constant narrowing (type2.go) -/

/-- The function `float_assignable`. -/
def float_assignable (env : Env) (kind : String) (c : Const) : Bool :=
  let value := env.FormatFloat c.Read_f64
  env.types.Check_bit_float value (env.types.Bitsize_of kind)

/-- The function `sig_assignable`, on the constant of the data. -/
def sig_assignable (ty : Types) (kind : String) (c : Const) : Bool :=
  let min := ty.Min_of kind
  let max := ty.Max_of kind
  if c.Is_f64 then
    let x := c.Read_f64
    let (i, frac) := F64.Modf x
    if frac.ne_zero then false
    else F64.le min i && F64.le i max
  else if c.Is_u64 then
    let x := F64.of_u64 c.Read_u64
    if F64.le x max then true else false
  else if c.Is_i64 then
    let x := F64.of_i64 c.Read_i64
    F64.le min x && F64.le x max
  else false

/-- The function `unsig_assignable`, on the constant of the data. -/
def unsig_assignable (ty : Types) (kind : String) (c : Const) : Bool :=
  let max := ty.Max_of kind
  if c.Is_f64 then
    let x := c.Read_f64
    if F64.lt x F64.zero then false
    else
      let (i, frac) := F64.Modf x
      if frac.ne_zero then false
      else F64.le i max
  else if c.Is_u64 then
    let x := F64.of_u64 c.Read_u64
    if F64.le x max then true else false
  else if c.Is_i64 then
    let x := F64.of_i64 c.Read_i64
    F64.le F64.zero x && F64.le x max
  else false

/-- The function `int_assignable`, on the constant of the data. -/
def int_assignable (ty : Types) (kind : String) (c : Const) : Bool :=
  if ty.Is_sig_int kind then sig_assignable ty kind c
  else if ty.Is_unsig_int kind then unsig_assignable ty kind c
  else false

/-! ## Assignment type checker (type2.go) -/

/-- Modelled from the spec: `_Sema.check_type_compatibility` (outside the
sources), the entry of the Type Compatibility Checker used by the assignment
checker: it runs `check` and, when the types are incompatible, logs
`incompatible_types` with both renderings. -/
def check_type_compatibility (env : Env) (fuel : Nat) (dest src : TypeKind) (deref : Bool) :
    Run Bool :=
  match TypeCompatibilityChecker.check env fuel deref (some dest) (some src) with
  | .error e => .error e
  | .ok (true, l) => .ok (true, l)
  | .ok (false, l) => .ok (false, l ++ [⟨"incompatible_types", [env.To_str dest, env.To_str src]⟩])

namespace AssignTypeChecker

/-- The method `check_validity`: validity and the diagnostics pushed. -/
def check_validity (d : Data) : Bool × List Diag :=
  match d.Kind.Fnc with
  | some f =>
    if f.Is_builtin then (false, [⟨"builtin_as_anonymous_fn", []⟩])
    else if f.Decl.Is_method then (false, [⟨"method_as_anonymous_fn", []⟩])
    else if f.Decl.Generics.length > 0 then (false, [⟨"genericed_fn_as_anonymous_fn", []⟩])
    else (true, [])
  | none =>
    if d.Kind.Tup.isSome then (false, [⟨"tuple_assign_to_single", []⟩])
    else (true, [])

/-- The method `check_const`: its result and the diagnostics pushed. -/
def check_const (env : Env) (dest : TypeKind) (d : Data) : Bool × List Diag :=
  match d.Constant, dest.Prim, d.Kind.Prim with
  | some c, some kind, some dkind =>
    if !env.types.Is_num dkind then (false, [])
    else if env.types.Is_float kind then
      if !float_assignable env kind c then (false, [⟨"overflow_limits", []⟩]) else (true, [])
    else if env.types.Is_int kind then
      if !int_assignable env.types kind c then (false, [⟨"overflow_limits", []⟩]) else (true, [])
    else (false, [])
  | _, _, _ => (false, [])

/-- The method `check`; `compat` stands for `atc.s.check_type_compatibility`. -/
def check (env : Env) (compat : TypeKind → TypeKind → Bool → Run Bool) (deref : Bool)
    (dest : TypeKind) (d : Option Data) : Run Bool :=
  match d with
  | none => .ok (false, [])
  | some d =>
    let v := check_validity d
    if !v.1 then .ok (false, v.2)
    else if d.Variadiced then
      .ok (false, v.2 ++ [⟨"incompatible_types", [env.To_str dest, env.To_str d.Kind ++ "..."]⟩])
    else
      let c := check_const env dest d
      if c.1 then .ok (true, v.2 ++ c.2)
      else
        match compat dest d.Kind deref with
        | .error e => .error e
        | .ok (b, l) => .ok (b, v.2 ++ c.2 ++ l)

end AssignTypeChecker

/-! ## Dynamic type annotation (type2.go)

The walker's cursor `dta.k` is passed as the parameter-shape node under the
cursor. The write `(*dta.k).kind = k` changes that node of the parameter shape
only; no node is read again after it within one run, so the methods are given
by their result, the instance's generic slots afterwards and the diagnostics.
The parameter shape as the run leaves it, which the next reader of the
parameter's type sees, is given after them (`written_kind`). -/

namespace DynamicTypeAnnotation

/-- The method `push_generic`: the generic slots afterwards and the diagnostics
pushed; writing beyond the slots panics. -/
def push_generic (f : FnIns) (k : TypeKind) (i : Nat) : Except Fault (FnIns × List Diag) :=
  let l := if k.Enm.isSome then [(⟨"enum_not_supports_as_generic", []⟩ : Diag)] else []
  if i < f.Generics.length then .ok (f.set_Generics (f.Generics.set i (some k)), l)
  else .error Fault.index_out_of_range

/-- Loop of `annotate_any` (and of `annotate_prim`, which has the same body):
`for i, g := range dta.f.Decl.Generics`, from index `i`, where `kind` is the
rendering of the node under the cursor. -/
def annotate_any_loop (To_str : TypeKind → String) (f : FnIns) (kind : String)
    (k : Option TypeKind) : List GenericDecl → Nat → Run (Bool × FnIns)
  | [], _ => .ok ((false, f), [])
  | g :: rest, i =>
    if kind != g.Ident then annotate_any_loop To_str f kind k rest (i + 1)
    else
      match f.Generics.get? i with
      | none => .error Fault.index_out_of_range
      | some none =>
        match k with
        | none => .error Fault.nil_deref
        | some kk =>
          match push_generic f kk i with
          | .error e => .error e
          | .ok (f1, l) => .ok ((true, f1), l)
      | some (some t) =>
        match k with
        | none => .error Fault.nil_deref
        | some kk =>
          if To_str t != To_str kk then .ok ((false, f), [])
          else .ok ((true, f), [])

/-- The method `annotate_any`. -/
def annotate_any (To_str : TypeKind → String) (f : FnIns) (p : TypeKind)
    (k : Option TypeKind) : Run (Bool × FnIns) :=
  annotate_any_loop To_str f (To_str p) k f.Decl.Generics 0

/-- The method `annotate_prim`. -/
def annotate_prim (To_str : TypeKind → String) (f : FnIns) (p : TypeKind)
    (k : Option TypeKind) : Run (Bool × FnIns) :=
  annotate_any_loop To_str f (To_str p) k f.Decl.Generics 0

/-- The recursive entry `annotate_kind` as seen by the per-shape methods:
instance, node under the cursor, argument kind. -/
abbrev Annotator := FnIns → Option TypeKind → Option TypeKind → Run (Bool × FnIns)

/-- The method `annotate_slc`. -/
def annotate_slc (ann : Annotator) (f : FnIns) (p k : TypeKind) : Run (Bool × FnIns) :=
  match p.Slc with
  | none => .ok ((false, f), [])
  | some pe =>
    match k.Slc with
    | none => .error Fault.nil_deref
    | some ke => ann f (some pe) (some ke)

/-- The method `annotate_map`. -/
def annotate_map (ann : Annotator) (f : FnIns) (p k : TypeKind) : Run (Bool × FnIns) :=
  match p.Map with
  | none => .ok ((false, f), [])
  | some (pk, pv) =>
    match k.Map with
    | none => .error Fault.nil_deref
    | some (mk, mv) =>
      match ann f (some pk) (some mk) with
      | .error e => .error e
      | .ok ((false, f1), l) => .ok ((false, f1), l)
      | .ok ((true, f1), l) =>
        match ann f1 (some pv) (some mv) with
        | .error e => .error e
        | .ok (r, l2) => .ok (r, l ++ l2)

/-- Loop of `annotate_fn`: `for i, fp := range f.Params`, over the remaining
argument entries and the parameter-shape entries at the same positions; every
entry is annotated, whatever the earlier results. -/
def annotate_fn_loop (ann : Annotator) :
    FnIns → Bool → List (Option ParamIns) → List (Option ParamIns) → Run (Bool × FnIns)
  | f, ok, [], _ => .ok ((ok, f), [])
  | _, _, _ :: _, [] => .error Fault.index_out_of_range
  | f, ok, fp :: frest, pfp :: prest =>
    match pfp with
    | none => .error Fault.nil_deref
    | some pp =>
      match fp with
      | none => .error Fault.nil_deref
      | some ap =>
        match ann f pp.Kind ap.Kind with
        | .error e => .error e
        | .ok ((b, f1), l) =>
          match annotate_fn_loop ann f1 (b && ok) frest prest with
          | .error e => .error e
          | .ok (r, l2) => .ok (r, l ++ l2)

/-- The method `annotate_fn`. -/
def annotate_fn (ann : Annotator) (f : FnIns) (p k : TypeKind) : Run (Bool × FnIns) :=
  match p.Fnc with
  | none => .ok ((false, f), [])
  | some pf =>
    match k.Fnc with
    | none => .error Fault.nil_deref
    | some kf =>
      if pf.Params.length != kf.Params.length then .ok ((false, f), [])
      else if pf.Decl.Is_void != kf.Decl.Is_void then .ok ((false, f), [])
      else
        match annotate_fn_loop ann f true kf.Params pf.Params with
        | .error e => .error e
        | .ok ((ok, f1), l) =>
          if !pf.Decl.Is_void then
            match ann f1 pf.Result kf.Result with
            | .error e => .error e
            | .ok ((b, f2), l2) => .ok ((b && ok, f2), l ++ l2)
          else .ok ((ok, f1), l)

/-- The method `annotate_ptr`. -/
def annotate_ptr (ann : Annotator) (f : FnIns) (p k : TypeKind) : Run (Bool × FnIns) :=
  match p.Ptr with
  | none => .ok ((false, f), [])
  | some pe =>
    match k.Ptr with
    | none => .error Fault.nil_deref
    | some ke => ann f pe ke

/-- The method `annotate_kind`: every recursive entry spends one unit of fuel. -/
def annotate_kind (To_str : TypeKind → String) : Nat → Annotator
  | 0, _, _, _ => .error Fault.out_of_fuel
  | fuel + 1, f, p, k =>
    match p with
    | none => .ok ((false, f), [])
    | some p =>
      match annotate_any To_str f p k with
      | .error e => .error e
      | .ok ((true, f1), l) => .ok ((true, f1), l)
      | .ok ((false, f1), l) =>
        match k with
        | none => .error Fault.nil_deref
        | some k =>
          let r :=
            if k.Prim.isSome then annotate_prim To_str f1 p (some k)
            else if k.Slc.isSome then annotate_slc (annotate_kind To_str fuel) f1 p k
            else if k.Map.isSome then annotate_map (annotate_kind To_str fuel) f1 p k
            else if k.Fnc.isSome then annotate_fn (annotate_kind To_str fuel) f1 p k
            else if k.Ptr.isSome then annotate_ptr (annotate_kind To_str fuel) f1 p k
            else .ok ((false, f1), [])
          match r with
          | .error e => .error e
          | .ok (x, l2) => .ok (x, l ++ l2)

/-- The method `annotate`: parameter instance `p`, argument data `a`. -/
def annotate (To_str : TypeKind → String) (fuel : Nat) (f : FnIns) (p : ParamIns) (a : Data) :
    Run (Bool × FnIns) :=
  annotate_kind To_str fuel f p.Kind (some a.Kind)

/-! ### The parameter shape as a run writes it

The assignment `(*dta.k).kind = k` is executed exactly where `annotate_any` or
`annotate_prim` returns true, on the node under the cursor; `set_kind node k` is
that node afterwards. The functions below give the node under the cursor as a
run leaves it, whatever the run returns: they follow the walk of the methods
above and take the result of each step, and the instance it leaves, from them. -/

/-- The node under the cursor after a run, as seen by the per-shape functions:
instance, node under the cursor, argument kind. -/
abbrev Writer := FnIns → Option TypeKind → Option TypeKind → Option TypeKind

/-- The node after `annotate_any`: assigned `k` when the method returns true. -/
def written_any (To_str : TypeKind → String) (set_kind : TypeKind → TypeKind → TypeKind)
    (f : FnIns) (p : TypeKind) (k : Option TypeKind) : TypeKind :=
  match annotate_any To_str f p k, k with
  | .ok ((true, _), _), some kk => set_kind p kk
  | _, _ => p

/-- The node after `annotate_prim`: assigned `k` when the method returns true. -/
def written_prim (To_str : TypeKind → String) (set_kind : TypeKind → TypeKind → TypeKind)
    (f : FnIns) (p : TypeKind) (k : Option TypeKind) : TypeKind :=
  match annotate_prim To_str f p k, k with
  | .ok ((true, _), _), some kk => set_kind p kk
  | _, _ => p

/-- The node after `annotate_slc`: the walk goes on in the element
(`dta.k = &pslc.Elem`). -/
def written_slc (wr : Writer) (f : FnIns) (p k : TypeKind) : TypeKind :=
  match p, k.Slc with
  | TypeKind.slc pe, some ke => TypeKind.slc ((wr f (some pe) (some ke)).getD pe)
  | _, _ => p

/-- The node after `annotate_map`: the key is walked, and the value only when
the key's walk returned true, on the instance the key's walk left. -/
def written_map (ann : Annotator) (wr : Writer) (f : FnIns) (p k : TypeKind) : TypeKind :=
  match p, k.Map with
  | TypeKind.map pk pv, some (mk, mv) =>
    let pk1 := (wr f (some pk) (some mk)).getD pk
    match ann f (some pk) (some mk) with
    | .ok ((true, f1), _) => TypeKind.map pk1 ((wr f1 (some pv) (some mv)).getD pv)
    | _ => TypeKind.map pk1 pv
  | _, _ => p

/-- The parameter-shape entries after the loop of `annotate_fn`
(`dta.k = &pfp.Kind` at every position), over the remaining argument entries
and the shape entries at the same positions. -/
def written_fn_loop (ann : Annotator) (wr : Writer) :
    FnIns → List (Option ParamIns) → List (Option ParamIns) → List (Option ParamIns)
  | _, [], prest => prest
  | _, _ :: _, [] => []
  | f, fp :: frest, pfp :: prest =>
    match pfp, fp with
    | some pp, some ap =>
      let pp1 : Option ParamIns := some (ParamIns.mk pp.Decl (wr f pp.Kind ap.Kind))
      match ann f pp.Kind ap.Kind with
      | .ok ((_, f1), _) => pp1 :: written_fn_loop ann wr f1 frest prest
      | .error _ => pp1 :: prest
    | _, _ => pfp :: prest

/-- The node after `annotate_fn`: the parameter entries are walked, then the
result (`dta.k = &pf.Result`) when the shape is not void. -/
def written_fn (ann : Annotator) (wr : Writer) (f : FnIns) (p k : TypeKind) : TypeKind :=
  match p, k.Fnc with
  | TypeKind.fnc pf, some kf =>
    if pf.Params.length != kf.Params.length then p
    else if pf.Decl.Is_void != kf.Decl.Is_void then p
    else
      let ps := written_fn_loop ann wr f kf.Params pf.Params
      match annotate_fn_loop ann f true kf.Params pf.Params with
      | .error _ => TypeKind.fnc (FnIns.mk pf.Decl pf.Generics ps pf.Result pf.caller pf.anon)
      | .ok ((_, f1), _) =>
        if !pf.Decl.Is_void then
          TypeKind.fnc
            (FnIns.mk pf.Decl pf.Generics ps (wr f1 pf.Result kf.Result) pf.caller pf.anon)
        else TypeKind.fnc (FnIns.mk pf.Decl pf.Generics ps pf.Result pf.caller pf.anon)
  | _, _ => p

/-- The node after `annotate_ptr`: the walk goes on in the element
(`dta.k = &pptr.Elem`). -/
def written_ptr (wr : Writer) (f : FnIns) (p k : TypeKind) : TypeKind :=
  match p, k.Ptr with
  | TypeKind.ptr pe, some ke => TypeKind.ptr (wr f pe ke)
  | _, _ => p

/-- The node under the cursor after `annotate_kind`, with the fuel of the
run. -/
def written_kind (To_str : TypeKind → String) (set_kind : TypeKind → TypeKind → TypeKind) :
    Nat → Writer
  | 0, _, p, _ => p
  | fuel + 1, f, p, k =>
    match p with
    | none => none
    | some p =>
      match annotate_any To_str f p k with
      | .error _ => some p
      | .ok ((true, _), _) => some (written_any To_str set_kind f p k)
      | .ok ((false, f1), _) =>
        match k with
        | none => some p
        | some k =>
          if k.Prim.isSome then some (written_prim To_str set_kind f1 p (some k))
          else if k.Slc.isSome then
            some (written_slc (written_kind To_str set_kind fuel) f1 p k)
          else if k.Map.isSome then
            some (written_map (annotate_kind To_str fuel) (written_kind To_str set_kind fuel)
              f1 p k)
          else if k.Fnc.isSome then
            some (written_fn (annotate_kind To_str fuel) (written_kind To_str set_kind fuel)
              f1 p k)
          else if k.Ptr.isSome then
            some (written_ptr (written_kind To_str set_kind fuel) f1 p k)
          else some p

/-- The parameter instance after `annotate`: the object `dta.p.Kind` points to
is the one the run writes. -/
def annotated (To_str : TypeKind → String) (set_kind : TypeKind → TypeKind → TypeKind)
    (fuel : Nat) (f : FnIns) (p : ParamIns) (a : Data) : ParamIns :=
  ParamIns.mk p.Decl (written_kind To_str set_kind fuel f p.Kind (some a.Kind))

end DynamicTypeAnnotation

/-! ## Syntax tree nodes (ast/node.go) and the evaluator -/

/-- Modelled from the spec: the lexer token (`lex.Token`, outside the sources):
its text (`Kind`) and its position. -/
structure Token where
  Kind : String
  Row : Nat
  Column : Nat
  deriving DecidableEq, Repr

/-- The dynamic shapes of `ast.ExprData` (node.go) that the checkers switch on:
`*IdentExpr`, `*LitExpr`, `*VariadicExpr`, `*KeyValPair`, `*FieldExprPair`,
`*Expr`; every other node kind is `other`. -/
inductive ExprData : Type
  | ident_expr (Token : Token) (Ident : String)
  | lit_expr (Token : Token) (Value : String)
  | variadic_expr (Token : Token) (Expr : ExprData)
  | key_val_pair (Key : ExprData) (Val : ExprData) (Colon : Token)
  | field_expr_pair (Field : Token) (Expr : ExprData)
  | expr (Token : Token) (Kind : ExprData)
  | other (id : Nat)
  deriving DecidableEq, Repr

/-- Expression of node.go: `Expr`. -/
structure Expr where
  Token : Sema.Token
  Kind : ExprData
  deriving DecidableEq, Repr

/-- The evaluator and the `_Sema` methods the binders call, all declared outside
the sources: `eval_expr_kind` under a given evaluation hint (the evaluator's
`prefix` field), returning the data or nil and the diagnostics it logs;
`check_validity_for_init_expr` and `check_assign_type`, of which the binders use
only the diagnostics they log; the rendering of resolved types; and
`set_kind node k`, the node of a type after the assignment `node.kind = k` of
dynamic annotation (the representation of `TypeKind` is outside the sources). -/
structure Host where
  To_str : TypeKind → String
  eval_expr_kind : Option TypeKind → ExprData → Option Data × List Diag
  check_validity_for_init_expr : Bool → Option TypeKind → Data → List Diag
  check_assign_type : Option TypeKind → Data → Bool → List Diag
  set_kind : TypeKind → TypeKind → TypeKind

/-- Loop shared by `check_counts` and `_StructLitChecker.check`:
`for ; diff > 0; diff-- { idents += ", " + x[n-diff].Decl.Ident }`, where
`ident_at j` reads `x[j].Decl.Ident`. -/
def idents_loop (ident_at : Nat → Except Fault String) (n : Nat) :
    Nat → String → Except Fault String
  | 0, idents => .ok idents
  | diff + 1, idents =>
    match ident_at (n - (diff + 1)) with
    | .error e => .error e
    | .ok x => idents_loop ident_at n diff (idents ++ (", " ++ x))

/-! ## Call argument binder (type2.go) -/

/-- Payload of `*SliceExprModel`. -/
structure SliceExprModel where
  Elem_kind : Option TypeKind
  Elems : List ExprModel

/-- The slice model as an expression model. -/
def SliceExprModel.to_model (m : SliceExprModel) : ExprModel :=
  ExprModel.slice m.Elem_kind m.Elems

/-- The receiver `_FnCallArgChecker`, as far as its methods only read it: the
argument expressions, the annotation flag and the evaluation hint in force on
entry (the evaluator's `prefix`, restored by every method that changes it). -/
structure FnCallArgChecker where
  args : List Expr
  dynamic_annotation : Bool
  eval_hint : Option TypeKind

/-- The fields of `_FnCallArgChecker` its methods assign: the target instance
(its generic slots are bound by annotation) and the argument models. -/
structure CallState where
  f : FnIns
  arg_models : List ExprModel

namespace FnCallArgChecker

/-- The declaration of the parameter entry at index `j`; a missing entry or a
missing declaration panics. -/
def decl_at (params : List (Option ParamIns)) (j : Nat) : Except Fault Param :=
  match params.get? j with
  | none => .error Fault.index_out_of_range
  | some none => .error Fault.nil_deref
  | some (some p) =>
    match p.Decl with
    | none => .error Fault.nil_deref
    | some d => .ok d

/-- The method `get_params`. -/
def get_params (st : CallState) : Except Fault (List (Option ParamIns)) :=
  match st.f.Params with
  | [] => .ok []
  | none :: _ => .error Fault.nil_deref
  | some p :: rest =>
    match p.Decl with
    | none => .ok (some p :: rest)
    | some d => if d.Is_self then .ok rest else .ok (some p :: rest)

/-- The method `check_counts`; `idents[2:]` removes the first separator. -/
def check_counts (fc : FnCallArgChecker) (params : List (Option ParamIns)) : Run Bool :=
  let self0 : Except Fault Bool :=
    if params.length > 0 then (decl_at params 0).map Param.Is_self else .ok false
  match self0 with
  | .error e => .error e
  | .ok s0 =>
    let n : Nat := if s0 then params.length - 1 else params.length
    let diff : Int := (n : Int) - (fc.args.length : Int)
    if diff == 0 then .ok (true, [])
    else
      let variadic : Except Fault Bool :=
        if n > 0 then (decl_at params (n - 1)).map Param.Variadic else .ok false
      match variadic with
      | .error e => .error e
      | .ok true => .ok (true, [])
      | .ok false =>
        if diff < 0 || diff > (params.length : Int) then
          .ok (false, [⟨"argument_overflow", []⟩])
        else
          match idents_loop (fun j => (decl_at params j).map Param.Ident) n diff.toNat "" with
          | .error e => .error e
          | .ok idents => .ok (false, [⟨"missing_expr_for", [idents.drop 2]⟩])

/-- The parameter instance as `check_arg` leaves it: with dynamic annotation
active the run of `annotate` has written its type in place. Every later reader of
`p.Kind` in the binder sees this instance: the two `_Sema` checks of the same
call, and for a variadic parameter the evaluation hint, the annotation of the
next argument and the element kind of the slice model. The list `f.Params` of
the state, which the binder does not read again, is left as it was. -/
def written_param (h : Host) (fuel : Nat) (fc : FnCallArgChecker) (f : FnIns) (p : ParamIns)
    (arg : Data) : ParamIns :=
  if fc.dynamic_annotation then
    DynamicTypeAnnotation.annotated h.To_str h.set_kind fuel f p arg
  else p

/-- The method `check_arg`. The two `_Sema` checks run after annotation and
receive the parameter's kind as annotation has written it. -/
def check_arg (h : Host) (fuel : Nat) (fc : FnCallArgChecker) (st : CallState) (p : ParamIns)
    (arg : Data) : Run (Bool × CallState) :=
  let annotated : Run (Bool × CallState) :=
    if fc.dynamic_annotation then
      match DynamicTypeAnnotation.annotate h.To_str fuel st.f p arg with
      | .error e => .error e
      | .ok ((false, f1), l) =>
        .ok ((false, ⟨f1, st.arg_models⟩), l ++ [⟨"dynamic_type_annotation_failed", []⟩])
      | .ok ((true, f1), l) => .ok ((true, ⟨f1, st.arg_models⟩), l)
    else .ok ((true, st), [])
  match annotated with
  | .error e => .error e
  | .ok ((false, st1), l) => .ok ((false, st1), l)
  | .ok ((true, st1), l) =>
    match p.Decl with
    | none => .error Fault.nil_deref
    | some d =>
      let q := written_param h fuel fc st.f p arg
      .ok ((true, st1),
        l ++ h.check_validity_for_init_expr d.Mutable q.Kind arg
          ++ h.check_assign_type q.Kind arg false)

/-- The method `push`. -/
def push (h : Host) (fuel : Nat) (fc : FnCallArgChecker) (st : CallState) (p : ParamIns)
    (arg : Expr) : Run (Bool × CallState) :=
  let r :=
    if fc.dynamic_annotation then h.eval_expr_kind fc.eval_hint arg.Kind
    else h.eval_expr_kind p.Kind arg.Kind
  match r.1 with
  | none => .ok ((false, st), r.2)
  | some d =>
    match check_arg h fuel fc ⟨st.f, st.arg_models ++ [d.Model]⟩ p d with
    | .error e => .error e
    | .ok (x, l) => .ok (x, r.2 ++ l)

/-- Local variables of `push_variadic` across its loop: `ok`, `variadiced`,
`model` (nil-able) and the assigned fields of the receiver. -/
structure VariadicState where
  ok : Bool
  variadiced : Bool
  model : Option SliceExprModel
  st : CallState

/-- The slice model under construction once the parameter's type has been
written: its `Elem_kind` is that type, the same object. -/
def retyped (k : Option TypeKind) : Option SliceExprModel → Option SliceExprModel
  | none => none
  | some m => some ⟨k, m.Elems⟩

/-- Loop of `push_variadic`: `for ; i < len(fcac.args); i++`, over the remaining
arguments, with the parameter as the arguments before left it. The evaluation
hint and `Elem_kind` of the model are the object `p.Kind`, so both follow what
`check_arg` writes; a spread slice literal is the model itself, which the two
`_Sema` checks of `check_arg` see with the type as written. -/
def push_variadic_loop (h : Host) (fuel : Nat) (fc : FnCallArgChecker) :
    ParamIns → List Expr → VariadicState → Run VariadicState
  | _, [], v => .ok (v, [])
  | p, arg :: rest, v =>
    let r := h.eval_expr_kind p.Kind arg.Kind
    match r.1 with
    | none =>
      match push_variadic_loop h fuel fc p rest ⟨false, v.variadiced, v.model, v.st⟩ with
      | .error e => .error e
      | .ok (v1, l) => .ok (v1, r.2 ++ l)
    | some d =>
      let q := written_param h fuel fc v.st.f p d
      let step : Except Fault (VariadicState × Data) :=
        if d.Variadiced then
          -- d.Variadiced = false: for ignore assignment checking error.
          match d.Model with
          | ExprModel.slice _ elems =>
            .ok (⟨v.ok, true, some ⟨p.Kind, elems⟩, v.st⟩,
              ⟨d.Kind, d.Constant, d.Mutable, false, ExprModel.slice q.Kind elems⟩)
          | m =>
            .ok (⟨v.ok, true, none, ⟨v.st.f, v.st.arg_models ++ [m]⟩⟩,
              ⟨d.Kind, d.Constant, d.Mutable, false, m⟩)
        else
          match v.model with
          | none => .error Fault.nil_deref
          | some m => .ok (⟨v.ok, v.variadiced, some ⟨m.Elem_kind, m.Elems ++ [d.Model]⟩, v.st⟩, d)
      match step with
      | .error e => .error e
      | .ok (v1, d1) =>
        match check_arg h fuel fc v1.st p d1 with
        | .error e => .error e
        | .ok ((b, st2), l) =>
          match push_variadic_loop h fuel fc q rest
              ⟨b && v1.ok, v1.variadiced, retyped q.Kind v1.model, st2⟩ with
          | .error e => .error e
          | .ok (v2, l2) => .ok (v2, r.2 ++ l ++ l2)

/-- The method `push_variadic`. -/
def push_variadic (h : Host) (fuel : Nat) (fc : FnCallArgChecker) (st : CallState)
    (p : ParamIns) (i : Nat) : Run (Bool × CallState) :=
  let more := decide (i + 1 < fc.args.length)
  match push_variadic_loop h fuel fc p (fc.args.drop i) ⟨true, false, some ⟨p.Kind, []⟩, st⟩ with
  | .error e => .error e
  | .ok (v, l) =>
    let l1 : List Diag := if v.variadiced && more then [⟨"more_args_with_variadiced", []⟩] else []
    match v.model with
    | some m => .ok ((v.ok, ⟨v.st.f, v.st.arg_models ++ [m.to_model]⟩), l ++ l1)
    | none => .ok ((v.ok, v.st), l ++ l1)

/-- Loop of `check_args`: `for i < len(params)`, from index `i`. -/
def check_args_loop (h : Host) (fuel : Nat) (fc : FnCallArgChecker) :
    List (Option ParamIns) → Nat → Bool → CallState → Run (Bool × CallState)
  | [], _, ok, st => .ok ((ok, st), [])
  | none :: _, _, _, _ => .error Fault.nil_deref
  | some p :: rest, i, ok, st =>
    match p.Decl with
    | none => .error Fault.nil_deref
    | some d =>
      if d.Is_self then check_args_loop h fuel fc rest (i + 1) ok st
      else if d.Variadic then
        match push_variadic h fuel fc st p i with
        | .error e => .error e
        | .ok ((b, st1), l) => .ok ((b && ok, st1), l)
      else if fc.args.length ≤ i then .ok ((false, st), [])
      else
        match fc.args.get? i with
        | none => .error Fault.index_out_of_range
        | some arg =>
          match push h fuel fc st p arg with
          | .error e => .error e
          | .ok ((b, st1), l) =>
            match check_args_loop h fuel fc rest (i + 1) (b && ok) st1 with
            | .error e => .error e
            | .ok (x, l2) => .ok (x, l ++ l2)

/-- The method `check_args`. -/
def check_args (h : Host) (fuel : Nat) (fc : FnCallArgChecker) (st : CallState)
    (params : List (Option ParamIns)) : Run (Bool × CallState) :=
  check_args_loop h fuel fc params 0 true st

/-- The method `check_dynamic_type_annotation`: result and diagnostics. -/
def check_dynamic_type_annotation : List (Option TypeKind) → Bool × List Diag
  | [] => (true, [])
  | none :: _ => (false, [⟨"dynamic_type_annotation_failed", []⟩])
  | some _ :: rest => check_dynamic_type_annotation rest

/-- The method `check`. -/
def check (h : Host) (fuel : Nat) (fc : FnCallArgChecker) (st : CallState) :
    Run (Bool × CallState) :=
  match get_params st with
  | .error e => .error e
  | .ok params =>
    match check_counts fc params with
    | .error e => .error e
    | .ok (false, l) => .ok ((false, st), l)
    | .ok (true, l) =>
      match check_args h fuel fc st params with
      | .error e => .error e
      | .ok ((ok, st1), l2) =>
        if ok && fc.dynamic_annotation then
          let r := check_dynamic_type_annotation st1.f.Generics
          .ok ((r.1, st1), l ++ l2 ++ r.2)
        else .ok ((ok, st1), l ++ l2)

end FnCallArgChecker

/-! ## Struct literal checker (type2.go) -/

/-- Argument model of a struct literal (`StructArgExprModel`): the field and the
lowered expression bound to it. -/
structure StructArgExprModel where
  Field : FieldIns
  Expr : ExprModel

/-- Modelled from the spec: `StructIns.Find_field` (outside the sources):
resolves a field by identifier, nil when the struct has no such field. -/
def StructIns.Find_field (s : StructIns) (ident : String) : Option FieldIns :=
  s.Fields.find? (fun f => f.Decl.Ident == ident)

/-- The identifier of the field at index `j` (`slc.s.Fields[j].Decl.Ident`). -/
def field_ident_at (s : StructIns) (j : Nat) : Except Fault String :=
  match s.Fields.get? j with
  | none => .error Fault.index_out_of_range
  | some f => .ok f.Decl.Ident

namespace StructLitChecker

/-- The method `push_match`: the arguments afterwards and the diagnostics. -/
def push_match (h : Host) (args : List StructArgExprModel) (f : FieldIns) (d : Data) :
    List StructArgExprModel × List Diag :=
  (args ++ [⟨f, d.Model⟩],
    h.check_validity_for_init_expr f.Decl.Mutable f.Kind d ++ h.check_assign_type f.Kind d false)

/-- The duplication lookup of `check_pair`: `for _, expr := range exprs`, from
index `idx`; the pair under check is the node at index `j` (pointer identity of
nodes is identity of positions). -/
def dup_lookup (ident : String) (j : Nat) : List ExprData → Nat → List Diag
  | [], _ => []
  | ExprData.field_expr_pair dfield _ :: rest, idx =>
    if idx == j then []
    else if ident == dfield.Kind then [⟨"already_has_expr", [ident]⟩]
    else dup_lookup ident j rest (idx + 1)
  | _ :: rest, idx => dup_lookup ident j rest (idx + 1)

/-- The method `check_pair`, for the pair `field: expr` at position `j` of
`exprs`: the arguments afterwards and the diagnostics. -/
def check_pair (h : Host) (hint : Option TypeKind) (s : StructIns)
    (args : List StructArgExprModel) (j : Nat) (field : Token) (expr : ExprData)
    (exprs : List ExprData) : List StructArgExprModel × List Diag :=
  match s.Find_field field.Kind with
  | none => (args, [⟨"ident_not_exist", [field.Kind]⟩])
  | some f =>
    let dup := dup_lookup field.Kind j exprs 0
    let r := h.eval_expr_kind hint expr
    match r.1 with
    | none => (args, dup ++ r.2)
    | some d =>
      let m := push_match h args f d
      (m.1, dup ++ r.2 ++ m.2)

/-- The method `ready_exprs`: its result, the expressions afterwards (key-value
pairs with an identifier key become field-expression pairs) and the
diagnostics. -/
def ready_exprs : List ExprData → Bool × List ExprData × List Diag
  | [] => (true, [], [])
  | ExprData.key_val_pair key val colon :: rest =>
    let r := ready_exprs rest
    match key with
    | ExprData.ident_expr tok _ => (r.1, ExprData.field_expr_pair tok val :: r.2.1, r.2.2)
    | _ => (false, ExprData.key_val_pair key val colon :: r.2.1, ⟨"invalid_syntax", []⟩ :: r.2.2)
  | e :: rest =>
    let r := ready_exprs rest
    (r.1, e :: r.2.1, r.2.2)

/-- Main loop of `check`: `for i, expr := range exprs`, from index `i`; returns
`paired`, the arguments and the diagnostics. -/
def check_loop (h : Host) (hint : Option TypeKind) (s : StructIns) (exprs : List ExprData) :
    List ExprData → Nat → Bool → List StructArgExprModel →
      Bool × List StructArgExprModel × List Diag
  | [], _, paired, args => (paired, args, [])
  | ExprData.field_expr_pair field e :: rest, i, paired, args =>
    let l0 : List Diag := if i > 0 && !paired then [⟨"invalid_syntax", []⟩] else []
    let r := check_pair h hint s args i field e exprs
    let t := check_loop h hint s exprs rest (i + 1) true r.1
    (t.1, t.2.1, l0 ++ r.2 ++ t.2.2)
  | ExprData.expr _ kind :: rest, i, paired, args =>
    let l0 : List Diag := if paired then [⟨"argument_must_target_to_field", []⟩] else []
    match s.Fields.get? i with
    | none =>
      -- i >= len(slc.s.Fields)
      let t := check_loop h hint s exprs rest (i + 1) paired args
      (t.1, t.2.1, l0 ++ [⟨"argument_overflow", []⟩] ++ t.2.2)
    | some field =>
      let r := h.eval_expr_kind hint kind
      match r.1 with
      | none =>
        let t := check_loop h hint s exprs rest (i + 1) paired args
        (t.1, t.2.1, l0 ++ r.2 ++ t.2.2)
      | some d =>
        let m := push_match h args field d
        let t := check_loop h hint s exprs rest (i + 1) paired m.1
        (t.1, t.2.1, l0 ++ r.2 ++ m.2 ++ t.2.2)
  | _ :: rest, i, paired, args => check_loop h hint s exprs rest (i + 1) paired args

/-- The method `check`: the arguments of the literal afterwards and the
diagnostics; `hint` is the evaluation hint in force. -/
def check (h : Host) (hint : Option TypeKind) (s : StructIns) (args : List StructArgExprModel)
    (exprs : List ExprData) : Run (List StructArgExprModel) :=
  if exprs.length == 0 then .ok (args, [])
  else
    let r := ready_exprs exprs
    if !r.1 then .ok (args, r.2.2)
    else
      let t := check_loop h hint s r.2.1 r.2.1 0 false args
      -- Check missing arguments for fields.
      if !t.1 then
        let n := s.Fields.length
        let diff : Int := (n : Int) - (exprs.length : Int)
        if diff ≤ 0 then .ok (t.2.1, r.2.2 ++ t.2.2)
        else
          match idents_loop (field_ident_at s) n diff.toNat "" with
          | .error e => .error e
          | .ok idents =>
            .ok (t.2.1, r.2.2 ++ t.2.2 ++ [⟨"missing_expr_for", [idents.drop 2]⟩])
      else .ok (t.2.1, r.2.2 ++ t.2.2)

end StructLitChecker

/-! ## Scope-level checkers: declarations they share (ast/node.go, type2.go) -/

/-- Variable declaration of node.go: `VarDecl`. The fields that are other tree
nodes (`Scope`, `Doc_comments`, `Kind`, `Expr`) are read by no checker below and
are left out. -/
structure VarDecl where
  Token : Token
  Ident : String
  Cpp_linked : Bool
  Public : Bool
  Mutable : Bool
  Constant : Bool
  deriving DecidableEq, Repr

/-- Range iteration kind of node.go: `RangeKind`. The iterated expression
`Expr` has been evaluated by the caller into the checker's data. -/
structure RangeKind where
  In_token : Token
  Key_a : Option VarDecl
  Key_b : Option VarDecl
  deriving DecidableEq, Repr

/-- Modelled from the spec: the variable (`sema.Var`, outside the sources), of
which the checkers read and write the identifier, the mutability and the type
symbol. -/
structure Var where
  Ident : String
  Mutable : Bool
  Kind : Option TypeSymbol

/-- The variable with its `Kind` field assigned. -/
def Var.set_Kind (v : Var) (k : Option TypeSymbol) : Var := ⟨v.Ident, v.Mutable, k⟩

/-- Modelled from the spec: the range iteration model (`sema.RangeIter`, outside
the sources): the materialised first and second range variables, nil when not
materialised. -/
structure RangeIter where
  Key_a : Option Var
  Key_b : Option Var

/-- What the range and return checkers call that is declared outside the
sources: `lex.Is_ignore_ident` and `lex.IGNORE_IDENT`, `build_var`, `is_mut`,
`get_datas_from_tuple_data`, and the variables of the root scope
(`sc.get_root().table.Vars`). -/
structure ScopeHost where
  Is_ignore_ident : String → Bool
  IGNORE_IDENT : String
  build_var : VarDecl → Var
  is_mut : TypeKind → Bool
  get_datas_from_tuple_data : Data → List Data
  root_vars : List Var

/-- Modelled from the spec: `&TypeKind{kind: build_prim_type(types.TypeKind_INT)}`,
the `int` primitive (constructor and constant are outside the sources). -/
def prim_int : TypeKind := TypeKind.prim "int"

/-- Modelled from the spec: `&TypeKind{kind: build_prim_type(types.TypeKind_U8)}`,
the `u8` byte primitive. -/
def prim_u8 : TypeKind := TypeKind.prim "u8"

/-- Modelled from the spec: `Prim.Is_str` (outside the sources): the primitive is
the string type. -/
def Prim_Is_str (kind : String) : Bool := kind == "str"

/-! ## Range checker (type2.go) -/

/-- Range checker and setter: the fields of `_RangeChecker` that a run reads and
writes; `d` and `kind` are pointers, so the caller sees them as the run leaves
them. -/
structure RangeChecker where
  rang : RangeKind
  kind : RangeIter
  d : Data

namespace RangeChecker

/-- The checker with `kind.Key_a` assigned. -/
def set_Key_a (rc : RangeChecker) (v : Var) : RangeChecker :=
  ⟨rc.rang, ⟨some v, rc.kind.Key_b⟩, rc.d⟩

/-- The checker with `kind.Key_b` assigned. -/
def set_Key_b (rc : RangeChecker) (v : Var) : RangeChecker :=
  ⟨rc.rang, ⟨rc.kind.Key_a, some v⟩, rc.d⟩

/-- The method `build_var`. -/
def build_var (sh : ScopeHost) (decl : VarDecl) : Var := sh.build_var decl

/-- The method `set_size_key`. -/
def set_size_key (sh : ScopeHost) (rc : RangeChecker) : RangeChecker :=
  match rc.rang.Key_a with
  | none => rc
  | some ka =>
    if sh.Is_ignore_ident ka.Ident then rc
    else rc.set_Key_a ((build_var sh ka).set_Kind (some (TypeSymbol.mk (some prim_int))))

/-- The method `check_slice`: the checker afterwards and the diagnostics of
`check_validity_for_init_expr`. -/
def check_slice (h : Host) (sh : ScopeHost) (rc : RangeChecker) : Run RangeChecker :=
  let rc := set_size_key sh rc
  match rc.rang.Key_b with
  | none => .ok (rc, [])
  | some kb =>
    if sh.Is_ignore_ident kb.Ident then .ok (rc, [])
    else
      match rc.d.Kind.Slc with
      | none => .error Fault.nil_deref
      | some elem =>
        let v := (build_var sh kb).set_Kind (some (TypeSymbol.mk (some elem)))
        .ok (rc.set_Key_b v, h.check_validity_for_init_expr v.Mutable (some elem) rc.d)

/-- The method `check_array`. -/
def check_array (h : Host) (sh : ScopeHost) (rc : RangeChecker) : Run RangeChecker :=
  let rc := set_size_key sh rc
  match rc.rang.Key_b with
  | none => .ok (rc, [])
  | some kb =>
    if sh.Is_ignore_ident kb.Ident then .ok (rc, [])
    else
      match rc.d.Kind.Arr with
      | none => .error Fault.nil_deref
      | some (_, elem) =>
        let v := (build_var sh kb).set_Kind (some (TypeSymbol.mk (some elem)))
        .ok (rc.set_Key_b v, h.check_validity_for_init_expr v.Mutable (some elem) rc.d)

/-- The method `check_map_key_a`; the validity check receives a copy of the
data whose kind is the key type. -/
def check_map_key_a (h : Host) (sh : ScopeHost) (rc : RangeChecker) : Run RangeChecker :=
  match rc.rang.Key_a with
  | none => .ok (rc, [])
  | some ka =>
    if sh.Is_ignore_ident ka.Ident then .ok (rc, [])
    else
      match rc.d.Kind.Map with
      | none => .error Fault.nil_deref
      | some (key, _) =>
        let v := (build_var sh ka).set_Kind (some (TypeSymbol.mk (some key)))
        let d : Data := ⟨key, rc.d.Constant, rc.d.Mutable, rc.d.Variadiced, rc.d.Model⟩
        .ok (rc.set_Key_a v, h.check_validity_for_init_expr v.Mutable (some key) d)

/-- The method `check_map_key_b`; the validity check receives a copy of the
data whose kind is the value type. -/
def check_map_key_b (h : Host) (sh : ScopeHost) (rc : RangeChecker) : Run RangeChecker :=
  match rc.rang.Key_b with
  | none => .ok (rc, [])
  | some kb =>
    if sh.Is_ignore_ident kb.Ident then .ok (rc, [])
    else
      match rc.d.Kind.Map with
      | none => .error Fault.nil_deref
      | some (_, val) =>
        let v := (build_var sh kb).set_Kind (some (TypeSymbol.mk (some val)))
        let d : Data := ⟨val, rc.d.Constant, rc.d.Mutable, rc.d.Variadiced, rc.d.Model⟩
        .ok (rc.set_Key_b v, h.check_validity_for_init_expr v.Mutable (some val) d)

/-- The method `check_map`. -/
def check_map (h : Host) (sh : ScopeHost) (rc : RangeChecker) : Run RangeChecker :=
  match check_map_key_a h sh rc with
  | .error e => .error e
  | .ok (rc1, l) =>
    match check_map_key_b h sh rc1 with
    | .error e => .error e
    | .ok (rc2, l2) => .ok (rc2, l ++ l2)

/-- The method `check_str`. -/
def check_str (sh : ScopeHost) (rc : RangeChecker) : RangeChecker :=
  let rc := set_size_key sh rc
  match rc.rang.Key_b with
  | none => rc
  | some kb =>
    if sh.Is_ignore_ident kb.Ident then rc
    else rc.set_Key_b ((build_var sh kb).set_Kind (some (TypeSymbol.mk (some prim_u8))))

/-- The first step of `check`: a reference is replaced by its element and the
model wrapped in `ExplicitDerefExprModel`. -/
def strip_ref (rc : RangeChecker) : RangeChecker :=
  match rc.d.Kind.Ref with
  | some elem =>
    ⟨rc.rang, rc.kind,
      ⟨elem, rc.d.Constant, rc.d.Mutable, rc.d.Variadiced, ExprModel.explicit_deref rc.d.Model⟩⟩
  | none => rc

/-- The method `check`: the result, the checker afterwards and the diagnostics
pushed. -/
def check (h : Host) (sh : ScopeHost) (rc : RangeChecker) : Run (Bool × RangeChecker) :=
  let rc := strip_ref rc
  if rc.d.Kind.Slc.isSome then
    match check_slice h sh rc with
    | .error e => .error e
    | .ok (rc1, l) => .ok ((true, rc1), l)
  else if rc.d.Kind.Arr.isSome then
    match check_array h sh rc with
    | .error e => .error e
    | .ok (rc1, l) => .ok ((true, rc1), l)
  else if rc.d.Kind.Map.isSome then
    match check_map h sh rc with
    | .error e => .error e
    | .ok (rc1, l) => .ok ((true, rc1), l)
  else
    match rc.d.Kind.Prim with
    | some kind =>
      if Prim_Is_str kind then .ok ((true, check_str sh rc), [])
      else .ok ((false, rc), [⟨"iter_range_require_enumerable_expr", []⟩])
    | none => .ok ((false, rc), [⟨"iter_range_require_enumerable_expr", []⟩])

end RangeChecker

/-! ## Return type checker (type2.go) -/

/-- The function `get_fn_result_types`. -/
def get_fn_result_types (f : FnIns) : List TypeKind :=
  if f.Decl.Is_void then []
  else
    match f.Result with
    | none => []
    | some r =>
      match r.Tup with
      | none => [r]
      | some ts => ts

/-- Return type checker for return statements: the fields of `_RetTypeChecker`
that a run reads and writes. -/
structure RetTypeChecker where
  f : FnIns
  types : List TypeKind
  exprs : List Data
  vars : List Var

namespace RetTypeChecker

/-- The method `prepare_types`. -/
def prepare_types (rtc : RetTypeChecker) : RetTypeChecker :=
  ⟨rtc.f, get_fn_result_types rtc.f, rtc.exprs, rtc.vars⟩

/-- The method `prepare_exprs`. -/
def prepare_exprs (sh : ScopeHost) (rtc : RetTypeChecker) (d : Option Data) : RetTypeChecker :=
  match d with
  | none => rtc
  | some d =>
    if d.Kind.Tup.isNone then ⟨rtc.f, rtc.types, rtc.exprs ++ [d], rtc.vars⟩
    else ⟨rtc.f, rtc.types, sh.get_datas_from_tuple_data d, rtc.vars⟩

/-- Loop of `ret_vars`: `for i, ident := range rtc.f.Decl.Result.Idents`, from
index `i` with `j` real variables taken so far; it returns the variables for the
remaining identifiers and the final `j`. -/
def ret_vars_loop (sh : ScopeHost) (types : List TypeKind) :
    List String → Nat → Nat → Except Fault (List Var × Nat)
  | [], _, j => .ok ([], j)
  | ident :: rest, i, j =>
    if !sh.Is_ignore_ident ident then
      match sh.root_vars.get? j with
      | none => .error Fault.index_out_of_range
      | some v =>
        match ret_vars_loop sh types rest (i + 1) (j + 1) with
        | .error e => .error e
        | .ok (vs, j1) => .ok (v :: vs, j1)
    else
      match types.get? i with
      | none => .error Fault.index_out_of_range
      | some t =>
        match ret_vars_loop sh types rest (i + 1) j with
        | .error e => .error e
        | .ok (vs, j1) => .ok (⟨sh.IGNORE_IDENT, false, some (TypeSymbol.mk (some t))⟩ :: vs, j1)

/-- The method `ret_vars`. -/
def ret_vars (sh : ScopeHost) (rtc : RetTypeChecker) : Except Fault RetTypeChecker :=
  if rtc.f.Decl.Is_void then .ok rtc
  else
    match rtc.f.Decl.Result with
    | none => .error Fault.nil_deref
    | some r =>
      match ret_vars_loop sh rtc.types r.Idents 0 0 with
      | .error e => .error e
      | .ok (vs, j) =>
        -- Not exist any real variable.
        .ok ⟨rtc.f, rtc.types, rtc.exprs, if j == 0 then [] else vs⟩

/-- Loop of `check_exprs`: `for i, d := range rtc.exprs`, over the remaining
values and the expected types from the same position on; `compat` stands for
`s.check_type_compatibility`. -/
def check_exprs_loop (env : Env) (compat : TypeKind → TypeKind → Bool → Run Bool)
    (sh : ScopeHost) : List Data → List TypeKind → Except Fault (List Diag)
  | [], _ => .ok []
  | _ :: _, [] => .ok []
  | d :: ds, t :: ts =>
    if !d.Mutable && sh.is_mut d.Kind then .ok [⟨"ret_with_mut_typed_non_mut", []⟩]
    else
      match AssignTypeChecker.check env compat false t (some d) with
      | .error e => .error e
      | .ok (_, l) =>
        match check_exprs_loop env compat sh ds ts with
        | .error e => .error e
        | .ok l2 => .ok (l ++ l2)

/-- The method `check_exprs`: the diagnostics pushed. -/
def check_exprs (env : Env) (compat : TypeKind → TypeKind → Bool → Run Bool)
    (sh : ScopeHost) (rtc : RetTypeChecker) : Except Fault (List Diag) :=
  check_exprs_loop env compat sh rtc.exprs rtc.types

/-- The method `check`: the result, the checker afterwards and the diagnostics
pushed. -/
def check (env : Env) (compat : TypeKind → TypeKind → Bool → Run Bool) (sh : ScopeHost)
    (rtc : RetTypeChecker) (d : Option Data) : Run (Bool × RetTypeChecker) :=
  match ret_vars sh (prepare_exprs sh (prepare_types rtc) d) with
  | .error e => .error e
  | .ok rtc =>
    let n := rtc.exprs.length
    if n == 0 && !rtc.f.Decl.Is_void then
      if !rtc.f.Decl.Any_var then .ok ((false, rtc), [⟨"require_ret_expr", []⟩])
      else .ok ((true, rtc), [])
    else if n > 0 && rtc.f.Decl.Is_void then
      .ok ((false, rtc), [⟨"void_function_ret_expr", []⟩])
    else
      let count : List Diag :=
        if n > rtc.types.length then [⟨"overflow_ret", []⟩]
        else if n < rtc.types.length then [⟨"missing_multi_ret", []⟩]
        else []
      match check_exprs env compat sh rtc with
      | .error e => .error e
      | .ok l => .ok ((true, rtc), count ++ l)

end RetTypeChecker

/-! ## Diagnostic messages (build/errors.go)

A Go string is taken as the sequence of its characters. The marker `'@'` is a
single byte in UTF-8 and occurs in the encoding of no other character, so the
byte offset that `range` reports for it and the slices `fmt[:i]` and
`fmt[i+1:]` correspond to the character offset and to `take` and `drop`. -/

/-- The dynamic types of an argument that `arg_to_str` tells apart: `string`,
`byte`, `rune`, and every other type. -/
inductive FmtArg
  | string (t : List Char)
  | byte (t : Nat)
  | rune (t : Int)
  | other
  deriving DecidableEq, Repr

/-- Go's conversion `string(t)` of an integer: the character with that code
point, and U+FFFD for a value that is no valid code point. -/
def string_of_rune (t : Int) : List Char :=
  if 0 ≤ t ∧ t.toNat.isValidChar then [Char.ofNat t.toNat] else [Char.ofNat 0xFFFD]

/-- The function `arg_to_str`. -/
def arg_to_str : FmtArg → List Char
  | FmtArg.string t => t
  | FmtArg.byte t => string_of_rune (t % 256)
  | FmtArg.rune t => string_of_rune t
  | FmtArg.other => "<fmt?>".data

/-- Loop of `find_next_fmt`: `for i, b := range fmt`, from offset `i`. -/
def find_next_fmt_loop : List Char → Nat → Int
  | [], _ => -1
  | b :: rest, i => if b == '@' then (i : Int) else find_next_fmt_loop rest (i + 1)

/-- The function `find_next_fmt`. -/
def find_next_fmt (fmt : List Char) : Int := find_next_fmt_loop fmt 0

/-- Loop of `apply_fmt`: `for _, arg := range args`, with the rest of the
template and the builder `s`; after the loop the rest of the template is
written. -/
def apply_fmt_loop : List Char → List FmtArg → List Char → List Char
  | fmt, [], s => s ++ fmt
  | fmt, arg :: rest, s =>
    let i := find_next_fmt fmt
    if i == -1 then s ++ fmt
    else apply_fmt_loop (fmt.drop (i.toNat + 1)) rest (s ++ fmt.take i.toNat ++ arg_to_str arg)

/-- The function `apply_fmt`. -/
def apply_fmt (fmt : List Char) (args : List FmtArg) : List Char := apply_fmt_loop fmt args []

/-- Returns formatted error message by key and args; `ERRORS` is the catalog of
errors.go, a missing key giving the empty template. -/
def Errorf (ERRORS : String → List Char) (key : String) (args : List FmtArg) : List Char :=
  apply_fmt (ERRORS key) args

/-! ## Concrete instances -/

/-- Modelled from the spec: `is_nil_compatible` (outside the sources): the types
a `nil` value may flow into, namely `nil` itself, functions, pointers, traits,
slices and maps. -/
def is_nil_compatible (t : TypeKind) : Bool :=
  t.Is_nil || t.Fnc.isSome || t.Ptr.isSome || t.Trt.isSome || t.Slc.isSome || t.Map.isSome

/-- An environment for concrete instances: primitives render to their kind
names and are compatible when the names are equal; float formatting is not
exercised by the instances below. -/
def sample_env : Env :=
  ⟨sample_str, is_nil_compatible, fun _ => "",
    documented_types (fun _ _ => true) (fun a b => a == b)⟩

/-- The parameter `a int`. -/
def param_a : Param := Param.mk false false (some (TypeSymbol.mk (some (TypeKind.prim "int")))) "a"

/-- Declaration of `fn(a int)`. -/
def fn_of_int_decl : Fn := Fn.mk false "f" [] none [param_a] none []

/-- The instance of `fn(a int)` with its parameter resolved to `int`. -/
def fn_of_int_ins : FnIns :=
  FnIns.mk fn_of_int_decl [] [some (ParamIns.mk (some param_a) (some (TypeKind.prim "int")))]
    none false false

/-- A freshly forced instance of `fn(a int)`: the parameter not yet resolved. -/
def fn_of_int_fresh : FnIns :=
  FnIns.mk fn_of_int_decl [] [some (ParamIns.mk (some param_a) none)] none false false

/-- The function type `fn(int)`: one parameter of type `int`, no result. -/
def fn_of_int : TypeKind := TypeKind.fnc fn_of_int_ins

/-- Instance of a generic declaration with the given generic arguments. -/
def ins_of (decl : Fn) (generics : List TypeKind) : FnIns :=
  FnIns.mk decl (generics.map some) [] none false false

/-- A generic declaration `fn g[T, U]()` without instances. -/
def generic_decl : Fn := Fn.mk false "g" [⟨"T"⟩, ⟨"U"⟩] none [] none []

/-- The instance `g[int, str]`. -/
def ins_int_str : FnIns := ins_of generic_decl [TypeKind.prim "int", TypeKind.prim "str"]

/-- The instance `g[int, bool]`. -/
def ins_int_bool : FnIns := ins_of generic_decl [TypeKind.prim "int", TypeKind.prim "bool"]

/-- The instance `g[bool, int]`. -/
def ins_bool_int : FnIns := ins_of generic_decl [TypeKind.prim "bool", TypeKind.prim "int"]

/-- A trait `Shape` (identity 1) with one method `area(&self)`. -/
def shape_trait : Trait :=
  Trait.mk 1 "Shape" [Fn.mk false "area" [] none [Param.mk false false none "&self"] none []]

/-- A struct `Circle` (identity 7) implementing `Shape`, as a resolved type. -/
def circle : TypeKind := TypeKind.strct (StructIns.mk ⟨7, "Circle", [1]⟩ [] [])

/-- A struct `Point` (identity 8) implementing no trait, as a resolved type. -/
def point : TypeKind := TypeKind.strct (StructIns.mk ⟨8, "Point", []⟩ [] [])

/-- The constant `300` carried by data of kind `i64`. -/
def data_300 : Data :=
  ⟨TypeKind.prim "i64", some (Const.i64 300), false, false, ExprModel.other 0⟩

/-- An open instance of `g[T, U]`: both generic slots unbound. -/
def open_ins : FnIns := FnIns.mk generic_decl [none, none] [] none false false

/-- A parameter instance whose shape is the generic name `T`. -/
def param_T : ParamIns := ParamIns.mk none (some (TypeKind.prim "T"))

/-- Argument data of type `int`, not constant. -/
def data_int : Data := ⟨TypeKind.prim "int", none, false, false, ExprModel.other 1⟩

/-- The enum `Color` (identity 3), as a resolved type. -/
def color : TypeKind := TypeKind.enm ⟨3, "Color"⟩

/-- Argument data of the enum type `Color`. -/
def data_color : Data := ⟨color, none, false, false, ExprModel.other 2⟩

/-- A token with the given text. -/
def tok (text : String) : Token := ⟨text, 1, 1⟩

/-- A sample evaluator: a literal evaluates to an `int` value whose model is
numbered by the literal, an identifier to a slice-of-`int` variable, the spread
`x...` of an identifier to a spread value carrying the variable's model; nothing
else evaluates. It logs nothing. -/
def sample_eval : Option TypeKind → ExprData → Option Data × List Diag
  | _, ExprData.lit_expr _ v =>
    (some ⟨TypeKind.prim "int", none, false, false,
      ExprModel.other (v.data.foldl (fun n c => 10 * n + (c.toNat - 48)) 0)⟩, [])
  | _, ExprData.ident_expr _ _ =>
    (some ⟨TypeKind.slc (TypeKind.prim "int"), none, false, false, ExprModel.other 100⟩, [])
  | _, ExprData.variadic_expr _ (ExprData.ident_expr _ _) =>
    (some ⟨TypeKind.prim "int", none, false, true, ExprModel.other 100⟩, [])
  | _, _ => (none, [])

/-- A sample host: the sample evaluator and sample rendering; the two `_Sema`
checks log nothing; a node whose kind is assigned becomes the assigned type. -/
def sample_host : Host :=
  ⟨sample_str, sample_eval, fun _ _ _ => [], fun _ _ _ => [], fun _ k => k⟩

/-- The positional argument or call argument `1`, `2`, ...: a literal. -/
def lit (v : String) : Expr := ⟨tok v, ExprData.lit_expr (tok v) v⟩

/-- The call argument `xs...`: the spread of a variable. -/
def spread_xs : Expr := ⟨tok "xs", ExprData.variadic_expr (tok "...") (ExprData.ident_expr (tok "xs") "xs")⟩

/-- A positional struct-literal argument holding the literal `v`. -/
def positional (v : String) : ExprData := ExprData.expr (tok v) (ExprData.lit_expr (tok v) v)

/-- The named struct-literal argument `name: v`, as parsed (a key-value pair). -/
def named (name v : String) : ExprData :=
  ExprData.key_val_pair (ExprData.ident_expr (tok name) name) (ExprData.lit_expr (tok v) v) (tok ":")

/-- The field instance `a int`. -/
def field_a : FieldIns := FieldIns.mk ⟨"a", false⟩ (some (TypeKind.prim "int"))

/-- The field instance `b str`. -/
def field_b : FieldIns := FieldIns.mk ⟨"b", false⟩ (some (TypeKind.prim "str"))

/-- A struct instance with the fields `a int` and `b str`. -/
def struct_ab : StructIns := StructIns.mk ⟨9, "Pair", []⟩ [] [field_a, field_b]

/-- The variadic parameter `values ...int`. -/
def param_values : Param :=
  Param.mk false true (some (TypeSymbol.mk (some (TypeKind.prim "int")))) "values"

/-- The instance of the parameter `values ...int`. -/
def param_values_ins : ParamIns := ParamIns.mk (some param_values) (some (TypeKind.prim "int"))

/-- Declaration of `fn sum(values ...int)`. -/
def sum_decl : Fn := Fn.mk false "sum" [] none [param_values] none []

/-- The instance of `fn sum(values ...int)`. -/
def sum_ins : FnIns := FnIns.mk sum_decl [] [some param_values_ins] none false false

/-- The parameter `x T` of the generic declaration `fn pick[T, U](x T)`. -/
def param_x : Param := Param.mk false false (some (TypeSymbol.mk (some (TypeKind.prim "T")))) "x"

/-- Declaration of `fn pick[T, U](x T)`. -/
def pick_decl : Fn := Fn.mk false "pick" [⟨"T"⟩, ⟨"U"⟩] none [param_x] none []

/-- The open instance of `pick`: both generic slots unbound. -/
def pick_ins : FnIns :=
  FnIns.mk pick_decl [none, none] [some (ParamIns.mk (some param_x) (some (TypeKind.prim "T")))]
    none false false

/-- Declaration of `fn add(a int, b int, c int)`. -/
def add_decl : Fn :=
  Fn.mk false "add" [] none
    [Param.mk false false none "a", Param.mk false false none "b", Param.mk false false none "c"]
    none []

/-- The parameter instances of `add`, kinds resolved to `int`. -/
def add_params : List ParamIns :=
  [ParamIns.mk (some (Param.mk false false none "a")) (some (TypeKind.prim "int")),
   ParamIns.mk (some (Param.mk false false none "b")) (some (TypeKind.prim "int")),
   ParamIns.mk (some (Param.mk false false none "c")) (some (TypeKind.prim "int"))]

/-- A sample scope host: `_` is the ignore identifier, a built variable takes the
declaration's identifier and mutability, slices, maps, pointers and references
are the mutable types, a tuple value unpacks into one immutable value per member
type, and the root scope holds the variables `a` and `b`. -/
def sample_scope : ScopeHost :=
  ⟨fun s => s == "_", "_", fun decl => ⟨decl.Ident, decl.Mutable, none⟩,
    fun k => k.Slc.isSome || k.Map.isSome || k.Ptr.isSome || k.Ref.isSome,
    fun d => (d.Kind.Tup.getD []).map (fun t => ⟨t, none, false, false, ExprModel.other 0⟩),
    [⟨"a", false, none⟩, ⟨"b", false, none⟩]⟩

/-- The declaration of a range variable with the given name. -/
def var_decl (name : String) : VarDecl := ⟨tok name, name, false, false, false, false⟩

/-- The range `for i, _ in xs` over `xs`, a reference to a slice of strings:
the second variable is the ignore identifier and nothing is materialised yet. -/
def range_over_ref_slice : RangeChecker :=
  ⟨⟨tok "in", some (var_decl "i"), some (var_decl "_")⟩, ⟨none, none⟩,
    ⟨TypeKind.ref (TypeKind.slc (TypeKind.prim "str")), none, false, false, ExprModel.other 5⟩⟩

/-- The range `for i, x in n` over `n`, an `int` value. -/
def range_over_int : RangeChecker :=
  ⟨⟨tok "in", some (var_decl "i"), some (var_decl "x")⟩, ⟨none, none⟩, data_int⟩

/-- The declaration `fn pair() (int, int)`, without named results. -/
def pair_decl : Fn :=
  Fn.mk false "pair" []
    (some (RetType.mk (some (TypeSymbol.mk
      (some (TypeKind.tup [TypeKind.prim "int", TypeKind.prim "int"])))) []))
    [] none []

/-- The instance of `pair`, its result resolved to the tuple `(int, int)`. -/
def pair_ins : FnIns :=
  FnIns.mk pair_decl [] [] (some (TypeKind.tup [TypeKind.prim "int", TypeKind.prim "int"]))
    false false

/-- The declaration `fn named() (a: int, b: int)`, with named results. -/
def named_decl : Fn :=
  Fn.mk false "named" []
    (some (RetType.mk (some (TypeSymbol.mk
      (some (TypeKind.tup [TypeKind.prim "int", TypeKind.prim "int"])))) ["a", "b"]))
    [] none []

/-- The instance of `named`, its result resolved to the tuple `(int, int)`. -/
def named_ins : FnIns :=
  FnIns.mk named_decl [] [] (some (TypeKind.tup [TypeKind.prim "int", TypeKind.prim "int"]))
    false false

/-- A return checker for the instance, nothing prepared yet. -/
def ret_checker (f : FnIns) : RetTypeChecker := ⟨f, [], [], []⟩

/-- The returned tuple `(xs, "a")`: an immutable slice of `int` and a string. -/
def ret_slice_str : Data :=
  ⟨TypeKind.tup [TypeKind.slc (TypeKind.prim "int"), TypeKind.prim "str"], none, false, false,
    ExprModel.other 6⟩

/-- A string value. -/
def data_str : Data := ⟨TypeKind.prim "str", none, false, false, ExprModel.other 0⟩

/-- The parameter `m [K:K]` of the generic declaration `fn keys[K](m [K:K])`. -/
def param_m : Param :=
  Param.mk false false
    (some (TypeSymbol.mk (some (TypeKind.map (TypeKind.prim "K") (TypeKind.prim "K"))))) "m"

/-- Declaration of `fn keys[K](m [K:K])`. -/
def keys_decl : Fn := Fn.mk false "keys" [⟨"K"⟩] none [param_m] none []

/-- The instance of the parameter `m`, its shape the map from `K` to `K`. -/
def param_m_ins : ParamIns :=
  ParamIns.mk (some param_m) (some (TypeKind.map (TypeKind.prim "K") (TypeKind.prim "K")))

/-- The open instance of `keys`: the slot of `K` unbound. -/
def keys_ins : FnIns := FnIns.mk keys_decl [none] [some param_m_ins] none false false

/-- Argument data of the type map from `int` to `str`. -/
def data_map_int_str : Data :=
  ⟨TypeKind.map (TypeKind.prim "int") (TypeKind.prim "str"), none, false, false,
    ExprModel.other 3⟩

/-- The instance of a parameter of type `int` with the given name. -/
def int_param (name : String) : ParamIns :=
  ParamIns.mk (some (Param.mk false false (some (TypeSymbol.mk (some (TypeKind.prim "int")))) name))
    (some (TypeKind.prim "int"))

/-- Declaration of `fn join(a int, b int, values ...int)`. -/
def join_decl : Fn :=
  Fn.mk false "join" [] none
    [Param.mk false false (some (TypeSymbol.mk (some (TypeKind.prim "int")))) "a",
     Param.mk false false (some (TypeSymbol.mk (some (TypeKind.prim "int")))) "b", param_values]
    none []

/-- The instance of `fn join(a int, b int, values ...int)`. -/
def join_ins : FnIns :=
  FnIns.mk join_decl [] [some (int_param "a"), some (int_param "b"), some param_values_ins]
    none false false

/-- A host whose `check_assign_type` runs the Assignment Type Checker of the
sources and logs what it logs; otherwise the sample host. -/
def strict_host : Host :=
  ⟨sample_str, sample_eval, fun _ _ _ => [],
    fun k d deref =>
      match k with
      | none => []
      | some dest =>
        match AssignTypeChecker.check sample_env (check_type_compatibility sample_env 1) deref
            dest (some d) with
        | .ok (_, l) => l
        | .error _ => [],
    fun _ k => k⟩

/-- The instance of a parameter `s str`. -/
def str_param : ParamIns :=
  ParamIns.mk (some (Param.mk false false (some (TypeSymbol.mk (some (TypeKind.prim "str")))) "s"))
    (some (TypeKind.prim "str"))

/-- The instance of `fn show(s str)`. -/
def show_ins : FnIns :=
  FnIns.mk
    (Fn.mk false "show" [] none
      [Param.mk false false (some (TypeSymbol.mk (some (TypeKind.prim "str")))) "s"] none [])
    [] [some str_param] none false false

/-- The instance `Box[t]` of the struct declaration `Box[T]`. -/
def box_of (t : TypeKind) : TypeKind := TypeKind.strct (StructIns.mk ⟨10, "Box", []⟩ [t] [])

/-- The variadic parameter `values ...T` of `fn gather[T](values ...T)`. -/
def gather_values : Param :=
  Param.mk false true (some (TypeSymbol.mk (some (TypeKind.prim "T")))) "values"

/-- The instance of the parameter `values ...T`, its type not yet written. -/
def gather_values_ins : ParamIns := ParamIns.mk (some gather_values) (some (TypeKind.prim "T"))

/-- Declaration of `fn gather[T](values ...T)`. -/
def gather_decl : Fn := Fn.mk false "gather" [⟨"T"⟩] none [gather_values] none []

/-- The open instance of `gather`: the slot of `T` unbound. -/
def gather_ins : FnIns := FnIns.mk gather_decl [none] [some gather_values_ins] none false false

/-- The data the sample evaluator gives for the literal numbered `n`. -/
def data_lit (n : Nat) : Data := ⟨TypeKind.prim "int", none, false, false, ExprModel.other n⟩

/-! ## Predicates used in the statements -/

/-- Every generic slot of the instance is bound, and there are `n` of them. -/
def FnIns.Resolved (n : Nat) (a : FnIns) : Prop :=
  a.Generics.length = n ∧ ∀ g ∈ a.Generics, g ≠ none

/-- String renderings of the generic arguments of the instance, in order. -/
def FnIns.rendered (To_str : TypeKind → String) (a : FnIns) : List (Option String) :=
  a.Generics.map (Option.map To_str)

/-- Some position holds equal entries in both lists. -/
def shares (xs ys : List (Option String)) : Bool :=
  (xs.zip ys).any (fun p => p.1 == p.2)

/-- The instances of the declaration are resolved and pairwise share no
position of their rendered generic arguments. -/
def Fn.Deduplicated (To_str : TypeKind → String) (f : Fn) : Prop :=
  (∀ a ∈ f.Instances, a.Resolved f.Generics.length) ∧
  f.Instances.Pairwise (fun a b => shares (a.rendered To_str) (b.rendered To_str) = false)

/-- No diagnostic logged by the host's evaluator or by its two `_Sema` checks
has the given key. -/
def Host.quiet (h : Host) (key : String) : Prop :=
  (∀ k e, ∀ x ∈ (h.eval_expr_kind k e).2, x.key ≠ key) ∧
  (∀ m k d, ∀ x ∈ h.check_validity_for_init_expr m k d, x.key ≠ key) ∧
  (∀ k d b, ∀ x ∈ h.check_assign_type k d b, x.key ≠ key)

/-- The identifier of a parameter instance's declaration. -/
def ParamIns.ident (p : ParamIns) : String := (p.Decl.map Param.Ident).getD ""

/-- The final parameter of the list is variadic. -/
def final_variadic (params : List ParamIns) : Bool :=
  match params.getLast? with
  | some p => (p.Decl.map Param.Variadic).getD false
  | none => false

/-- The argument is a named one: a field-expression pair, or a key-value pair
whose key is an identifier. -/
def ExprData.is_named : ExprData → Bool
  | ExprData.field_expr_pair _ _ => true
  | ExprData.key_val_pair (ExprData.ident_expr _ _) _ _ => true
  | _ => false

/-- The argument is a positional one: an `*ast.Expr` node. -/
def ExprData.is_positional : ExprData → Bool
  | ExprData.expr _ _ => true
  | _ => false

/-- The identifier a named argument targets. -/
def ExprData.field_name : ExprData → Option String
  | ExprData.field_expr_pair t _ => some t.Kind
  | _ => none

/-- Every diagnostic of the list is the enum diagnostic of `push_generic`. -/
def EnumOnly (l : List Diag) : Prop := ∀ x ∈ l, x = ⟨"enum_not_supports_as_generic", []⟩

/-- The annotator logs only enum diagnostics. -/
def LogsEnumOnly (ann : DynamicTypeAnnotation.Annotator) : Prop :=
  ∀ f p k r l, ann f p k = .ok (r, l) → EnumOnly l

/-- The models of the arguments that evaluate under the hint `k`, in order. -/
def evaluated_models (h : Host) (k : Option TypeKind) (args : List Expr) : List ExprModel :=
  args.filterMap (fun a => (h.eval_expr_kind k a.Kind).1.map Data.Model)

/-- Some named argument before position `j` targets the identifier. -/
def named_before (ident : String) (j : Nat) (exprs : List ExprData) : Bool :=
  (exprs.take j).any (fun x => x.field_name == some ident)

/-- The node is a field-expression pair. -/
def ExprData.is_pair : ExprData → Bool
  | ExprData.field_expr_pair _ _ => true
  | _ => false

/-- What `ready_exprs` makes of one argument: a key-value pair with an
identifier key becomes a field-expression pair. -/
def ExprData.readied : ExprData → ExprData
  | ExprData.key_val_pair (ExprData.ident_expr tok _) val _ => ExprData.field_expr_pair tok val
  | e => e

/-- A reference stands for its element, any other type for itself: the type
after one reference layer is stripped if present. -/
def stripped (k : TypeKind) : TypeKind := k.Ref.getD k

/-- The type can be ranged over: a slice, an array, a map or the string
primitive. -/
def enumerable (k : TypeKind) : Bool :=
  k.Slc.isSome || k.Arr.isSome || k.Map.isSome || (k.Prim.map Prim_Is_str).getD false

/-- The types of the first and the second range variable for an iterated type,
as the specification gives them: index and element for a slice or an array, key
and value for a map, index and byte for a string. -/
def range_key_kinds : TypeKind → Option (TypeKind × TypeKind)
  | TypeKind.slc e => some (prim_int, e)
  | TypeKind.arr _ e => some (prim_int, e)
  | TypeKind.map k v => some (k, v)
  | TypeKind.prim k => if Prim_Is_str k then some (prim_int, prim_u8) else none
  | _ => none

/-- What becomes of one range variable, as the specification gives it: a
declared variable that is not the ignore identifier is built and given the type
`k`; an absent or ignored one leaves the slot as it was. -/
def materialised (sh : ScopeHost) (decl : Option VarDecl) (old : Option Var) (k : TypeKind) :
    Option Var :=
  match decl with
  | none => old
  | some kd =>
    if sh.Is_ignore_ident kd.Ident then old
    else some ((sh.build_var kd).set_Kind (some (TypeSymbol.mk (some k))))

/-- The range check succeeds on the checker and leaves the first variable
materialised at the type `ka` and the second at `kb` (or either slot as it was,
when its variable is absent or ignored). -/
def ranges_with (h : Host) (sh : ScopeHost) (rc : RangeChecker) (ka kb : TypeKind) : Prop :=
  ∃ rc1 l, RangeChecker.check h sh rc = .ok ((true, rc1), l) ∧
    rc1.kind.Key_a = materialised sh rc.rang.Key_a rc.kind.Key_a ka ∧
    rc1.kind.Key_b = materialised sh rc.rang.Key_b rc.kind.Key_b kb

/-- Every named result of the function has its expected type and its variable
in the root scope, so `ret_vars` indexes within both lists. -/
def ret_vars_ready (sh : ScopeHost) (f : FnIns) : Prop :=
  ∀ r, f.Decl.Result = some r →
    r.Idents.length ≤ (get_fn_result_types f).length ∧ r.Idents.length ≤ sh.root_vars.length

/-- The checker as `check` sees it after `prepare_types` and `prepare_exprs`. -/
def RetTypeChecker.prepared (sh : ScopeHost) (rtc : RetTypeChecker) (d : Option Data) :
    RetTypeChecker :=
  RetTypeChecker.prepare_exprs sh (RetTypeChecker.prepare_types rtc) d

/-- The Assignment Type Checker run on each value against the expected type at
the same position, in order, for as long as both lists last: the diagnostics
pushed. -/
def assign_each (env : Env) (compat : TypeKind → TypeKind → Bool → Run Bool) :
    List TypeKind → List Data → Except Fault (List Diag)
  | t :: ts, d :: ds =>
    match AssignTypeChecker.check env compat false t (some d) with
    | .error e => .error e
    | .ok (_, l) =>
      match assign_each env compat ts ds with
      | .error e => .error e
      | .ok l2 => .ok (l ++ l2)
  | _, _ => .ok []

/-- The compatibility entry logs no diagnostic with the given key. -/
def quiet_compat (compat : TypeKind → TypeKind → Bool → Run Bool) (key : String) : Prop :=
  ∀ dest src deref b l, compat dest src deref = .ok (b, l) → ∀ x ∈ l, x.key ≠ key

/-- The value is rejected by the mutability rule of `check_exprs`: a mutable
type from data that is not mutable. -/
def mut_rejected (sh : ScopeHost) (d : Data) : Bool := !d.Mutable && sh.is_mut d.Kind

/-- The count diagnostic for `n` returned values against `m` expected types. -/
def count_diag (n m : Nat) : Diag :=
  if n > m then ⟨"overflow_ret", []⟩ else ⟨"missing_multi_ret", []⟩

/-- Every diagnostic of the list is the trait diagnostic of `check_trait`. -/
def TraitOnly (l : List Diag) : Prop :=
  ∀ x ∈ l, x = ⟨"trait_has_reference_parametered_function", []⟩

/-- The checker logs only trait diagnostics. -/
def LogsTraitOnly (chk : TypeCompatibilityChecker.Checker) : Prop :=
  ∀ deref dest src b l, chk deref dest src = .ok (b, l) → TraitOnly l

/-- The float has a non-zero fractional part: it is finite and its value
`num * 2 ^ exp` is no integer. -/
def F64.has_fraction : F64 → Bool
  | F64.fin n e => decide (e < 0) && decide (n % 2 ^ (-e).toNat ≠ 0)
  | _ => false

/-- The float is below zero: the negative infinity or a finite negative
value. -/
def F64.negative : F64 → Bool
  | F64.inf neg => neg
  | F64.fin n _ => decide (n < 0)
  | F64.nan => false

/-- The constant is a float that has a non-zero fractional part or is NaN or
infinite. -/
def Const.not_integral : Const → Bool
  | Const.f64 F64.nan => true
  | Const.f64 (F64.inf _) => true
  | Const.f64 x => x.has_fraction
  | _ => false

/-- The constant is negative, whether tagged signed integer or float. -/
def Const.negative : Const → Bool
  | Const.i64 v => decide (v < 0)
  | Const.f64 x => x.negative
  | _ => false

/-- The template made of the given segments, a marker `'@'` between each two. -/
def with_markers : List (List Char) → List Char
  | [] => []
  | [s] => s
  | s :: rest => s ++ '@' :: with_markers rest

/-- The segments of a template with the markers between them replaced, left to
right, by the given strings for as long as there are strings; the remaining
markers are kept. -/
def fill : List (List Char) → List (List Char) → List Char
  | [], _ => []
  | [s], _ => s
  | s :: rest, [] => s ++ '@' :: fill rest []
  | s :: rest, a :: more => s ++ a ++ fill rest more

/-- The instance `f1` is `f` with possibly more slots bound: the declaration is
the same and every generic slot bound in `f` holds the same type in `f1`. -/
def keeps_bound (f f1 : FnIns) : Prop :=
  f1.Decl = f.Decl ∧
  ∀ i t, f.Generics.get? i = some (some t) → f1.Generics.get? i = some (some t)

/-- The annotator never changes a generic slot that is bound. -/
def KeepsBound (ann : DynamicTypeAnnotation.Annotator) : Prop :=
  ∀ f p k r l, ann f p k = .ok (r, l) → keeps_bound f r.2

mutual

/-- The parameter shape matches the argument type structurally, down to nodes
whose rendering is the name of a generic parameter (one of `names`): slice with
slice, map with map, pointer with pointer, function with function of equal arity
and void-ness. -/
inductive Matches (To_str : TypeKind → String) (names : List String) :
    Option TypeKind → Option TypeKind → Prop
  | leaf (p k : TypeKind) : To_str p ∈ names → Matches To_str names (some p) (some k)
  | slc (pe ke : TypeKind) : Matches To_str names (some pe) (some ke) →
      Matches To_str names (some (TypeKind.slc pe)) (some (TypeKind.slc ke))
  | map (pk pv mk mv : TypeKind) : Matches To_str names (some pk) (some mk) →
      Matches To_str names (some pv) (some mv) →
      Matches To_str names (some (TypeKind.map pk pv)) (some (TypeKind.map mk mv))
  | ptr (pe ke : Option TypeKind) : Matches To_str names pe ke →
      Matches To_str names (some (TypeKind.ptr pe)) (some (TypeKind.ptr ke))
  | fnc (pf kf : FnIns) : pf.Params.length = kf.Params.length →
      pf.Decl.Is_void = kf.Decl.Is_void → ParamsMatch To_str names pf.Params kf.Params →
      (pf.Decl.Is_void = false → Matches To_str names pf.Result kf.Result) →
      Matches To_str names (some (TypeKind.fnc pf)) (some (TypeKind.fnc kf))

/-- The parameter entries of a function shape match those of the argument's
function type, position by position. -/
inductive ParamsMatch (To_str : TypeKind → String) (names : List String) :
    List (Option ParamIns) → List (Option ParamIns) → Prop
  | nil (rest : List (Option ParamIns)) : ParamsMatch To_str names rest []
  | cons (pp ap : ParamIns) (prest arest : List (Option ParamIns)) :
      Matches To_str names pp.Kind ap.Kind → ParamsMatch To_str names prest arest →
      ParamsMatch To_str names (some pp :: prest) (some ap :: arest)

end

/-- The identifiers of the callee's generic parameters. -/
def FnIns.generic_names (f : FnIns) : List String := f.Decl.Generics.map GenericDecl.Ident

/-- Every run of the annotator that returns true was on a shape that matches
the argument type. -/
def TrueMatches (To_str : TypeKind → String) (ann : DynamicTypeAnnotation.Annotator) : Prop :=
  ∀ f p k f1 l, ann f p k = .ok ((true, f1), l) → Matches To_str f.generic_names p k

/-- The call has matching arity and can be bound: every parameter entry carries
its declaration and is no receiver, only the last parameter may be variadic, and
every argument evaluates under the hint of the parameter at its position. -/
def bindable (h : Host) : List ParamIns → List Expr → Prop
  | [], [] => True
  | p :: ps, arg :: args =>
    (∃ d, p.Decl = some d ∧ d.Is_self = false ∧ (d.Variadic = true → ps = [])) ∧
    (h.eval_expr_kind p.Kind arg.Kind).1.isSome = true ∧ bindable h ps args
  | _, _ => False

/-- The checker does not run out of fuel on any pair of types whose combined
size is below the bound. -/
def FuelSafe (chk : TypeCompatibilityChecker.Checker) (bound : Nat) : Prop :=
  ∀ deref d s, sizeOf d + sizeOf s < bound → chk deref d s ≠ .error Fault.out_of_fuel

/-- The type is well formed for the compatibility check. Along the paths the
check follows (elements, keys and values, generic arguments, results): every
function type has all its parameter entries present, every method of a trait
declares at least a receiver parameter, and every struct instance carries as many
generic arguments as its declaration has, `arity` giving that number by
declaration. -/
inductive WellFormed (arity : Nat → Nat) : TypeKind → Prop
  | nil : WellFormed arity TypeKind.nil
  | prim (kind : String) : WellFormed arity (TypeKind.prim kind)
  | ref (e : TypeKind) : WellFormed arity e → WellFormed arity (TypeKind.ref e)
  | ptr_unsafe : WellFormed arity (TypeKind.ptr none)
  | ptr (e : TypeKind) : WellFormed arity e → WellFormed arity (TypeKind.ptr (some e))
  | slc (e : TypeKind) : WellFormed arity e → WellFormed arity (TypeKind.slc e)
  | arr (n : Int) (e : TypeKind) : WellFormed arity e → WellFormed arity (TypeKind.arr n e)
  | map (k v : TypeKind) : WellFormed arity k → WellFormed arity v →
      WellFormed arity (TypeKind.map k v)
  | strct (s : StructIns) : s.Generics.length = arity s.Decl.Id →
      (∀ g ∈ s.Generics, WellFormed arity g) → WellFormed arity (TypeKind.strct s)
  | trt (t : Trait) : (∀ m ∈ t.Methods, m.Params ≠ []) → WellFormed arity (TypeKind.trt t)
  | enm (e : Enum) : WellFormed arity (TypeKind.enm e)
  | fnc (f : FnIns) : (∀ q ∈ f.Params, q ≠ none) →
      (∀ r, f.Result = some r → WellFormed arity r) → WellFormed arity (TypeKind.fnc f)
  | tup (ts : List TypeKind) : WellFormed arity (TypeKind.tup ts)

/-- The run stops without a result only by running out of fuel: it never
indexes out of range and never dereferences an absent value. -/
def only_fuel {α : Type} (r : Except Fault α) : Prop :=
  ∀ e, r = .error e → e = Fault.out_of_fuel

/-- The checker panics on no pair of well-formed types. -/
def SafeChecker (arity : Nat → Nat) (chk : TypeCompatibilityChecker.Checker) : Prop :=
  ∀ deref d s, WellFormed arity d → (∀ x, s = some x → WellFormed arity x) →
    only_fuel (chk deref (some d) s)

/-- The remaining arguments of a variadic parameter all evaluate to values that
are no spread values, each under the hint of the parameter's type as the
arguments before it left it, and every run of annotation, when it is active,
returns. From the instance `f` and the parameter `p`: `ds` are the evaluated data
in argument order and `q` is the parameter as the last argument leaves it. -/
inductive PlainArgs (h : Host) (fuel : Nat) (fc : FnCallArgChecker) :
    FnIns → ParamIns → List Expr → List Data → ParamIns → Prop
  | nil (f : FnIns) (p : ParamIns) : PlainArgs h fuel fc f p [] [] p
  | cons (f f1 : FnIns) (p q : ParamIns) (arg : Expr) (rest : List Expr) (d : Data)
      (ds : List Data) :
      (h.eval_expr_kind p.Kind arg.Kind).1 = some d → d.Variadiced = false →
      (fc.dynamic_annotation = false → f1 = f) →
      (fc.dynamic_annotation = true →
        ∃ b l, DynamicTypeAnnotation.annotate h.To_str fuel f p d = .ok ((b, f1), l)) →
      PlainArgs h fuel fc f1 (FnCallArgChecker.written_param h fuel fc f p d) rest ds q →
      PlainArgs h fuel fc f p (arg :: rest) (d :: ds) q

/-! ## Theorems -/

open TypeCompatibilityChecker

/-- C1 (evaluation at the failing input): for the function type `fn(int)`, whose
single parameter entry is present on both sides, the compatibility check of the
type against itself returns false, in every environment, with either value of
the deref flag and with any fuel. -/
theorem check_fn_type_against_itself (env : Env) (fuel : Nat) (deref : Bool) :
    check env (fuel + 1) deref (some fn_of_int) (some fn_of_int) = .ok (false, []) := by
  rfl

/-- C3 (evaluation at the failing input): with the single existing instance
`g[int, str]`, appending `g[int, bool]`, which differs from it in the second
position, returns `(false, 0)` and leaves the list as it was: the inner loop
reports the instance as existing at the first position that renders equal. -/
theorem append_instance_one_equal_position :
    (generic_decl.set_Instances [ins_int_str]).append_instance sample_str ins_int_bool
      = .ok ((false, 0), generic_decl.set_Instances [ins_int_str]) := by
  rfl

open DynamicTypeAnnotation

/-! ### Function instance manager -/

/-- Once `append_instance` answers `(false, 0)` without change for every
instance, any further sequence of calls leaves the declaration as it is. -/
theorem Fn.append_all_saturated (To_str : TypeKind → String) (f : Fn) (rest : List FnIns)
    (h : ∀ ins, f.append_instance To_str ins = .ok ((false, 0), f)) :
    f.append_all To_str rest = .ok f := by
  induction rest with
  | nil => rfl
  | cons a t ih => simp [Fn.append_all, h a, ih]

/-- C4: for a non-generic declaration that starts with no instances, the first
`append_instance` call stores its instance and returns `(true, -1)`; every later
call returns `(false, 0)` and changes nothing, so after any non-empty sequence of
calls the list holds exactly the first instance appended; and `instance` then
returns that stored element. -/
theorem non_generic_single_instance (To_str : TypeKind → String) (f0 : Fn) (first : FnIns)
    (rest : List FnIns) (hgen : f0.Generics = []) (hinst : f0.Instances = []) :
    f0.append_instance To_str first = .ok ((true, -1), f0.set_Instances [first]) ∧
    (∀ ins, (f0.set_Instances [first]).append_instance To_str ins
        = .ok ((false, 0), f0.set_Instances [first])) ∧
    f0.append_all To_str (first :: rest) = .ok (f0.set_Instances [first]) ∧
    (f0.set_Instances [first]).Instances = [first] ∧
    (f0.set_Instances [first]).instance = .ok first := by
  cases f0 with
  | mk u i g r p o l =>
    simp only [Fn.Generics, Fn.Instances] at hgen hinst
    subst hgen; subst hinst
    have h1 : (Fn.mk u i [] r p o []).append_instance To_str first
        = .ok ((true, -1), (Fn.mk u i [] r p o []).set_Instances [first]) := by
      simp [Fn.append_instance, Fn.Generics, Fn.Instances, Fn.set_Instances]
    have h2 : ∀ ins, ((Fn.mk u i [] r p o []).set_Instances [first]).append_instance To_str ins
        = .ok ((false, 0), (Fn.mk u i [] r p o []).set_Instances [first]) := by
      intro ins
      simp [Fn.append_instance, Fn.Generics, Fn.Instances, Fn.set_Instances]
    refine ⟨h1, h2, ?_, ?_, ?_⟩
    · simp only [Fn.append_all, h1]
      exact Fn.append_all_saturated To_str _ rest h2
    · simp [Fn.Instances, Fn.set_Instances]
    · simp [Fn.instance, Fn.Generics, Fn.Instances, Fn.set_Instances]

/-- C4 at a concrete input: three calls on the non-generic `fn(a int)` keep
only the first instance. -/
theorem non_generic_single_instance_witness :
    fn_of_int_decl.append_all sample_str [fn_of_int_ins, fn_of_int_fresh, fn_of_int_fresh]
      = .ok (fn_of_int_decl.set_Instances [fn_of_int_ins]) ∧
    (fn_of_int_decl.set_Instances [fn_of_int_ins]).instance = .ok fn_of_int_ins ∧
    fn_of_int_decl.instance_force = .ok fn_of_int_fresh :=
  ⟨(non_generic_single_instance sample_str fn_of_int_decl fn_of_int_ins
      [fn_of_int_fresh, fn_of_int_fresh] rfl rfl).2.2.1,
    (non_generic_single_instance sample_str fn_of_int_decl fn_of_int_ins
      [fn_of_int_fresh, fn_of_int_fresh] rfl rfl).2.2.2.2, rfl⟩

/-- Dropping up to an index that holds `x` leaves `x` in front. -/
theorem drop_of_get?_some {α : Type} (l : List α) (i : Nat) (x : α) (h : l.get? i = some x) :
    l.drop i = x :: l.drop (i + 1) := by
  induction l generalizing i with
  | nil => simp at h
  | cons a t ih =>
    cases i with
    | zero => simp at h; simp [h]
    | succ k => simp at h; simpa using ih k (by simpa using h)

/-- On resolved generic arguments the inner loop of `append_instance` returns
without panic, and reports exactly whether some position renders equal. -/
theorem scan_generics_resolved (To_str : TypeKind → String) (ins : FnIns)
    (gs : List (Option TypeKind)) (i : Nat) (hgs : ∀ g ∈ gs, g ≠ none)
    (hins : ∀ g ∈ ins.Generics, g ≠ none) (hlen : i + gs.length ≤ ins.Generics.length) :
    Fn.scan_generics To_str ins gs i
      = .ok (shares (gs.map (Option.map To_str))
          ((ins.Generics.drop i).map (Option.map To_str))) := by
  induction gs generalizing i with
  | nil => simp [Fn.scan_generics, shares]
  | cons g rest ih =>
    have hg := hgs g (List.mem_cons_self _ _)
    cases g with
    | none => exact absurd rfl hg
    | some a =>
      have hi : i < ins.Generics.length := by
        simp only [List.length_cons] at hlen; omega
      have hget : ins.Generics.get? i = some (ins.Generics.get ⟨i, hi⟩) := List.get?_eq_get hi
      have hne := hins _ (List.get_mem ins.Generics i hi)
      cases hu : ins.Generics.get ⟨i, hi⟩ with
      | none => exact absurd hu hne
      | some u =>
        rw [hu] at hget
        have hd := drop_of_get?_some _ _ _ hget
        have ih' := ih (i + 1) (fun g hg => hgs g (List.mem_cons_of_mem _ hg))
          (by simp only [List.length_cons] at hlen; omega)
        simp only [Fn.scan_generics, hget, ih', hd]
        by_cases he : To_str a = To_str u
        · simp [shares, he]
        · simp [shares, he]


/-- The inner loop of `append_instance` on two resolved instances with the same
number of generic arguments. -/
theorem scan_generics_instances (To_str : TypeKind → String) (n : Nat) (a ins : FnIns)
    (ha : a.Resolved n) (hins : ins.Resolved n) :
    Fn.scan_generics To_str ins a.Generics 0
      = .ok (shares (a.rendered To_str) (ins.rendered To_str)) := by
  have h := scan_generics_resolved To_str ins a.Generics 0 ha.2 hins.2
    (by rw [ha.1, hins.1]; omega)
  simpa [FnIns.rendered] using h

/-- The scan over instances that share no position with `ins` finds nothing; a
scan that finds nothing has met only such instances. -/
theorem scan_instances_none (To_str : TypeKind → String) (n : Nat) (ins : FnIns)
    (hins : ins.Resolved n) (l : List FnIns) (j0 : Nat) (hl : ∀ a ∈ l, a.Resolved n) :
    ∃ r, Fn.scan_instances To_str ins l j0 = .ok r ∧
      (r = none → ∀ a ∈ l, shares (a.rendered To_str) (ins.rendered To_str) = false) := by
  induction l generalizing j0 with
  | nil => exact ⟨none, rfl, by simp⟩
  | cons a rest ih =>
    have ha := hl a (List.mem_cons_self _ _)
    have hs := scan_generics_instances To_str n a ins ha hins
    cases hb : shares (a.rendered To_str) (ins.rendered To_str) with
    | true =>
      refine ⟨some j0, ?_, by simp⟩
      simp [Fn.scan_instances, hs, hb]
    | false =>
      obtain ⟨r, hr, hnone⟩ := ih (j0 + 1) (fun b hb => hl b (List.mem_cons_of_mem _ hb))
      refine ⟨r, ?_, ?_⟩
      · simp [Fn.scan_instances, hs, hb, hr]
      · intro h b hb'
        rcases List.mem_cons.mp hb' with h1 | h1
        · subst h1; exact hb
        · exact hnone h b h1

/-- A non-empty list shares its first position with itself. -/
theorem shares_self (xs : List (Option String)) (h : xs ≠ []) : shares xs xs = true := by
  cases xs with
  | nil => exact absurd rfl h
  | cons x t => simp [shares]

/-- In a list of instances that pairwise share no position, the scan for an
instance rendering like the one at index `j` stops exactly there. -/
theorem scan_instances_found (To_str : TypeKind → String) (n : Nat) (hn : n ≠ 0) (ins : FnIns)
    (hins : ins.Resolved n) (l : List FnIns) (j0 j : Nat) (aj : FnIns)
    (hl : ∀ a ∈ l, a.Resolved n)
    (hp : l.Pairwise (fun a b => shares (a.rendered To_str) (b.rendered To_str) = false))
    (hj : l.get? j = some aj) (hsame : ins.rendered To_str = aj.rendered To_str) :
    Fn.scan_instances To_str ins l j0 = .ok (some (j0 + j)) := by
  induction l generalizing j0 j with
  | nil => simp at hj
  | cons a rest ih =>
    have ha := hl a (List.mem_cons_self _ _)
    have hs := scan_generics_instances To_str n a ins ha hins
    cases j with
    | zero =>
      simp only [List.get?_cons_zero, Option.some.injEq] at hj
      subst hj
      have hne : a.rendered To_str ≠ [] := by
        intro h
        have hlen := congrArg List.length h
        simp only [FnIns.rendered, List.length_map, List.length_nil] at hlen
        exact hn (ha.1 ▸ hlen)
      simp [Fn.scan_instances, hs, hsame, shares_self _ hne]
    | succ k =>
      simp only [List.get?_cons_succ] at hj
      have hmem : aj ∈ rest := List.get?_mem hj
      have hnot := (List.pairwise_cons.mp hp).1 aj hmem
      have := ih (j0 + 1) k (fun b hb => hl b (List.mem_cons_of_mem _ hb))
        (List.pairwise_cons.mp hp).2 hj
      simp only [Fn.scan_instances, hs, hsame, hnot, this]
      congr 2
      omega


/-- Assigning `Instances` keeps the generic parameters. -/
@[simp] theorem Fn.Generics_set_Instances (f : Fn) (l : List FnIns) :
    (f.set_Instances l).Generics = f.Generics := by
  cases f; rfl

/-- Reading `Instances` after assigning it. -/
@[simp] theorem Fn.Instances_set_Instances (f : Fn) (l : List FnIns) :
    (f.set_Instances l).Instances = l := by
  cases f; rfl

/-- Appending a resolved instance that shares no position with the stored ones
keeps the list deduplicated. -/
theorem Fn.deduplicated_append (To_str : TypeKind → String) (f : Fn) (ins : FnIns)
    (hinv : f.Deduplicated To_str) (hins : ins.Resolved f.Generics.length)
    (hno : ∀ a ∈ f.Instances, shares (a.rendered To_str) (ins.rendered To_str) = false) :
    (f.set_Instances (f.Instances ++ [ins])).Deduplicated To_str := by
  refine ⟨?_, ?_⟩
  · intro a ha
    simp only [Fn.Instances_set_Instances, List.mem_append, List.mem_singleton] at ha
    simp only [Fn.Generics_set_Instances]
    rcases ha with h | h
    · exact hinv.1 a h
    · subst h; exact hins
  · simp only [Fn.Instances_set_Instances]
    refine List.pairwise_append.mpr ⟨hinv.2, List.pairwise_singleton _ _, ?_⟩
    intro a ha b hb
    simp only [List.mem_singleton] at hb
    subst hb
    exact hno a ha

/-- On a generic declaration, `append_instance` of a resolved instance returns
without panic and keeps the list deduplicated. -/
theorem Fn.append_instance_keeps (To_str : TypeKind → String) (f : Fn) (ins : FnIns)
    (hgen : f.Generics ≠ []) (hinv : f.Deduplicated To_str)
    (hins : ins.Resolved f.Generics.length) :
    ∃ r f1, f.append_instance To_str ins = .ok (r, f1) ∧ f1.Generics = f.Generics ∧
      f1.Deduplicated To_str := by
  have hg : (f.Generics.length == 0) = false := by
    cases h : f.Generics with
    | nil => exact absurd h hgen
    | cons a t => simp
  by_cases he : f.Instances = []
  · refine ⟨(true, -1), f.set_Instances (f.Instances ++ [ins]), ?_, by simp, ?_⟩
    · simp [Fn.append_instance, hg, he]
    · exact Fn.deduplicated_append To_str f ins hinv hins (by simp [he])
  · have hl : (f.Instances.length == 0) = false := by
      cases h : f.Instances with
      | nil => exact absurd h he
      | cons a t => simp
    obtain ⟨r, hr, hnone⟩ := scan_instances_none To_str _ ins hins f.Instances 0 hinv.1
    cases r with
    | none =>
      refine ⟨(true, -1), f.set_Instances (f.Instances ++ [ins]), ?_, by simp, ?_⟩
      · simp [Fn.append_instance, hg, hl, hr]
      · exact Fn.deduplicated_append To_str f ins hinv hins (hnone rfl)
    | some j =>
      refine ⟨(false, (j : Int)), f, ?_, rfl, hinv⟩
      simp [Fn.append_instance, hg, hl, hr]

/-- A sequence of `append_instance` calls with resolved instances keeps the
list deduplicated. -/
theorem Fn.append_all_keeps (To_str : TypeKind → String) (inss : List FnIns) (f f1 : Fn)
    (hgen : f.Generics ≠ []) (hinv : f.Deduplicated To_str)
    (hwf : ∀ a ∈ inss, a.Resolved f.Generics.length)
    (hrun : f.append_all To_str inss = .ok f1) :
    f1.Generics = f.Generics ∧ f1.Deduplicated To_str := by
  induction inss generalizing f with
  | nil =>
    simp only [Fn.append_all, Except.ok.injEq] at hrun
    subst hrun
    exact ⟨rfl, hinv⟩
  | cons a rest ih =>
    obtain ⟨r, f2, h2, hg2, hinv2⟩ :=
      Fn.append_instance_keeps To_str f a hgen hinv (hwf a (List.mem_cons_self _ _))
    simp only [Fn.append_all, h2] at hrun
    have := ih f2 (hg2 ▸ hgen) hinv2
      (fun b hb => hg2 ▸ hwf b (List.mem_cons_of_mem _ hb)) hrun
    exact ⟨this.1.trans hg2, this.2⟩

/-- C2: for a generic declaration whose `Instances` list was built only by
`append_instance` calls starting from empty, every instance carrying one resolved
type per declared generic, a call with an instance whose generic arguments
render, position by position, to the same strings as the stored instance at
index `j` returns `(false, j)` and leaves the declaration unchanged. -/
theorem append_instance_existing (To_str : TypeKind → String) (f0 f : Fn) (inss : List FnIns)
    (ins aj : FnIns) (j : Nat)
    (hgen : f0.Generics ≠ []) (hempty : f0.Instances = [])
    (hwf : ∀ a ∈ inss, a.Resolved f0.Generics.length)
    (hbuilt : f0.append_all To_str inss = .ok f)
    (hj : f.Instances.get? j = some aj)
    (hins : ins.Resolved f0.Generics.length)
    (hsame : ins.rendered To_str = aj.rendered To_str) :
    f.append_instance To_str ins = .ok ((false, (j : Int)), f) := by
  have h0 : f0.Deduplicated To_str := by
    refine ⟨by simp [hempty], by simp [hempty]⟩
  obtain ⟨hg, hinv⟩ := Fn.append_all_keeps To_str inss f0 f hgen h0 hwf hbuilt
  have hgen1 : (f.Generics.length == 0) = false := by
    rw [hg]
    cases h : f0.Generics with
    | nil => exact absurd h hgen
    | cons a t => simp
  have hl : (f.Instances.length == 0) = false := by
    cases h : f.Instances with
    | nil => rw [h] at hj; simp at hj
    | cons a t => simp
  have hn : f.Generics.length ≠ 0 := by
    rw [hg]
    intro h
    exact hgen (List.length_eq_zero.mp h)
  have hscan := scan_instances_found To_str f.Generics.length hn ins (hg ▸ hins) f.Instances 0 j aj
    hinv.1 hinv.2 hj hsame
  simp [Fn.append_instance, hgen1, hl, hscan]

/-- C2 at a concrete input: after `g[int, str]` and `g[bool, int]` were
appended, a second `g[bool, int]` is found at index 1. -/
theorem append_instance_existing_witness :
    (generic_decl.set_Instances [ins_int_str, ins_bool_int]).append_instance sample_str
        (ins_of generic_decl [TypeKind.prim "bool", TypeKind.prim "int"])
      = .ok ((false, 1), generic_decl.set_Instances [ins_int_str, ins_bool_int]) :=
  append_instance_existing sample_str generic_decl
    (generic_decl.set_Instances [ins_int_str, ins_bool_int]) [ins_int_str, ins_bool_int]
    (ins_of generic_decl [TypeKind.prim "bool", TypeKind.prim "int"]) ins_bool_int 1
    (by simp [generic_decl, Fn.Generics]) rfl
    (by
      intro a ha
      simp only [List.mem_cons, List.mem_singleton, List.not_mem_nil, or_false] at ha
      rcases ha with h | h <;> subst h <;>
        exact ⟨rfl, by simp [ins_int_str, ins_bool_int, ins_of, FnIns.Generics]⟩)
    rfl rfl
    ⟨rfl, by simp [ins_of, FnIns.Generics]⟩ rfl

/-! ### Compatibility checker and constant narrowing -/

/-- A parameter named `&self` is a reference receiver. -/
theorem ref_self_is_reference_receiver (p : Param) (h : p.Ident = "&self") :
    (p.Is_ref && p.Is_self) = true := by
  simp only [Param.Is_ref, Param.Is_self, h]
  decide

/-- When every method declares a parameter and some method's first parameter is
`&self`, the trait is reported as having a reference receiver. -/
theorem trait_has_reference_receiver_loop_true (ms : List Fn)
    (hall : ∀ m ∈ ms, m.Params ≠ [])
    (hex : ∃ m ∈ ms, ∃ p, m.Params.head? = some p ∧ p.Ident = "&self") :
    trait_has_reference_receiver_loop ms = .ok true := by
  induction ms with
  | nil => simp at hex
  | cons m rest ih =>
    have hm := hall m (List.mem_cons_self _ _)
    cases hp : m.Params with
    | nil => exact absurd hp hm
    | cons p ps =>
      simp only [trait_has_reference_receiver_loop, hp]
      by_cases hc : (p.Is_ref && p.Is_self) = true
      · simp [hc]
      · simp only [hc]
        apply ih
        · intro m' hm'
          exact hall m' (List.mem_cons_of_mem _ hm')
        · obtain ⟨m', hm', q, hq, hid⟩ := hex
          rcases List.mem_cons.mp hm' with h | h
          · subst h
            rw [hp] at hq
            simp only [List.head?_cons, Option.some.injEq] at hq
            subst hq
            exact absurd (ref_self_is_reference_receiver _ hid) hc
          · exact ⟨m', h, q, hq, hid⟩

/-- C8: for a trait destination that declares a method with a `&self` receiver
(every method declaring at least its receiver) and a plain struct source: if the
struct's declaration implements the trait, the check returns false and pushes
exactly one `trait_has_reference_parametered_function` diagnostic; if it does
not, the check returns false and pushes none (also behind a reference). -/
theorem check_trait_plain_struct (env : Env) (fuel : Nat) (deref : Bool) (t : Trait)
    (s : StructIns) (hall : ∀ m ∈ t.Methods, m.Params ≠ [])
    (hex : ∃ m ∈ t.Methods, ∃ p, m.Params.head? = some p ∧ p.Ident = "&self") :
    (s.Decl.Is_implements t = true →
      check env (fuel + 1) deref (some (TypeKind.trt t)) (some (TypeKind.strct s))
        = .ok (false, [⟨"trait_has_reference_parametered_function", []⟩])) ∧
    (s.Decl.Is_implements t = false →
      check env (fuel + 1) deref (some (TypeKind.trt t)) (some (TypeKind.strct s))
        = .ok (false, []) ∧
      check env (fuel + 1) deref (some (TypeKind.trt t)) (some (TypeKind.ref (TypeKind.strct s)))
        = .ok (false, [])) := by
  have hr : trait_has_reference_receiver t = .ok true :=
    trait_has_reference_receiver_loop_true t.Methods hall hex
  refine ⟨?_, ?_⟩
  · intro himp
    simp [check, check_trait, check_trait_struct, TypeKind.Ref, TypeKind.Trt, TypeKind.Strct,
      TypeKind.Is_nil, himp, hr]
  · intro himp
    simp [check, check_trait, check_trait_struct, TypeKind.Ref, TypeKind.Trt, TypeKind.Strct,
      TypeKind.Is_nil, himp]

/-- C8 at a concrete input: the plain struct `Circle` against the trait `Shape`,
which declares `area(&self)`. -/
theorem check_trait_plain_struct_witness :
    check sample_env 1 false (some (TypeKind.trt shape_trait)) (some circle)
      = .ok (false, [⟨"trait_has_reference_parametered_function", []⟩]) :=
  (check_trait_plain_struct sample_env 0 false shape_trait (StructIns.mk ⟨7, "Circle", [1]⟩ [] [])
    (by intro m hm; simp [shape_trait, Trait.Methods] at hm; subst hm; simp [Fn.Params])
    ⟨_, List.mem_cons_self _ _, _, rfl, rfl⟩).1 (by decide)

/-- C7 (evaluation at the failing input): for the trait `Shape`, which declares
`area(&self)`, and the source `&Circle`, a reference to a struct implementing it,
the compatibility check returns false and pushes the
`trait_has_reference_parametered_function` diagnostic: `check` strips the
reference layer before `check_trait` looks for it. -/
theorem check_trait_reference_to_struct (env : Env) (fuel : Nat) (deref : Bool) :
    check env (fuel + 1) deref (some (TypeKind.trt shape_trait)) (some (TypeKind.ref circle))
      = .ok (false, [⟨"trait_has_reference_parametered_function", []⟩]) := by
  rfl

/-- C9 (counterexample): for the unsafe pointer destination and the source
`int`, which is not a pointer, the compatibility check returns false. -/
theorem check_unsafe_ptr_rejects_int :
    check sample_env 1 false (some (TypeKind.ptr none)) (some (TypeKind.prim "int"))
      = .ok (false, []) := by
  decide

/-- C9 (amended): for an unsafe pointer destination the compatibility check
returns true exactly when the source, after one reference layer is stripped if
present, is `nil` or a pointer, and false for every other source; it pushes no
diagnostic. -/
theorem check_unsafe_ptr_dest (env : Env) (fuel : Nat) (deref : Bool) (src : TypeKind) :
    check env (fuel + 1) deref (some (TypeKind.ptr none)) (some src)
      = .ok ((src.Ref.getD src).Is_nil || ((src.Ref.getD src).Ptr).isSome, []) := by
  cases src with
  | ref e =>
    cases e <;>
      simp [check, check_ptr, TypeKind.Ref, TypeKind.Trt, TypeKind.Ptr, TypeKind.Is_nil,
        Ptr_Is_unsafe]
  | _ =>
    simp [check, check_ptr, TypeKind.Ref, TypeKind.Trt, TypeKind.Ptr, TypeKind.Is_nil,
      Ptr_Is_unsafe]

/-- C5 (evaluation at the failing input): with the documented bounds,
`int_assignable` accepts the unsigned constant 9223372036854775808 for the
destination kind `i64`, although it exceeds the documented maximum
9223372036854775807: the bound is compared as a `float64`. -/
theorem int_assignable_i64_accepts_two_pow_63 (cbf : String → Nat → Bool)
    (compat : String → String → Bool) :
    int_assignable (documented_types cbf compat) "i64" (Const.u64 9223372036854775808) = true ∧
    max_int_of "i64" < 9223372036854775808 :=
  ⟨rfl, by decide⟩

/-- Whatever bounds package `types` reports, a kind for which `sig_assignable`
accepts the signed constant 9223372036854775807 also accepts the unsigned
constant 9223372036854775808: both convert to the same `float64`. -/
theorem sig_assignable_cannot_tell_boundary (ty : Types) (kind : String)
    (h : sig_assignable ty kind (Const.i64 9223372036854775807) = true) :
    sig_assignable ty kind (Const.u64 9223372036854775808) = true := by
  have e1 : F64.of_i64 9223372036854775807 = F64.fin 9223372036854775808 0 := rfl
  have e2 : F64.of_u64 9223372036854775808 = F64.fin 9223372036854775808 0 := rfl
  simp only [sig_assignable, Const.Is_f64, Const.Is_u64, Const.Is_i64, Const.Read_i64,
    Const.Read_u64, e1, e2] at h ⊢
  simp at h ⊢
  exact h.2

/-- The same for `unsig_assignable`. -/
theorem unsig_assignable_cannot_tell_boundary (ty : Types) (kind : String)
    (h : unsig_assignable ty kind (Const.i64 9223372036854775807) = true) :
    unsig_assignable ty kind (Const.u64 9223372036854775808) = true := by
  have e1 : F64.of_i64 9223372036854775807 = F64.fin 9223372036854775808 0 := rfl
  have e2 : F64.of_u64 9223372036854775808 = F64.fin 9223372036854775808 0 := rfl
  simp only [unsig_assignable, Const.Is_f64, Const.Is_u64, Const.Is_i64, Const.Read_i64,
    Const.Read_u64, e1, e2] at h ⊢
  simp at h ⊢
  exact h.2

/-- Whatever package `types` reports, `int_assignable` cannot accept the signed
constant 9223372036854775807 for a kind and reject the unsigned constant
9223372036854775808 for it. -/
theorem int_assignable_cannot_tell_boundary (ty : Types) (kind : String)
    (h : int_assignable ty kind (Const.i64 9223372036854775807) = true) :
    int_assignable ty kind (Const.u64 9223372036854775808) = true := by
  unfold int_assignable at h ⊢
  by_cases h1 : ty.Is_sig_int kind = true
  · simp only [h1, if_true] at h ⊢
    exact sig_assignable_cannot_tell_boundary ty kind h
  · by_cases h2 : ty.Is_unsig_int kind = true
    · simp only [h1, h2, if_true, if_false] at h ⊢
      exact unsig_assignable_cannot_tell_boundary ty kind h
    · simp [h1, h2] at h

/-- C6 (evaluation at the failing input): for the destination `u8` and the
numeric constant 300, which overflows it, `_AssignTypeChecker.check` pushes
`overflow_limits` and then returns whatever the Type Compatibility Checker
answers, true included, followed by the checker's diagnostics. -/
theorem assign_check_overflow_delegates (b : Bool) (l : List Diag) :
    AssignTypeChecker.check sample_env (fun _ _ _ => .ok (b, l)) false (TypeKind.prim "u8")
        (some data_300) = .ok (b, ⟨"overflow_limits", []⟩ :: l) ∧
    int_assignable sample_env.types "u8" (Const.i64 300) = false :=
  ⟨rfl, by decide⟩

/-! ### Dynamic type annotation -/

/-- One step of the loop of `annotate_any` over a generic parameter whose name
differs from the rendering under the cursor. -/
theorem annotate_any_loop_skip (To_str : TypeKind → String) (f : FnIns) (kind : String)
    (k : Option TypeKind) (a : GenericDecl) (rest : List GenericDecl) (i0 : Nat)
    (h : (kind != a.Ident) = true) :
    annotate_any_loop To_str f kind k (a :: rest) i0
      = annotate_any_loop To_str f kind k rest (i0 + 1) := by
  simp only [annotate_any_loop, h, if_true]

/-- The loop skips every generic parameter whose name differs and runs its body
at the first one whose name matches. -/
theorem annotate_any_loop_first (To_str : TypeKind → String) (f : FnIns) (kind : String)
    (k : Option TypeKind) (gs : List GenericDecl) (i0 i : Nat) (g : GenericDecl)
    (hg : gs.get? i = some g) (hname : kind = g.Ident)
    (hfirst : ∀ j < i, ∀ g1, gs.get? j = some g1 → g1.Ident ≠ g.Ident) :
    annotate_any_loop To_str f kind k gs i0 = annotate_any_loop To_str f kind k [g] (i0 + i) := by
  induction gs generalizing i0 i with
  | nil => simp at hg
  | cons a rest ih =>
    cases i with
    | zero =>
      simp only [List.get?_cons_zero, Option.some.injEq] at hg
      subst hg
      simp [annotate_any_loop, hname]
    | succ n =>
      simp only [List.get?_cons_succ] at hg
      have hne : a.Ident ≠ g.Ident := hfirst 0 (Nat.succ_pos _) a rfl
      have hrec := ih (i0 + 1) n hg
        (fun j hj g1 hg1 => hfirst (j + 1) (Nat.succ_lt_succ hj) g1 (by simpa using hg1))
      have hk : (kind != a.Ident) = true := by
        rw [hname]; simpa [bne_iff_ne] using fun h => hne h.symm
      rw [annotate_any_loop_skip To_str f kind k a rest i0 hk, hrec]
      congr 1
      omega

/-- The body of the loop of `annotate_any` at a generic parameter whose name is
the rendering under the cursor. -/
theorem annotate_any_loop_hit (To_str : TypeKind → String) (f : FnIns) (g : GenericDecl)
    (k : Option TypeKind) (i : Nat) :
    annotate_any_loop To_str f g.Ident k [g] i =
      match f.Generics.get? i with
      | none => .error Fault.index_out_of_range
      | some none =>
        match k with
        | none => .error Fault.nil_deref
        | some kk =>
          match push_generic f kk i with
          | .error e => .error e
          | .ok (f1, l) => .ok ((true, f1), l)
      | some (some t) =>
        match k with
        | none => .error Fault.nil_deref
        | some kk =>
          if To_str t != To_str kk then .ok ((false, f), [])
          else .ok ((true, f), []) := by
  simp only [annotate_any_loop, bne_self_eq_false, Bool.false_eq_true, if_false]

/-- C10: when the parameter shape renders to the name of generic parameter `i`
of the callee (the first parameter of that name): if slot `i` is unbound,
`annotate` binds it to the argument type and returns true; if slot `i` is bound
to a type rendering like the argument type, `annotate` returns true and leaves
the slots as they were; if it is bound to a type rendering differently,
`annotate` returns false (the shape, rendering to an identifier, being no slice,
map, function or pointer). -/
theorem annotate_generic_name (To_str : TypeKind → String) (fuel : Nat) (f : FnIns)
    (p : ParamIns) (a : Data) (pk : TypeKind) (i : Nat) (g : GenericDecl)
    (hp : p.Kind = some pk) (hg : f.Decl.Generics.get? i = some g)
    (hname : To_str pk = g.Ident)
    (hfirst : ∀ j < i, ∀ g1, f.Decl.Generics.get? j = some g1 → g1.Ident ≠ g.Ident) :
    (f.Generics.get? i = some none →
      annotate To_str (fuel + 1) f p a
        = .ok ((true, f.set_Generics (f.Generics.set i (some a.Kind))),
            if a.Kind.Enm.isSome then [⟨"enum_not_supports_as_generic", []⟩] else [])) ∧
    (∀ t, f.Generics.get? i = some (some t) → To_str t = To_str a.Kind →
      annotate To_str (fuel + 1) f p a = .ok ((true, f), [])) ∧
    (∀ t, f.Generics.get? i = some (some t) → To_str t ≠ To_str a.Kind →
      pk.Slc = none → pk.Map = none → pk.Fnc = none → pk.Ptr = none →
      annotate To_str (fuel + 1) f p a = .ok ((false, f), [])) := by
  have hloop : ∀ k, annotate_any_loop To_str f g.Ident k f.Decl.Generics 0
      = annotate_any_loop To_str f g.Ident k [g] i := by
    intro k
    have := annotate_any_loop_first To_str f g.Ident k f.Decl.Generics 0 i g hg rfl hfirst
    simpa using this
  refine ⟨?_, ?_, ?_⟩
  · intro hslot
    have hlt : i < f.Generics.length := by
      by_contra hc
      have := List.get?_eq_none.mpr (Nat.le_of_not_lt hc)
      rw [this] at hslot
      exact Option.noConfusion hslot
    simp only [annotate, annotate_kind, annotate_any, hp, hname, hloop, annotate_any_loop_hit,
      hslot, push_generic, hlt, if_true]
  · intro t hslot heq
    simp only [annotate, annotate_kind, annotate_any, hp, hname, hloop, annotate_any_loop_hit,
      hslot, heq, bne_self_eq_false, Bool.false_eq_true, if_false]
  · intro t hslot hne h1 h2 h3 h4
    have hb : (To_str t != To_str a.Kind) = true := by simpa [bne_iff_ne] using hne
    simp only [annotate, annotate_kind, annotate_any, annotate_prim, annotate_slc, annotate_map,
      annotate_fn, annotate_ptr, hp, hname, hloop, annotate_any_loop_hit, hslot, hb, if_true,
      h1, h2, h3, h4]
    split_ifs <;> rfl

/-- C10 at a concrete input: the shape `T` of the open instance `g[T, U]`,
offered an `int` argument, binds the first slot to `int`. -/
theorem annotate_generic_name_witness :
    annotate sample_str 1 open_ins param_T data_int
      = .ok ((true, open_ins.set_Generics [some (TypeKind.prim "int"), none]), []) :=
  (annotate_generic_name sample_str 0 open_ins param_T data_int (TypeKind.prim "T") 0 ⟨"T"⟩
    rfl rfl rfl (by intro j hj; omega)).1 rfl

open FnCallArgChecker StructLitChecker

/-! ### Dynamic type annotation: enums and unbound slots -/

/-- C11 (evaluation at the failing input): for the parameter shape `T` of the
open instance `g[T, U]` and an argument of the enum type `Color`, `annotate`
pushes `enum_not_supports_as_generic`, yet binds the slot of `T` to the enum and
returns true. -/
theorem annotate_binds_enum :
    annotate sample_str 1 open_ins param_T data_color
      = .ok ((true, open_ins.set_Generics [some color, none]),
          [⟨"enum_not_supports_as_generic", []⟩]) := rfl

/-- When `check_dynamic_type_annotation` returns true, every generic slot is
bound. -/
theorem check_dynamic_type_annotation_true (gs : List (Option TypeKind))
    (h : ( check_dynamic_type_annotation gs).1 = true) : ∀ g ∈ gs, g ≠ none := by
  induction gs with
  | nil => simp
  | cons a rest ih =>
    cases a with
    | none => simp [ check_dynamic_type_annotation] at h
    | some t =>
      simp only [ check_dynamic_type_annotation] at h
      intro g hg
      rcases List.mem_cons.mp hg with h1 | h1
      · subst h1; simp
      · exact ih h g h1

/-- With an unbound slot, `check_dynamic_type_annotation` returns false and
pushes exactly one `dynamic_type_annotation_failed` diagnostic. -/
theorem check_dynamic_type_annotation_unbound (gs : List (Option TypeKind))
    (h : ∃ g ∈ gs, g = none) :
    check_dynamic_type_annotation gs = (false, [⟨"dynamic_type_annotation_failed", []⟩]) := by
  induction gs with
  | nil => simp at h
  | cons a rest ih =>
    cases a with
    | none => rfl
    | some t =>
      simp only [ check_dynamic_type_annotation]
      apply ih
      obtain ⟨g, hg, hn⟩ := h
      rcases List.mem_cons.mp hg with h1 | h1
      · subst h1; simp at hn
      · exact ⟨g, h1, hn⟩

/-- C12: with dynamic annotation active, the Call Argument Binder's `check`
returns true only if every generic slot of the target instance is bound
afterwards; and when the counts are right and all arguments were processed
successfully but a slot is still unbound, it returns false and pushes, after
the diagnostics of the earlier steps, exactly one
`dynamic_type_annotation_failed` diagnostic. -/
theorem check_requires_bound_slots (h : Host) (fuel : Nat) (fc : FnCallArgChecker)
    (st : CallState) (hd : fc.dynamic_annotation = true) :
    (∀ st1 log, FnCallArgChecker.check h fuel fc st = .ok ((true, st1), log) →
      ∀ g ∈ st1.f.Generics, g ≠ none) ∧
    (∀ params l1 st1 l2, get_params st = .ok params →
      check_counts fc params = .ok (true, l1) →
      check_args h fuel fc st params = .ok ((true, st1), l2) →
      (∃ g ∈ st1.f.Generics, g = none) →
      FnCallArgChecker.check h fuel fc st
        = .ok ((false, st1), l1 ++ l2 ++ [⟨"dynamic_type_annotation_failed", []⟩])) := by
  refine ⟨?_, ?_⟩
  · intro st1 log hrun
    unfold FnCallArgChecker.check at hrun
    cases hp : get_params st with
    | error e => simp [hp] at hrun
    | ok params =>
      simp only [hp] at hrun
      cases hc : check_counts fc params with
      | error e => simp [hc] at hrun
      | ok r =>
        obtain ⟨b, l⟩ := r
        cases b with
        | false => simp [hc] at hrun
        | true =>
          simp only [hc] at hrun
          cases ha : check_args h fuel fc st params with
          | error e => simp [ha] at hrun
          | ok r2 =>
            obtain ⟨⟨ok, st2⟩, l2⟩ := r2
            simp only [ha, hd, Bool.and_true] at hrun
            cases ok with
            | false => simp at hrun
            | true =>
              simp only [if_true, Except.ok.injEq, Prod.mk.injEq] at hrun
              obtain ⟨⟨h1, h2⟩, _⟩ := hrun
              subst h2
              exact check_dynamic_type_annotation_true _ h1
  · intro params l1 st1 l2 hp hc ha hex
    unfold FnCallArgChecker.check
    simp only [hp, hc, ha, hd, Bool.and_true, if_true,
      check_dynamic_type_annotation_unbound _ hex]

/-- C12 at a concrete input: `pick[T, U](x T)` called with `1` binds `T` and
leaves `U` unbound. -/
theorem check_requires_bound_slots_witness :
    FnCallArgChecker.check sample_host 1 ⟨[lit "1"], true, none⟩ ⟨pick_ins, []⟩
      = .ok ((false, ⟨pick_ins.set_Generics [some (TypeKind.prim "int"), none],
            [ExprModel.other 1]⟩), [⟨"dynamic_type_annotation_failed", []⟩]) :=
  (check_requires_bound_slots sample_host 1 ⟨[lit "1"], true, none⟩ ⟨pick_ins, []⟩ rfl).2
    [some (ParamIns.mk (some param_x) (some (TypeKind.prim "T")))] []
    ⟨pick_ins.set_Generics [some (TypeKind.prim "int"), none], [ExprModel.other 1]⟩ []
    rfl rfl rfl ⟨none, by simp [pick_ins, FnIns.set_Generics, FnIns.Generics], rfl⟩

/-! ### Argument counts -/

/-- Removing the first two characters of a string that starts with the
separator. -/
theorem drop_separator (t : String) : (", " ++ t).drop 2 = t := by
  rw [String.drop_eq]
  apply String.ext
  simp [String.data_append]

/-- The accumulated identifiers, seen through the accumulator of
`String.intercalate`. -/
theorem foldl_separator (xs : List String) (acc : String) :
    xs.foldl (fun a x => a ++ (", " ++ x)) (", " ++ acc)
      = ", " ++ String.intercalate.go acc ", " xs := by
  induction xs generalizing acc with
  | nil => simp [String.intercalate.go]
  | cons x t ih =>
    simp only [List.foldl_cons, String.intercalate.go]
    have : (", " ++ acc) ++ (", " ++ x) = ", " ++ (acc ++ ", " ++ x) := by
      simp [String.append_assoc]
    rw [this, ih]

/-- Dropping the first separator from the accumulated identifiers gives the
identifiers joined by ", ". -/
theorem foldl_idents_joined (xs : List String) (hne : xs ≠ []) :
    (xs.foldl (fun a x => a ++ (", " ++ x)) "").drop 2 = ", ".intercalate xs := by
  cases xs with
  | nil => exact absurd rfl hne
  | cons a t =>
    simp only [List.foldl_cons, String.empty_append, String.intercalate]
    rw [foldl_separator, drop_separator]

/-- The identifier loop, when every identifier it reads is there. -/
theorem idents_loop_eq (ident_at : Nat → Except Fault String) (ids : List String)
    (hat : ∀ j, j < ids.length → ident_at j = .ok (ids.getD j "")) (d : Nat)
    (hd : d ≤ ids.length) (acc : String) :
    idents_loop ident_at ids.length d acc
      = .ok ((ids.drop (ids.length - d)).foldl (fun a x => a ++ (", " ++ x)) acc) := by
  induction d generalizing acc with
  | zero => simp [idents_loop]
  | succ k ih =>
    have hlt : ids.length - (k + 1) < ids.length := by omega
    have hdrop : ids.drop (ids.length - (k + 1))
        = ids.getD (ids.length - (k + 1)) "" :: ids.drop (ids.length - k) := by
      rw [List.drop_eq_getElem_cons hlt]
      congr 1
      · simp [List.getD_eq_getElem?_getD, List.getElem?_eq_getElem hlt]
      · congr 1; omega
    rw [idents_loop, hat _ hlt]
    simp only
    rw [ih (by omega), hdrop, List.foldl_cons]

/-- Reading the declaration of a present parameter entry. -/
theorem decl_at_map (params : List ParamIns) (hdecl : ∀ q ∈ params, q.Decl ≠ none) (j : Nat)
    (hj : j < params.length) :
    ∃ d, (params.get ⟨j, hj⟩).Decl = some d ∧ decl_at (params.map some) j = .ok d := by
  have hq := hdecl _ (List.get_mem params j hj)
  cases hd : (params.get ⟨j, hj⟩).Decl with
  | none => exact absurd hd hq
  | some d =>
    refine ⟨d, rfl, ?_⟩
    have hget : (params.map some).get? j = some (some (params.get ⟨j, hj⟩)) := by
      rw [List.get?_eq_get (by simpa using hj)]; simp
    simp only [decl_at, hget, hd]

/-- Reading the identifier of a present parameter entry. -/
theorem decl_at_ident (params : List ParamIns) (hdecl : ∀ q ∈ params, q.Decl ≠ none) (j : Nat)
    (hj : j < (params.map ParamIns.ident).length) :
    (decl_at (params.map some) j).map Param.Ident
      = .ok ((params.map ParamIns.ident).getD j "") := by
  have hj2 : j < params.length := by simpa using hj
  obtain ⟨d, hd, hat⟩ := decl_at_map params hdecl j hj2
  rw [hat]
  have : (params.map ParamIns.ident).getD j "" = d.Ident := by
    have hd1 : (params[j]).Decl = some d := hd
    simp [ParamIns.ident, List.getElem?_eq_getElem hj2, hd1]
  rw [this]
  rfl

/-- Reading the variadic flag of the final parameter. -/
theorem decl_at_last (params : List ParamIns) (hdecl : ∀ q ∈ params, q.Decl ≠ none)
    (hne : 0 < params.length) :
    (decl_at (params.map some) (params.length - 1)).map Param.Variadic
      = .ok (final_variadic params) := by
  have hj : params.length - 1 < params.length := by omega
  obtain ⟨d, hd, hat⟩ := decl_at_map params hdecl _ hj
  rw [hat]
  have : final_variadic params = d.Variadic := by
    have hd1 : (params[params.length - 1]).Decl = some d := hd
    unfold final_variadic
    rw [List.getLast?_eq_getElem?, List.getElem?_eq_getElem hj]
    simp [hd1]
  rw [this]
  rfl

/-- The result of `check_counts` on a receiver-stripped list whose entries all
carry their declaration. -/
theorem check_counts_eq (fc : FnCallArgChecker) (params : List ParamIns)
    (hdecl : ∀ q ∈ params, q.Decl ≠ none)
    (hstrip : ∀ q d, params.head? = some q → q.Decl = some d → d.Is_self = false) :
    check_counts fc (params.map some) =
      if fc.args.length = params.length then .ok (true, [])
      else if final_variadic params then .ok (true, [])
      else if params.length < fc.args.length then .ok (false, [⟨"argument_overflow", []⟩])
      else .ok (false, [⟨"missing_expr_for",
        [", ".intercalate ((params.drop fc.args.length).map ParamIns.ident)]⟩]) := by
  cases params with
  | nil =>
    by_cases h0 : fc.args.length = 0
    · simp [check_counts, h0]
    · have hlt : 0 < fc.args.length := Nat.pos_of_ne_zero h0
      have hneg : ((0 : Int) - (fc.args.length : Int) == 0) = false := by
        rw [beq_eq_false_iff_ne]; omega
      have hneg2 : ((0 : Int) - (fc.args.length : Int) < 0) := by omega
      simp only [check_counts, List.map_nil, List.length_nil, gt_iff_lt, Nat.lt_irrefl,
        if_false, Nat.cast_zero, hneg, h0, final_variadic, List.getLast?_nil, hneg2,
        Bool.false_eq_true, decide_True, Bool.true_or, if_true, hlt]
  | cons q rest =>
    have hlen : 0 < (q :: rest).length := by simp
    obtain ⟨d0, hd0, hat0⟩ := decl_at_map (q :: rest) hdecl 0 hlen
    have hs0 : d0.Is_self = false := hstrip q d0 rfl hd0
    have hself : (decl_at ((q :: rest).map some) 0).map Param.Is_self = .ok false := by
      rw [hat0]; simp [Except.map, hs0]
    have hlast := decl_at_last (q :: rest) hdecl hlen
    generalize hP : q :: rest = P at *
    have hPlen : (P.map some).length = P.length := List.length_map _ _
    unfold check_counts
    simp only [hPlen, gt_iff_lt, hlen, if_true, hself, Bool.false_eq_true, if_false, hlast]
    by_cases he : fc.args.length = P.length
    · simp [he]
    · have hne : (((P.length : Int) - (fc.args.length : Int)) == 0) = false := by
        rw [beq_eq_false_iff_ne]; omega
      simp only [hne, Bool.false_eq_true, if_false, he]
      cases hv : final_variadic P with
      | true => simp
      | false =>
        simp only [Bool.false_eq_true, if_false]
        by_cases hlt : P.length < fc.args.length
        · have : ((P.length : Int) - (fc.args.length : Int) < 0) := by omega
          simp [this, hlt]
        · have h1 : ¬ ((P.length : Int) - (fc.args.length : Int) < 0) := by omega
          have h2 : ¬ ((P.length : Int) - (fc.args.length : Int) > (P.length : Int)) := by omega
          have hk : fc.args.length < P.length := by omega
          have htn : ((P.length : Int) - (fc.args.length : Int)).toNat
              = P.length - fc.args.length := by omega
          have hloop := idents_loop_eq (fun j => (decl_at (P.map some) j).map Param.Ident)
            (P.map ParamIns.ident) (fun j hj => decl_at_ident P hdecl j hj)
            (P.length - fc.args.length) (by simp) ""
          simp only [List.length_map] at hloop
          have hsub : P.length - (P.length - fc.args.length) = fc.args.length := by omega
          rw [hsub] at hloop
          have hne2 : (P.map ParamIns.ident).drop fc.args.length ≠ [] := by
            intro hc
            have := congrArg List.length hc
            simp at this
            omega
          simp only [h1, h2, or_self, decide_False, Bool.false_eq_true, if_false, hlt, htn, hloop,
            foldl_idents_joined _ hne2, List.map_drop, Bool.or_self]

/-- Every parameter instance of `add` carries its declaration. -/
theorem add_params_decl : ∀ q ∈ add_params, q.Decl ≠ none := by
  intro q hq
  simp only [add_params, List.mem_cons, List.mem_singleton, List.not_mem_nil, or_false] at hq
  rcases hq with h | h | h <;> subst h <;> simp [ParamIns.Decl]

/-- The first parameter of `add` is no receiver. -/
theorem add_params_stripped :
    ∀ q d, add_params.head? = some q → q.Decl = some d → d.Is_self = false := by
  intro q d h1 h2
  simp only [add_params, List.head?_cons, Option.some.injEq] at h1
  subst h1
  simp only [ParamIns.Decl, Option.some.injEq] at h2
  subst h2
  decide

/-- C13: for a receiver-stripped parameter list (entries present, with their
declarations) and an argument list, `check_counts` returns true if and only if
the number of arguments equals the number of parameters or the final parameter
is variadic; and with more arguments than parameters and a final parameter that
is not variadic, it returns false and pushes exactly one `argument_overflow`
diagnostic. -/
theorem check_counts_arity (fc : FnCallArgChecker) (params : List ParamIns)
    (hdecl : ∀ q ∈ params, q.Decl ≠ none)
    (hstrip : ∀ q d, params.head? = some q → q.Decl = some d → d.Is_self = false) :
    ∃ l, check_counts fc (params.map some)
        = .ok (decide (fc.args.length = params.length) || final_variadic params, l) ∧
      (params.length < fc.args.length → final_variadic params = false →
        l = [⟨"argument_overflow", []⟩]) := by
  rw [check_counts_eq fc params hdecl hstrip]
  by_cases he : fc.args.length = params.length
  · refine ⟨[], by simp [he], ?_⟩
    intro hlt; omega
  · cases hv : final_variadic params with
    | true => exact ⟨[], by simp [he], by intro _ hc; exact absurd hc (by decide)⟩
    | false =>
      by_cases hlt : params.length < fc.args.length
      · exact ⟨_, by simp [he, hlt], fun _ _ => rfl⟩
      · exact ⟨[⟨"missing_expr_for",
          [", ".intercalate ((params.drop fc.args.length).map ParamIns.ident)]⟩],
          by simp [he, hlt], fun hc => absurd hc hlt⟩

/-- C13 at a concrete input: four arguments for `add(a, b, c)`. -/
theorem check_counts_arity_witness :
    ∃ l, check_counts ⟨[lit "1", lit "2", lit "3", lit "4"], false, none⟩ (add_params.map some)
        = .ok (decide ([lit "1", lit "2", lit "3", lit "4"].length = add_params.length)
            || final_variadic add_params, l) ∧
      (add_params.length < [lit "1", lit "2", lit "3", lit "4"].length →
        final_variadic add_params = false → l = [⟨"argument_overflow", []⟩]) :=
  check_counts_arity ⟨[lit "1", lit "2", lit "3", lit "4"], false, none⟩ add_params
    add_params_decl add_params_stripped

/-- C14: when the final parameter is not variadic and `k` arguments are given
for `n > k` receiver-stripped parameters, `check_counts` returns false and
pushes exactly one `missing_expr_for` diagnostic whose single argument is the
identifiers of parameters `k + 1` through `n`, in declared order, joined by
", ". -/
theorem check_counts_missing (fc : FnCallArgChecker) (params : List ParamIns)
    (hdecl : ∀ q ∈ params, q.Decl ≠ none)
    (hstrip : ∀ q d, params.head? = some q → q.Decl = some d → d.Is_self = false)
    (hv : final_variadic params = false) (hk : fc.args.length < params.length) :
    check_counts fc (params.map some)
      = .ok (false, [⟨"missing_expr_for",
          [", ".intercalate ((params.drop fc.args.length).map ParamIns.ident)]⟩]) := by
  rw [check_counts_eq fc params hdecl hstrip]
  have h1 : ¬ fc.args.length = params.length := by omega
  have h2 : ¬ params.length < fc.args.length := by omega
  simp [h1, h2, hv]

/-- C14 at a concrete input: one argument for `add(a, b, c)` names `b, c`. -/
theorem check_counts_missing_witness :
    check_counts ⟨[lit "1"], false, none⟩ (add_params.map some)
      = .ok (false, [⟨"missing_expr_for", ["b, c"]⟩]) :=
  check_counts_missing ⟨[lit "1"], false, none⟩ add_params add_params_decl add_params_stripped
    (by decide) (by decide)

/-! ### Variadic binding -/

/-- The empty log holds only enum diagnostics. -/
theorem EnumOnly.nil : EnumOnly [] := by intro x hx; simp at hx

/-- Two logs of enum diagnostics, appended. -/
theorem EnumOnly.append {a b : List Diag} (ha : EnumOnly a) (hb : EnumOnly b) :
    EnumOnly (a ++ b) := by
  intro x hx
  rcases List.mem_append.mp hx with h | h
  · exact ha x h
  · exact hb x h

/-- The method `push_generic` logs only the enum diagnostic. -/
theorem push_generic_log (f : FnIns) (k : TypeKind) (i : Nat) (f1 : FnIns) (l : List Diag)
    (h : push_generic f k i = .ok (f1, l)) : EnumOnly l := by
  unfold push_generic at h
  by_cases hi : i < f.Generics.length
  · simp only [hi, if_true, Except.ok.injEq, Prod.mk.injEq] at h
    rw [← h.2]
    split
    · intro x hx; simpa using hx
    · exact EnumOnly.nil
  · simp [hi] at h

/-- The loop of `annotate_any` logs only the enum diagnostic. -/
theorem annotate_any_loop_log (To_str : TypeKind → String) (f : FnIns) (kind : String)
    (k : Option TypeKind) (gs : List GenericDecl) (i : Nat) (r : Bool × FnIns) (l : List Diag)
    (h : annotate_any_loop To_str f kind k gs i = .ok (r, l)) : EnumOnly l := by
  induction gs generalizing i with
  | nil =>
    simp only [annotate_any_loop, Except.ok.injEq, Prod.mk.injEq] at h
    rw [← h.2]; exact EnumOnly.nil
  | cons g rest ih =>
    simp only [annotate_any_loop] at h
    split at h
    · exact ih _ h
    · split at h
      · simp at h
      · split at h
        · simp at h
        · split at h
          · simp at h
          · rename_i f1 l1 hpg
            simp only [Except.ok.injEq, Prod.mk.injEq] at h
            rw [← h.2]
            exact push_generic_log _ _ _ _ _ hpg
      · split at h
        · simp at h
        · split at h <;>
          · simp only [Except.ok.injEq, Prod.mk.injEq] at h
            rw [← h.2]; exact EnumOnly.nil

/-- The method `annotate_slc` logs what its recursive entry logs. -/
theorem annotate_slc_log (ann : Annotator) (hann : LogsEnumOnly ann) (f : FnIns)
    (p k : TypeKind) (r : Bool × FnIns) (l : List Diag)
    (h : annotate_slc ann f p k = .ok (r, l)) : EnumOnly l := by
  unfold annotate_slc at h
  split at h
  · simp only [Except.ok.injEq, Prod.mk.injEq] at h
    rw [← h.2]; exact EnumOnly.nil
  · split at h
    · simp at h
    · exact hann _ _ _ _ _ h

/-- The method `annotate_ptr` logs what its recursive entry logs. -/
theorem annotate_ptr_log (ann : Annotator) (hann : LogsEnumOnly ann) (f : FnIns)
    (p k : TypeKind) (r : Bool × FnIns) (l : List Diag)
    (h : annotate_ptr ann f p k = .ok (r, l)) : EnumOnly l := by
  unfold annotate_ptr at h
  split at h
  · simp only [Except.ok.injEq, Prod.mk.injEq] at h
    rw [← h.2]; exact EnumOnly.nil
  · split at h
    · simp at h
    · exact hann _ _ _ _ _ h

/-- The method `annotate_map` logs what its recursive entry logs. -/
theorem annotate_map_log (ann : Annotator) (hann : LogsEnumOnly ann) (f : FnIns)
    (p k : TypeKind) (r : Bool × FnIns) (l : List Diag)
    (h : annotate_map ann f p k = .ok (r, l)) : EnumOnly l := by
  unfold annotate_map at h
  split at h
  · simp only [Except.ok.injEq, Prod.mk.injEq] at h
    rw [← h.2]; exact EnumOnly.nil
  · split at h
    · simp at h
    · split at h
      · simp at h
      · rename_i f1 l1 h1
        simp only [Except.ok.injEq, Prod.mk.injEq] at h
        rw [← h.2]; exact hann _ _ _ _ _ h1
      · rename_i f1 l1 h1
        split at h
        · simp at h
        · rename_i r2 l2 h2
          simp only [Except.ok.injEq, Prod.mk.injEq] at h
          rw [← h.2]
          exact EnumOnly.append (hann _ _ _ _ _ h1) (hann _ _ _ _ _ h2)

/-- The loop of `annotate_fn` logs what its recursive entry logs. -/
theorem annotate_fn_loop_log (ann : Annotator) (hann : LogsEnumOnly ann) (f : FnIns)
    (ok : Bool) (fps pfps : List (Option ParamIns)) (r : Bool × FnIns) (l : List Diag)
    (h : annotate_fn_loop ann f ok fps pfps = .ok (r, l)) : EnumOnly l := by
  induction fps generalizing f ok pfps l r with
  | nil =>
    simp only [annotate_fn_loop, Except.ok.injEq, Prod.mk.injEq] at h
    rw [← h.2]; exact EnumOnly.nil
  | cons fp frest ih =>
    cases pfps with
    | nil => simp [annotate_fn_loop] at h
    | cons pfp prest =>
      simp only [annotate_fn_loop] at h
      split at h
      · simp at h
      · split at h
        · simp at h
        · split at h
          · simp at h
          · rename_i b f1 l1 h1
            split at h
            · simp at h
            · rename_i r2 l2 h2
              simp only [Except.ok.injEq, Prod.mk.injEq] at h
              rw [← h.2]
              exact EnumOnly.append (hann _ _ _ _ _ h1) (ih _ _ _ _ _ h2)

/-- The method `annotate_fn` logs what its recursive entry logs. -/
theorem annotate_fn_log (ann : Annotator) (hann : LogsEnumOnly ann) (f : FnIns)
    (p k : TypeKind) (r : Bool × FnIns) (l : List Diag)
    (h : annotate_fn ann f p k = .ok (r, l)) : EnumOnly l := by
  unfold annotate_fn at h
  split at h
  · simp only [Except.ok.injEq, Prod.mk.injEq] at h
    rw [← h.2]; exact EnumOnly.nil
  · split at h
    · simp at h
    · split at h
      · simp only [Except.ok.injEq, Prod.mk.injEq] at h
        rw [← h.2]; exact EnumOnly.nil
      · split at h
        · simp only [Except.ok.injEq, Prod.mk.injEq] at h
          rw [← h.2]; exact EnumOnly.nil
        · split at h
          · simp at h
          · rename_i ok f1 l1 h1
            have hl1 := annotate_fn_loop_log ann hann _ _ _ _ _ _ h1
            split at h
            · split at h
              · simp at h
              · rename_i b f2 l2 h2
                simp only [Except.ok.injEq, Prod.mk.injEq] at h
                rw [← h.2]
                exact EnumOnly.append hl1 (hann _ _ _ _ _ h2)
            · simp only [Except.ok.injEq, Prod.mk.injEq] at h
              rw [← h.2]; exact hl1

/-- A run of `annotate_kind` that returns has logged only enum diagnostics. -/
theorem annotate_kind_log (To_str : TypeKind → String) (fuel : Nat) :
    LogsEnumOnly (annotate_kind To_str fuel) := by
  induction fuel with
  | zero => intro f p k r l h; simp [annotate_kind] at h
  | succ n ih =>
    intro f p k r l h
    simp only [annotate_kind] at h
    split at h
    · simp only [Except.ok.injEq, Prod.mk.injEq] at h
      rw [← h.2]; exact EnumOnly.nil
    · split at h
      · simp at h
      · rename_i f1 l1 h1
        simp only [Except.ok.injEq, Prod.mk.injEq] at h
        rw [← h.2]
        exact annotate_any_loop_log _ _ _ _ _ _ _ _ h1
      · rename_i f1 l1 h1
        have hl1 : EnumOnly l1 := annotate_any_loop_log _ _ _ _ _ _ _ _ h1
        split at h
        · simp at h
        · rename_i kk
          split at h
          · simp at h
          · rename_i x l2 h2
            simp only [Except.ok.injEq, Prod.mk.injEq] at h
            rw [← h.2]
            refine EnumOnly.append hl1 ?_
            split at h2
            · exact annotate_any_loop_log _ _ _ _ _ _ _ _ h2
            · split at h2
              · exact annotate_slc_log _ ih _ _ _ _ _ h2
              · split at h2
                · exact annotate_map_log _ ih _ _ _ _ _ h2
                · split at h2
                  · exact annotate_fn_log _ ih _ _ _ _ _ h2
                  · split at h2
                    · exact annotate_ptr_log _ ih _ _ _ _ _ h2
                    · simp only [Except.ok.injEq, Prod.mk.injEq] at h2
                      rw [← h2.2]; exact EnumOnly.nil

/-- The sample evaluator logs nothing. -/
theorem sample_eval_log (k : Option TypeKind) (e : ExprData) : (sample_eval k e).2 = [] := by
  unfold sample_eval
  split <;> rfl

/-- The sample host logs nothing, so it is quiet for every key. -/
theorem sample_host_quiet (key : String) : sample_host.quiet key := by
  refine ⟨?_, ?_, ?_⟩
  · intro k e x hx
    have : (sample_host.eval_expr_kind k e).2 = [] := sample_eval_log k e
    rw [this] at hx
    simp at hx
  · intro m k d x hx
    simp [sample_host] at hx
  · intro k d b x hx
    simp [sample_host] at hx

/-- Without dynamic annotation the parameter instance is left as it is. -/
theorem written_param_plain (h : Host) (fuel : Nat) (fc : FnCallArgChecker) (f : FnIns)
    (p : ParamIns) (arg : Data) (hd : fc.dynamic_annotation = false) :
    written_param h fuel fc f p arg = p := by
  simp only [written_param, hd, Bool.false_eq_true, if_false]

/-- Annotation writes the type of the parameter instance, not its
declaration. -/
theorem written_param_Decl (h : Host) (fuel : Nat) (fc : FnCallArgChecker) (f : FnIns)
    (p : ParamIns) (arg : Data) : (written_param h fuel fc f p arg).Decl = p.Decl := by
  unfold written_param
  split
  · rfl
  · rfl

/-- When the parameter carries its declaration and the run of annotation, if
active, returns and leaves the instance `f1`, `check_arg` returns with that
instance, leaves the argument models alone and logs only diagnostics of the
host, of annotation and its own. -/
theorem check_arg_returns (h : Host) (fuel : Nat) (fc : FnCallArgChecker) (p : ParamIns)
    (d0 : Param) (hdecl : p.Decl = some d0) (st : CallState) (arg : Data) (f1 : FnIns)
    (hstat : fc.dynamic_annotation = false → f1 = st.f)
    (hann : fc.dynamic_annotation = true →
      ∃ b l, annotate h.To_str fuel st.f p arg = .ok ((b, f1), l))
    (key : String) (hq : h.quiet key) (hk1 : key ≠ "enum_not_supports_as_generic")
    (hk2 : key ≠ "dynamic_type_annotation_failed") :
    ∃ b l, check_arg h fuel fc st p arg = .ok ((b, ⟨f1, st.arg_models⟩), l) ∧
      ∀ x ∈ l, x.key ≠ key := by
  have hext : ∀ k, ∀ x ∈ h.check_validity_for_init_expr d0.Mutable k arg
      ++ h.check_assign_type k arg false, x.key ≠ key := by
    intro k x hx
    rcases List.mem_append.mp hx with h1 | h1
    · exact hq.2.1 _ _ _ x h1
    · exact hq.2.2 _ _ _ x h1
  cases hd : fc.dynamic_annotation with
  | false =>
    have hf : f1 = st.f := hstat hd
    subst hf
    refine ⟨true, [] ++ h.check_validity_for_init_expr d0.Mutable
      (written_param h fuel fc st.f p arg).Kind arg
      ++ h.check_assign_type (written_param h fuel fc st.f p arg).Kind arg false, ?_, ?_⟩
    · simp only [check_arg, hd, hdecl, Bool.false_eq_true, if_false]
    · intro x hx
      simp only [List.nil_append] at hx
      exact hext _ x hx
  | true =>
    obtain ⟨b, l, hr⟩ := hann hd
    have hl : EnumOnly l := annotate_kind_log _ _ _ _ _ _ _ hr
    have hlk : ∀ x ∈ l, x.key ≠ key := by
      intro x hx hc
      rw [hl x hx] at hc
      exact hk1 hc.symm
    cases b with
    | false =>
      refine ⟨false, l ++ [⟨"dynamic_type_annotation_failed", []⟩], ?_, ?_⟩
      · simp only [check_arg, hd, hr, if_true]
      · intro x hx
        rcases List.mem_append.mp hx with h1 | h1
        · exact hlk x h1
        · simp only [List.mem_singleton] at h1
          subst h1
          exact fun hc => hk2 hc.symm
    | true =>
      refine ⟨true, l ++ h.check_validity_for_init_expr d0.Mutable
        (written_param h fuel fc st.f p arg).Kind arg
        ++ h.check_assign_type (written_param h fuel fc st.f p arg).Kind arg false, ?_, ?_⟩
      · simp only [check_arg, hd, hr, hdecl, if_true]
      · intro x hx
        rcases List.mem_append.mp hx with h1 | h1
        · rcases List.mem_append.mp h1 with h2 | h2
          · exact hlk x h2
          · exact hq.2.1 _ _ _ x h2
        · exact hq.2.2 _ _ _ x h1

/-- The loop of `push_variadic` over arguments that all evaluate to plain
values: every model is appended to the slice under construction, whose element
kind follows the parameter's type. -/
theorem push_variadic_loop_plain (h : Host) (fuel : Nat) (fc : FnCallArgChecker)
    (key : String) (hq : h.quiet key) (hk1 : key ≠ "enum_not_supports_as_generic")
    (hk2 : key ≠ "dynamic_type_annotation_failed") (f : FnIns) (p : ParamIns)
    (rest : List Expr) (ds : List Data) (q : ParamIns)
    (hpa : PlainArgs h fuel fc f p rest ds q) :
    ∀ (v : VariadicState) (es : List ExprModel) (d0 : Param), v.st.f = f →
      v.model = some ⟨p.Kind, es⟩ → p.Decl = some d0 →
      ∃ v1 l, push_variadic_loop h fuel fc p rest v = .ok (v1, l) ∧
        v1.variadiced = v.variadiced ∧
        v1.model = some ⟨q.Kind, es ++ ds.map Data.Model⟩ ∧
        v1.st.arg_models = v.st.arg_models ∧ ∀ x ∈ l, x.key ≠ key := by
  induction hpa with
  | nil f p =>
    intro v es d0 _ hm _
    exact ⟨v, [], rfl, rfl, by simp [hm], rfl, by simp⟩
  | cons f f1 p q arg rest d ds hd hplain hstat hann _ ih =>
    intro v es d0 hf hm hdecl
    obtain ⟨b, l, hca, hl⟩ :=
      check_arg_returns h fuel fc p d0 hdecl v.st d f1 (fun hc => hf ▸ hstat hc)
        (fun hc => hf ▸ hann hc) key hq hk1 hk2
    obtain ⟨v1, l1, hrun, hv, hmod, hmodels, hl1⟩ :=
      ih ⟨b && v.ok, v.variadiced, some ⟨(written_param h fuel fc f p d).Kind,
          es ++ [d.Model]⟩, ⟨f1, v.st.arg_models⟩⟩ (es ++ [d.Model]) d0 rfl rfl
        ((written_param_Decl h fuel fc f p d).trans hdecl)
    refine ⟨v1, (h.eval_expr_kind p.Kind arg.Kind).2 ++ l ++ l1, ?_, hv, ?_, hmodels, ?_⟩
    · simp only [push_variadic_loop, hd, hplain, hm, Bool.false_eq_true, if_false, hca, hf,
        retyped, hrun]
    · rw [hmod]
      simp [List.append_assoc]
    · intro x hx
      rcases List.mem_append.mp hx with h1 | h1
      · rcases List.mem_append.mp h1 with h2 | h2
        · exact hq.1 _ _ x h2
        · exact hl x h2
      · exact hl1 x h1

/-- There are as many evaluated data as arguments. -/
theorem plain_args_length (h : Host) (fuel : Nat) (fc : FnCallArgChecker) (f : FnIns)
    (p : ParamIns) (rest : List Expr) (ds : List Data) (q : ParamIns)
    (hpa : PlainArgs h fuel fc f p rest ds q) : ds.length = rest.length := by
  induction hpa with
  | nil f p => rfl
  | cons f f1 p q arg rest d ds _ _ _ _ _ ih => simp [ih]

/-- Without dynamic annotation the parameter is never written: when every
argument evaluates to a plain value under the hint of the parameter's type, the
data are those evaluations and the parameter is left as it is. -/
theorem plain_args_static (h : Host) (fuel : Nat) (fc : FnCallArgChecker) (f : FnIns)
    (p : ParamIns) (hdyn : fc.dynamic_annotation = false) (rest : List Expr)
    (heval : ∀ arg ∈ rest, ∃ d, (h.eval_expr_kind p.Kind arg.Kind).1 = some d ∧
      d.Variadiced = false) :
    ∃ ds, PlainArgs h fuel fc f p rest ds p ∧
      ds.map Data.Model = evaluated_models h p.Kind rest := by
  induction rest with
  | nil => exact ⟨[], PlainArgs.nil f p, rfl⟩
  | cons arg rest ih =>
    obtain ⟨d, hd, hplain⟩ := heval arg (List.mem_cons_self _ _)
    obtain ⟨ds, hpa, hds⟩ := ih (fun a ha => heval a (List.mem_cons_of_mem _ ha))
    refine ⟨d :: ds, PlainArgs.cons f f p p arg rest d ds hd hplain (fun _ => rfl)
      (fun hc => absurd (hdyn ▸ hc) (by decide)) ?_, ?_⟩
    · rw [written_param_plain h fuel fc f p d hdyn]
      exact hpa
    · simp [evaluated_models, List.filterMap_cons, hd] at hds ⊢
      exact hds

/-- C15: for a variadic parameter (carrying its declaration) and any number
of remaining arguments, none of which is a spread value and all of which
evaluate successfully, `push_variadic` returns and appends exactly one model to
`arg_models`: a synthetic slice whose element kind is the parameter's type and
whose elements are the evaluated argument models in argument order; and no
`more_args_with_variadiced` diagnostic is logged (the host logging none). With
dynamic annotation active the parameter's type is the one annotation has
written, each argument is evaluated under the type as the arguments before left
it, and the runs of annotation are taken to return (`PlainArgs`); without it the
type is the declared one and the models are the evaluations under it. -/
theorem push_variadic_plain (h : Host) (fuel : Nat) (fc : FnCallArgChecker) (st : CallState)
    (p : ParamIns) (i : Nat) (d0 : Param) (hdecl : p.Decl = some d0)
    (hq : h.quiet "more_args_with_variadiced") :
    (∀ ds q, PlainArgs h fuel fc st.f p (fc.args.drop i) ds q →
      ∃ ok st1 log, push_variadic h fuel fc st p i = .ok ((ok, st1), log) ∧
        st1.arg_models = st.arg_models ++ [ExprModel.slice q.Kind (ds.map Data.Model)] ∧
        ds.length = (fc.args.drop i).length ∧
        ∀ x ∈ log, x.key ≠ "more_args_with_variadiced") ∧
    (fc.dynamic_annotation = false →
      (∀ arg ∈ fc.args.drop i, ∃ d, (h.eval_expr_kind p.Kind arg.Kind).1 = some d ∧
        d.Variadiced = false) →
      ∃ ok st1 log, push_variadic h fuel fc st p i = .ok ((ok, st1), log) ∧
        st1.arg_models
          = st.arg_models
            ++ [ExprModel.slice p.Kind (evaluated_models h p.Kind (fc.args.drop i))] ∧
        (evaluated_models h p.Kind (fc.args.drop i)).length = (fc.args.drop i).length ∧
        ∀ x ∈ log, x.key ≠ "more_args_with_variadiced") := by
  have hgen : ∀ ds q, PlainArgs h fuel fc st.f p (fc.args.drop i) ds q →
      ∃ ok st1 log, push_variadic h fuel fc st p i = .ok ((ok, st1), log) ∧
        st1.arg_models = st.arg_models ++ [ExprModel.slice q.Kind (ds.map Data.Model)] ∧
        ds.length = (fc.args.drop i).length ∧
        ∀ x ∈ log, x.key ≠ "more_args_with_variadiced" := by
    intro ds q hpa
    obtain ⟨v1, l, hrun, hv, hmod, hmodels, hl⟩ :=
      push_variadic_loop_plain h fuel fc "more_args_with_variadiced" hq (by decide) (by decide)
        st.f p (fc.args.drop i) ds q hpa ⟨true, false, some ⟨p.Kind, []⟩, st⟩ [] d0 rfl rfl hdecl
    simp only [List.nil_append] at hv hmod hmodels
    refine ⟨v1.ok, ⟨v1.st.f, v1.st.arg_models ++
        [ExprModel.slice q.Kind (ds.map Data.Model)]⟩, l, ?_, ?_,
        plain_args_length h fuel fc _ _ _ _ _ hpa, hl⟩
    · simp only [push_variadic, hrun, hv, hmod, Bool.false_and, Bool.false_eq_true, if_false,
        List.append_nil, SliceExprModel.to_model]
    · simp [hmodels]
  refine ⟨hgen, ?_⟩
  intro hdyn heval
  obtain ⟨ds, hpa, hds⟩ := plain_args_static h fuel fc st.f p hdyn (fc.args.drop i) heval
  obtain ⟨ok, st1, log, hrun, hmodels, hlen, hl⟩ := hgen ds p hpa
  refine ⟨ok, st1, log, hrun, ?_, ?_, hl⟩
  · rw [hmodels, hds]
  · rw [← hds, List.length_map]; exact hlen

/-- C15 at concrete inputs: `sum(1, 2, 3)` for `fn sum(values ...int)`, without
dynamic annotation; and `gather(1, 2)` for `fn gather[T](values ...T)`, with
dynamic annotation: the first argument binds `T` and writes the parameter's type
to `int`, under which the second argument fails annotation, and the one slice
model holds both values. -/
theorem push_variadic_plain_witness :
    (∃ ok st1 log, push_variadic sample_host 1 ⟨[lit "1", lit "2", lit "3"], false, none⟩
        ⟨sum_ins, []⟩ param_values_ins 0 = .ok ((ok, st1), log) ∧
      st1.arg_models = [] ++ [ExprModel.slice (some (TypeKind.prim "int"))
        (evaluated_models sample_host (some (TypeKind.prim "int"))
          [lit "1", lit "2", lit "3"])] ∧
      (evaluated_models sample_host (some (TypeKind.prim "int"))
          [lit "1", lit "2", lit "3"]).length = 3 ∧
      ∀ x ∈ log, x.key ≠ "more_args_with_variadiced") ∧
    (∃ ok st1 log, push_variadic sample_host 1 ⟨[lit "1", lit "2"], true, none⟩
        ⟨gather_ins, []⟩ gather_values_ins 0 = .ok ((ok, st1), log) ∧
      st1.arg_models = [] ++ [ExprModel.slice (some (TypeKind.prim "int"))
        ([data_lit 1, data_lit 2].map Data.Model)] ∧
      [data_lit 1, data_lit 2].length = 2 ∧
      ∀ x ∈ log, x.key ≠ "more_args_with_variadiced") ∧
    push_variadic sample_host 1 ⟨[lit "1", lit "2"], true, none⟩ ⟨gather_ins, []⟩
        gather_values_ins 0
      = .ok ((false, ⟨gather_ins.set_Generics [some (TypeKind.prim "int")],
          [ExprModel.slice (some (TypeKind.prim "int")) [ExprModel.other 1, ExprModel.other 2]]⟩),
        [⟨"dynamic_type_annotation_failed", []⟩]) :=
  ⟨(push_variadic_plain sample_host 1 ⟨[lit "1", lit "2", lit "3"], false, none⟩ ⟨sum_ins, []⟩
      param_values_ins 0 param_values rfl (sample_host_quiet _)).2 rfl
      (by
        intro arg harg
        simp only [List.drop_zero, List.mem_cons, List.mem_singleton, List.not_mem_nil,
          or_false] at harg
        rcases harg with h1 | h1 | h1 <;> subst h1 <;> exact ⟨_, rfl, rfl⟩),
    (push_variadic_plain sample_host 1 ⟨[lit "1", lit "2"], true, none⟩ ⟨gather_ins, []⟩
      gather_values_ins 0 gather_values rfl (sample_host_quiet _)).1
      [data_lit 1, data_lit 2] (ParamIns.mk (some gather_values) (some (TypeKind.prim "int")))
      (PlainArgs.cons gather_ins (gather_ins.set_Generics [some (TypeKind.prim "int")])
        gather_values_ins _ (lit "1") [lit "2"] (data_lit 1) [data_lit 2] rfl rfl
        (fun hc => absurd hc (by decide)) (fun _ => ⟨true, [], rfl⟩)
        (PlainArgs.cons (gather_ins.set_Generics [some (TypeKind.prim "int")])
          (gather_ins.set_Generics [some (TypeKind.prim "int")])
          (ParamIns.mk (some gather_values) (some (TypeKind.prim "int"))) _ (lit "2") []
          (data_lit 2) [] rfl rfl (fun hc => absurd hc (by decide)) (fun _ => ⟨false, [], rfl⟩)
          (PlainArgs.nil _ _))),
    rfl⟩

/-- C16 (evaluation at the failing input): for `fn sum(values ...int)` and the
arguments `xs..., 1`, a spread value whose model is no slice literal followed by
a plain argument, `push_variadic` dereferences the absent slice model and
panics; no `more_args_with_variadiced` diagnostic is pushed. -/
theorem push_variadic_spread_then_plain :
    push_variadic sample_host 1 ⟨[spread_xs, lit "1"], false, none⟩ ⟨sum_ins, []⟩
      param_values_ins 0 = .error Fault.nil_deref := rfl

/-! ### Struct literals -/

/-- The duplication lookup for the pair at position `j`: it reports exactly
when an earlier field-expression pair targets the same identifier. -/
theorem dup_lookup_eq (ident : String) (field : Token) (e : ExprData) (exprs : List ExprData)
    (idx j : Nat) (hle : idx ≤ j)
    (hj : exprs.get? (j - idx) = some (ExprData.field_expr_pair field e)) :
    dup_lookup ident j exprs idx
      = if (exprs.take (j - idx)).any (fun x => x.field_name == some ident)
        then [⟨"already_has_expr", [ident]⟩] else [] := by
  induction exprs generalizing idx with
  | nil => simp at hj
  | cons x rest ih =>
    by_cases hz : j - idx = 0
    · have hij : idx = j := by omega
      rw [hz] at hj
      simp only [List.get?_cons_zero, Option.some.injEq] at hj
      subst hj
      subst hij
      simp [dup_lookup]
    · obtain ⟨k, hk⟩ : ∃ k, j - idx = k + 1 := ⟨j - idx - 1, by omega⟩
      have hne : (idx == j) = false := by
        rw [beq_eq_false_iff_ne]; omega
      have hk2 : j - (idx + 1) = k := by omega
      rw [hk] at hj
      simp only [List.get?_cons_succ] at hj
      have hrec := ih (idx + 1) (by omega) (by rw [hk2]; exact hj)
      rw [hk2] at hrec
      rw [hk, List.take_succ_cons, List.any_cons]
      cases x with
      | field_expr_pair df de =>
        simp only [dup_lookup, hne, Bool.false_eq_true, if_false]
        by_cases hid : ident = df.Kind
        · subst hid; simp [ExprData.field_name]
        · have h1 : (ident == df.Kind) = false := by rw [beq_eq_false_iff_ne]; exact hid
          have h2 : ((ExprData.field_expr_pair df de).field_name == some ident) = false := by
            rw [beq_eq_false_iff_ne]
            intro hc
            exact hid (Option.some.inj hc).symm
          simp only [h1, h2, Bool.false_eq_true, if_false, Bool.false_or, hrec]
      | ident_expr _ _ => simpa [dup_lookup, ExprData.field_name] using hrec
      | lit_expr _ _ => simpa [dup_lookup, ExprData.field_name] using hrec
      | variadic_expr _ _ => simpa [dup_lookup, ExprData.field_name] using hrec
      | key_val_pair _ _ _ => simpa [dup_lookup, ExprData.field_name] using hrec
      | expr _ _ => simpa [dup_lookup, ExprData.field_name] using hrec
      | other _ => simpa [dup_lookup, ExprData.field_name] using hrec

/-- Filtering a log for a key none of its diagnostics has. -/
theorem filter_key_none (l : List Diag) (key : String) (hl : ∀ x ∈ l, x.key ≠ key) :
    l.filter (fun x => x.key == key) = [] := by
  rw [List.filter_eq_nil_iff]
  intro x hx
  simpa using hl x hx

/-- C20: in `check_pair`, an argument whose identifier is not a field of the
struct produces one `ident_not_exist` diagnostic and nothing else, and is not
bound (the arguments stay as they were); an argument naming an existing field
produces exactly one `already_has_expr` diagnostic when an earlier named
argument has the same identifier and none when it is the first occurrence (the
host logging no `already_has_expr`). -/
theorem check_pair_diagnostics (h : Host) (hint : Option TypeKind) (s : StructIns)
    (args : List StructArgExprModel) (j : Nat) (field : Token) (e : ExprData)
    (exprs : List ExprData) :
    (s.Find_field field.Kind = none →
      check_pair h hint s args j field e exprs
        = (args, [⟨"ident_not_exist", [field.Kind]⟩])) ∧
    (∀ f, s.Find_field field.Kind = some f →
      exprs.get? j = some (ExprData.field_expr_pair field e) →
      h.quiet "already_has_expr" →
      (check_pair h hint s args j field e exprs).2.filter
          (fun x => x.key == "already_has_expr")
        = if named_before field.Kind j exprs then [⟨"already_has_expr", [field.Kind]⟩]
          else []) := by
  refine ⟨?_, ?_⟩
  · intro hnone
    simp only [check_pair, hnone]
  · intro f hf hj hq
    have hdup := dup_lookup_eq field.Kind field e exprs 0 j (Nat.zero_le _) (by simpa using hj)
    simp only [Nat.sub_zero] at hdup
    have hev : ((h.eval_expr_kind hint e).2).filter (fun x => x.key == "already_has_expr") = [] :=
      filter_key_none _ _ (hq.1 _ _)
    simp only [check_pair, hf, named_before]
    cases hd : (h.eval_expr_kind hint e).1 with
    | none =>
      simp only [List.filter_append, hev, List.append_nil, hdup]
      split <;> rfl
    | some d =>
      have hpm : ((push_match h args f d).2).filter (fun x => x.key == "already_has_expr")
          = [] := by
        apply filter_key_none
        intro x hx
        rcases List.mem_append.mp hx with h1 | h1
        · exact hq.2.1 _ _ _ x h1
        · exact hq.2.2 _ _ _ x h1
      simp only [List.filter_append, hev, hpm, List.append_nil, hdup]
      split <;> rfl

/-- C20 at a concrete input: in `{a: 1, a: 2}` the second argument repeats
`a`. -/
theorem check_pair_diagnostics_witness :
    (check_pair sample_host none struct_ab [] 1 (tok "a") (ExprData.lit_expr (tok "2") "2")
        [ExprData.field_expr_pair (tok "a") (ExprData.lit_expr (tok "1") "1"),
         ExprData.field_expr_pair (tok "a") (ExprData.lit_expr (tok "2") "2")]).2.filter
        (fun x => x.key == "already_has_expr")
      = if named_before "a" 1
          [ExprData.field_expr_pair (tok "a") (ExprData.lit_expr (tok "1") "1"),
           ExprData.field_expr_pair (tok "a") (ExprData.lit_expr (tok "2") "2")]
        then [⟨"already_has_expr", ["a"]⟩] else [] :=
  (check_pair_diagnostics sample_host none struct_ab [] 1 (tok "a")
    (ExprData.lit_expr (tok "2") "2")
    [ExprData.field_expr_pair (tok "a") (ExprData.lit_expr (tok "1") "1"),
     ExprData.field_expr_pair (tok "a") (ExprData.lit_expr (tok "2") "2")]).2
    field_a rfl rfl (sample_host_quiet _)


/-- The expressions after `ready_exprs`. -/
theorem ready_exprs_list (l : List ExprData) : (ready_exprs l).2.1 = l.map ExprData.readied := by
  induction l with
  | nil => rfl
  | cons x rest ih =>
    cases x with
    | key_val_pair key val colon =>
      cases key <;> simp [ready_exprs, ExprData.readied, ih]
    | _ => simp [ready_exprs, ExprData.readied, ih]

/-- The method `ready_exprs` logs only `invalid_syntax`. -/
theorem ready_exprs_log (l : List ExprData) :
    ∀ x ∈ (ready_exprs l).2.2, x = ⟨"invalid_syntax", []⟩ := by
  induction l with
  | nil => simp [ready_exprs]
  | cons x rest ih =>
    cases x with
    | key_val_pair key val colon =>
      cases key <;> simp [ready_exprs] <;> exact ih
    | _ => simpa [ready_exprs] using ih

/-- On positional arguments `ready_exprs` changes nothing. -/
theorem ready_exprs_positional (l : List ExprData) (hpos : ∀ e ∈ l, e.is_positional = true) :
    ready_exprs l = (true, l, []) := by
  induction l with
  | nil => rfl
  | cons x rest ih =>
    have hx := hpos x (List.mem_cons_self _ _)
    have hr := ih (fun e he => hpos e (List.mem_cons_of_mem _ he))
    cases x <;> simp [ExprData.is_positional] at hx
    simp [ready_exprs, hr]

/-- A successful `ready_exprs` logs nothing. -/
theorem ready_exprs_ok_log (l : List ExprData) (h : (ready_exprs l).1 = true) :
    (ready_exprs l).2.2 = [] := by
  induction l with
  | nil => rfl
  | cons x rest ih =>
    cases x with
    | key_val_pair key val colon =>
      cases key <;> simp [ready_exprs] at h ⊢
      exact ih h
    | _ => simp [ready_exprs] at h ⊢; exact ih h

/-- After `ready_exprs` exactly the named arguments are field-expression
pairs. -/
theorem readied_is_pair (e : ExprData) : e.readied.is_pair = e.is_named := by
  cases e with
  | key_val_pair key val colon =>
    cases key <;> simp [ExprData.is_named, ExprData.readied, ExprData.is_pair]
  | _ => simp [ExprData.is_named, ExprData.readied, ExprData.is_pair]

/-- A named argument is a field-expression pair after `ready_exprs`. -/
theorem readied_named (e : ExprData) (h : e.is_named = true) : e.readied.is_pair = true := by
  rw [readied_is_pair]; exact h

/-- A positional argument stays positional after `ready_exprs`. -/
theorem readied_positional (e : ExprData) (h : e.is_positional = true) :
    e.readied.is_positional = true := by
  cases e <;> simp_all [ExprData.is_positional, ExprData.readied]

/-- The method `push_match` logs only diagnostics of the host. -/
theorem push_match_log (h : Host) (key : String) (hq : h.quiet key)
    (args : List StructArgExprModel) (f : FieldIns) (d : Data) :
    ∀ x ∈ (push_match h args f d).2, x.key ≠ key := by
  intro x hx
  rcases List.mem_append.mp hx with h1 | h1
  · exact hq.2.1 _ _ _ x h1
  · exact hq.2.2 _ _ _ x h1

/-- The duplication lookup logs only `already_has_expr`. -/
theorem dup_lookup_log (ident : String) (j : Nat) (exprs : List ExprData) (idx : Nat) :
    ∀ x ∈ dup_lookup ident j exprs idx, x.key = "already_has_expr" := by
  induction exprs generalizing idx with
  | nil => simp [dup_lookup]
  | cons e rest ih =>
    cases e with
    | field_expr_pair df de =>
      simp only [dup_lookup]
      split
      · simp
      · split
        · simp
        · exact ih _
    | _ => simpa [dup_lookup] using ih _

/-- The method `check_pair` logs only diagnostics of the host,
`ident_not_exist` and `already_has_expr`. -/
theorem check_pair_log (h : Host) (key : String) (hq : h.quiet key)
    (hk1 : key ≠ "ident_not_exist") (hk2 : key ≠ "already_has_expr") (hint : Option TypeKind)
    (s : StructIns) (args : List StructArgExprModel) (j : Nat) (field : Token) (e : ExprData)
    (exprs : List ExprData) :
    ∀ x ∈ (check_pair h hint s args j field e exprs).2, x.key ≠ key := by
  intro x hx
  have hdup : ∀ y ∈ dup_lookup field.Kind j exprs 0, y.key ≠ key := by
    intro y hy hc
    rw [dup_lookup_log _ _ _ _ y hy] at hc
    exact hk2 hc.symm
  unfold check_pair at hx
  split at hx
  · simp only [List.mem_singleton] at hx
    subst hx
    exact fun hc => hk1 hc.symm
  · simp only at hx
    split at hx
    · rcases List.mem_append.mp hx with h1 | h1
      · exact hdup x h1
      · exact hq.1 _ _ x h1
    · rcases List.mem_append.mp hx with h1 | h1
      · rcases List.mem_append.mp h1 with h2 | h2
        · exact hdup x h2
        · exact hq.1 _ _ x h2
      · exact push_match_log h key hq _ _ _ x h1

/-- Membership in three appended lists. -/
theorem mem_append3 {α : Type} {x : α} {a b c : List α} :
    x ∈ a ++ b ++ c ↔ x ∈ a ∨ x ∈ b ∨ x ∈ c := by
  simp [List.mem_append, or_assoc]

/-- The main loop logs only diagnostics of the host and its own five kinds. -/
theorem check_loop_log (h : Host) (key : String) (hq : h.quiet key)
    (hk1 : key ≠ "ident_not_exist") (hk2 : key ≠ "already_has_expr")
    (hk3 : key ≠ "invalid_syntax") (hk4 : key ≠ "argument_must_target_to_field")
    (hk5 : key ≠ "argument_overflow") (hint : Option TypeKind) (s : StructIns)
    (exprs rest : List ExprData) (i : Nat) (paired : Bool) (args : List StructArgExprModel) :
    ∀ x ∈ (check_loop h hint s exprs rest i paired args).2.2, x.key ≠ key := by
  induction rest generalizing i paired args with
  | nil => simp [check_loop]
  | cons e rest ih =>
    cases e with
    | field_expr_pair field ex =>
      intro x hx
      simp only [check_loop] at hx
      rcases mem_append3.mp hx with h1 | h1 | h1
      · split at h1
        · simp only [List.mem_singleton] at h1
          subst h1
          exact fun hc => hk3 hc.symm
        · simp at h1
      · exact check_pair_log h key hq hk1 hk2 _ _ _ _ _ _ _ x h1
      · exact ih _ _ _ x h1
    | expr tk kind =>
      intro x hx
      have hl0 : ∀ y ∈ (if paired = true then
          [(⟨"argument_must_target_to_field", []⟩ : Diag)] else []), y.key ≠ key := by
        intro y hy
        split at hy
        · simp only [List.mem_singleton] at hy
          subst hy
          exact fun hc => hk4 hc.symm
        · simp at hy
      simp only [check_loop] at hx
      split at hx
      · rcases mem_append3.mp hx with h1 | h1 | h1
        · exact hl0 x h1
        · simp only [List.mem_singleton] at h1
          subst h1
          exact fun hc => hk5 hc.symm
        · exact ih _ _ _ x h1
      · split at hx
        · rcases mem_append3.mp hx with h1 | h1 | h1
          · exact hl0 x h1
          · exact hq.1 _ _ x h1
          · exact ih _ _ _ x h1
        · rcases List.mem_append.mp hx with h0 | h0
          · rcases mem_append3.mp h0 with h1 | h1 | h1
            · exact hl0 x h1
            · exact hq.1 _ _ x h1
            · exact push_match_log h key hq _ _ _ x h1
          · exact ih _ _ _ x h0
    | ident_expr _ _ => simpa [check_loop] using ih (i + 1) paired args
    | lit_expr _ _ => simpa [check_loop] using ih (i + 1) paired args
    | variadic_expr _ _ => simpa [check_loop] using ih (i + 1) paired args
    | key_val_pair _ _ _ => simpa [check_loop] using ih (i + 1) paired args
    | other _ => simpa [check_loop] using ih (i + 1) paired args

/-- The loop ends with `paired` set exactly when it was set before or it met a
field-expression pair. -/
theorem check_loop_paired (h : Host) (hint : Option TypeKind) (s : StructIns)
    (exprs rest : List ExprData) (i : Nat) (paired : Bool) (args : List StructArgExprModel) :
    (check_loop h hint s exprs rest i paired args).1 = (paired || rest.any ExprData.is_pair) := by
  induction rest generalizing i paired args with
  | nil => simp [check_loop]
  | cons e rest ih =>
    cases e with
    | field_expr_pair field ex =>
      simp only [check_loop, List.any_cons, ExprData.is_pair, ih]
      simp
    | expr tk kind =>
      simp only [check_loop, List.any_cons, ExprData.is_pair, Bool.false_or]
      split
      · exact ih _ _ _
      · split <;> exact ih _ _ _
    | ident_expr _ _ => simpa [check_loop, ExprData.is_pair] using ih (i + 1) paired args
    | lit_expr _ _ => simpa [check_loop, ExprData.is_pair] using ih (i + 1) paired args
    | variadic_expr _ _ => simpa [check_loop, ExprData.is_pair] using ih (i + 1) paired args
    | key_val_pair _ _ _ => simpa [check_loop, ExprData.is_pair] using ih (i + 1) paired args
    | other _ => simpa [check_loop, ExprData.is_pair] using ih (i + 1) paired args

/-- Once `paired` is set, every positional argument still to come is reported. -/
theorem check_loop_paired_positional (h : Host) (hint : Option TypeKind) (s : StructIns)
    (exprs rest : List ExprData) (i : Nat) (args : List StructArgExprModel)
    (hpos : ∃ e ∈ rest, e.is_positional = true) :
    (⟨"argument_must_target_to_field", []⟩ : Diag)
      ∈ (check_loop h hint s exprs rest i true args).2.2 := by
  induction rest generalizing i args with
  | nil => simp at hpos
  | cons e rest ih =>
    have htail : e.is_positional = false →
        ∃ e1 ∈ rest, e1.is_positional = true := by
      intro hne
      obtain ⟨e1, he1, hp1⟩ := hpos
      rcases List.mem_cons.mp he1 with h1 | h1
      · subst h1; rw [hne] at hp1; exact absurd hp1 (by decide)
      · exact ⟨e1, h1, hp1⟩
    cases e with
    | field_expr_pair field ex =>
      simp only [check_loop]
      exact List.mem_append_right _ (ih _ _ (htail rfl))
    | expr tk kind =>
      simp only [check_loop, if_true]
      split
      · simp
      · split <;> simp
    | ident_expr _ _ => simpa [check_loop] using ih (i + 1) args (htail rfl)
    | lit_expr _ _ => simpa [check_loop] using ih (i + 1) args (htail rfl)
    | variadic_expr _ _ => simpa [check_loop] using ih (i + 1) args (htail rfl)
    | key_val_pair _ _ _ => simpa [check_loop] using ih (i + 1) args (htail rfl)
    | other _ => simpa [check_loop] using ih (i + 1) args (htail rfl)

/-- A positional argument that comes after a field-expression pair is
reported, whatever `paired` was on entry. -/
theorem check_loop_pair_then_positional (h : Host) (hint : Option TypeKind) (s : StructIns)
    (exprs pre post : List ExprData) (a : ExprData) (ha : a.is_pair = true)
    (hpos : ∃ e ∈ post, e.is_positional = true) (i : Nat) (paired : Bool)
    (args : List StructArgExprModel) :
    (⟨"argument_must_target_to_field", []⟩ : Diag)
      ∈ (check_loop h hint s exprs (pre ++ a :: post) i paired args).2.2 := by
  induction pre generalizing i paired args with
  | nil =>
    cases a <;> simp [ExprData.is_pair] at ha
    simp only [List.nil_append, check_loop]
    exact List.mem_append_right _ (check_loop_paired_positional h hint s exprs post _ _ hpos)
  | cons e pre ih =>
    cases e with
    | field_expr_pair field ex =>
      simp only [List.cons_append, check_loop]
      exact List.mem_append_right _ (ih _ _ _)
    | expr tk kind =>
      simp only [List.cons_append, check_loop]
      split
      · exact List.mem_append_right _ (ih _ _ _)
      · split <;> exact List.mem_append_right _ (ih _ _ _)
    | ident_expr _ _ => simpa [check_loop] using ih (i + 1) paired args
    | lit_expr _ _ => simpa [check_loop] using ih (i + 1) paired args
    | variadic_expr _ _ => simpa [check_loop] using ih (i + 1) paired args
    | key_val_pair _ _ _ => simpa [check_loop] using ih (i + 1) paired args
    | other _ => simpa [check_loop] using ih (i + 1) paired args

/-- The first field-expression pair is reported as invalid syntax when it is not the first argument. -/
theorem check_loop_first_pair_late (h : Host) (hint : Option TypeKind) (s : StructIns)
    (exprs pre post : List ExprData) (a : ExprData) (ha : a.is_pair = true)
    (hpre : ∀ e ∈ pre, e.is_pair = false) (i : Nat) (hi : 0 < i + pre.length)
    (args : List StructArgExprModel) :
    (⟨"invalid_syntax", []⟩ : Diag)
      ∈ (check_loop h hint s exprs (pre ++ a :: post) i false args).2.2 := by
  induction pre generalizing i args with
  | nil =>
    have hi0 : 0 < i := by simpa using hi
    cases a <;> simp [ExprData.is_pair] at ha
    simp [check_loop, hi0]
  | cons e pre ih =>
    have he := hpre e (List.mem_cons_self _ _)
    have hrec := fun args1 => ih (fun e1 he1 => hpre e1 (List.mem_cons_of_mem _ he1)) (i + 1)
      (by omega) args1
    cases e with
    | field_expr_pair field ex => simp [ExprData.is_pair] at he
    | expr tk kind =>
      simp only [List.cons_append, check_loop]
      split
      · exact List.mem_append_right _ (hrec _)
      · split <;> exact List.mem_append_right _ (hrec _)
    | ident_expr _ _ => simpa [check_loop] using hrec args
    | lit_expr _ _ => simpa [check_loop] using hrec args
    | variadic_expr _ _ => simpa [check_loop] using hrec args
    | key_val_pair _ _ _ => simpa [check_loop] using hrec args
    | other _ => simpa [check_loop] using hrec args

/-- C17 (counterexample): for a struct with fields `a` and `b`, the literal
`{a: 1}` binds `a` and produces no diagnostic at all, so none naming `b`. -/
theorem check_named_counterexample :
    StructLitChecker.check sample_host none struct_ab [] [named "a" "1"]
      = .ok ([⟨field_a, ExprModel.other 1⟩], []) := rfl

/-- C17 (amended): a struct literal with at least one named argument makes the
Struct Literal Checker return without any `missing_expr_for` diagnostic,
whether or not every declared field has an argument (the host logging none). -/
theorem check_named_no_missing (h : Host) (hint : Option TypeKind) (s : StructIns)
    (args : List StructArgExprModel) (exprs : List ExprData)
    (hq : h.quiet "missing_expr_for") (hnamed : ∃ e ∈ exprs, e.is_named = true) :
    ∃ r log, StructLitChecker.check h hint s args exprs = .ok (r, log) ∧
      ∀ x ∈ log, x.key ≠ "missing_expr_for" := by
  have hlen : (exprs.length == 0) = false := by
    obtain ⟨e, he, _⟩ := hnamed
    cases exprs with
    | nil => simp at he
    | cons a t => simp
  have hready : ∀ x ∈ (ready_exprs exprs).2.2, x.key ≠ "missing_expr_for" := by
    intro x hx
    rw [ready_exprs_log exprs x hx]
    decide
  cases hr : (ready_exprs exprs).1 with
  | false =>
    refine ⟨args, (ready_exprs exprs).2.2, ?_, hready⟩
    simp [StructLitChecker.check, hlen, hr]
  | true =>
    have hp : (check_loop h hint s (ready_exprs exprs).2.1 (ready_exprs exprs).2.1 0 false
        args).1 = true := by
      rw [check_loop_paired, ready_exprs_list]
      obtain ⟨e, he, hn⟩ := hnamed
      simp only [Bool.false_or, List.any_map, List.any_eq_true]
      exact ⟨e, he, readied_named e hn⟩
    have hrun : StructLitChecker.check h hint s args exprs
        = .ok ((check_loop h hint s (ready_exprs exprs).2.1 (ready_exprs exprs).2.1 0 false
            args).2.1,
          (ready_exprs exprs).2.2 ++ (check_loop h hint s (ready_exprs exprs).2.1
            (ready_exprs exprs).2.1 0 false args).2.2) := by
      simp only [StructLitChecker.check, hlen, hr, hp, Bool.false_eq_true, if_false,
        Bool.not_true]
    refine ⟨_, _, hrun, ?_⟩
    · intro x hx
      rcases List.mem_append.mp hx with h1 | h1
      · exact hready x h1
      · exact check_loop_log h "missing_expr_for" hq (by decide) (by decide) (by decide)
          (by decide) (by decide) _ _ _ _ _ _ _ x h1

/-- C17 (amended) at a concrete input: the literal `{a: 1}` for fields `a`
and `b`. -/
theorem check_named_no_missing_witness :
    ∃ r log, StructLitChecker.check sample_host none struct_ab [] [named "a" "1"]
        = .ok (r, log) ∧ ∀ x ∈ log, x.key ≠ "missing_expr_for" :=
  check_named_no_missing sample_host none struct_ab [] [named "a" "1"] (sample_host_quiet _)
    ⟨named "a" "1", List.mem_cons_self _ _, rfl⟩

/-- C18 (counterexample): for the literal `{1, a: 2}`, a named argument after a
positional one, the only diagnostic is `invalid_syntax`; no
`argument_must_target_to_field` is produced. -/
theorem check_named_after_positional_counterexample :
    StructLitChecker.check sample_host none struct_ab [] [positional "1", named "a" "2"]
      = .ok ([⟨field_a, ExprModel.other 1⟩, ⟨field_a, ExprModel.other 2⟩],
          [⟨"invalid_syntax", []⟩]) := rfl

/-- C18 (amended): for a struct literal whose key-value arguments all have
identifier keys: if a positional argument comes after a named one, the Struct
Literal Checker produces an `argument_must_target_to_field` diagnostic; if the
first named argument comes after another argument, it produces an
`invalid_syntax` diagnostic. -/
theorem check_mixed_order (h : Host) (hint : Option TypeKind) (s : StructIns)
    (args : List StructArgExprModel) (pre post : List ExprData) (a : ExprData)
    (ha : a.is_named = true) (hready : (ready_exprs (pre ++ a :: post)).1 = true) :
    ∃ r log, StructLitChecker.check h hint s args (pre ++ a :: post) = .ok (r, log) ∧
      ((∃ e ∈ post, e.is_positional = true) →
        (⟨"argument_must_target_to_field", []⟩ : Diag) ∈ log) ∧
      (pre ≠ [] → (∀ e ∈ pre, e.is_named = false) →
        (⟨"invalid_syntax", []⟩ : Diag) ∈ log) := by
  have hlen : ((pre ++ a :: post).length == 0) = false := by simp
  have hlist : (ready_exprs (pre ++ a :: post)).2.1
      = pre.map ExprData.readied ++ a.readied :: post.map ExprData.readied := by
    rw [ready_exprs_list, List.map_append, List.map_cons]
  have hp : (check_loop h hint s (ready_exprs (pre ++ a :: post)).2.1
      (ready_exprs (pre ++ a :: post)).2.1 0 false args).1 = true := by
    rw [check_loop_paired, hlist]
    simp [readied_named a ha]
  have hrun : StructLitChecker.check h hint s args (pre ++ a :: post)
      = .ok ((check_loop h hint s (ready_exprs (pre ++ a :: post)).2.1
          (ready_exprs (pre ++ a :: post)).2.1 0 false args).2.1,
        (ready_exprs (pre ++ a :: post)).2.2 ++ (check_loop h hint s
          (ready_exprs (pre ++ a :: post)).2.1 (ready_exprs (pre ++ a :: post)).2.1 0 false
          args).2.2) := by
    simp only [StructLitChecker.check, hlen, hready, hp, Bool.false_eq_true, if_false,
      Bool.not_true]
  refine ⟨_, _, hrun, ?_, ?_⟩
  · intro hpos
    have hpos2 : ∃ e ∈ post.map ExprData.readied, e.is_positional = true := by
      obtain ⟨e, he, hp⟩ := hpos
      exact ⟨e.readied, List.mem_map_of_mem _ he, readied_positional e hp⟩
    have hmem := check_loop_pair_then_positional h hint s (ready_exprs (pre ++ a :: post)).2.1
      (pre.map ExprData.readied) (post.map ExprData.readied) a.readied (readied_named a ha)
      hpos2 0 false args
    rw [← hlist] at hmem
    exact List.mem_append_right _ hmem
  · intro hne hpre
    have hpre2 : ∀ e ∈ pre.map ExprData.readied, e.is_pair = false := by
      intro e he
      obtain ⟨e0, he0, heq⟩ := List.mem_map.mp he
      rw [← heq, readied_is_pair]
      exact hpre e0 he0
    have hpos : 0 < 0 + (pre.map ExprData.readied).length := by
      cases pre with
      | nil => exact absurd rfl hne
      | cons x t => simp
    have hmem := check_loop_first_pair_late h hint s (ready_exprs (pre ++ a :: post)).2.1
      (pre.map ExprData.readied) (post.map ExprData.readied) a.readied (readied_named a ha)
      hpre2 0 hpos args
    rw [← hlist] at hmem
    exact List.mem_append_right _ hmem

/-- C18 (amended) at a concrete input: the literal `{a: 2, 1}`. -/
theorem check_mixed_order_witness :
    ∃ r log, StructLitChecker.check sample_host none struct_ab []
        ([] ++ named "a" "2" :: [positional "1"]) = .ok (r, log) ∧
      ((∃ e ∈ [positional "1"], e.is_positional = true) →
        (⟨"argument_must_target_to_field", []⟩ : Diag) ∈ log) ∧
      (([] : List ExprData) ≠ [] → (∀ e ∈ ([] : List ExprData), e.is_named = false) →
        (⟨"invalid_syntax", []⟩ : Diag) ∈ log) :=
  check_mixed_order sample_host none struct_ab [] [] [positional "1"] (named "a" "2") rfl rfl

/-- C19 (counterexample): the empty literal for a struct with the fields `a`
and `b` produces no diagnostic. -/
theorem check_empty_literal_counterexample :
    StructLitChecker.check sample_host none struct_ab [] [] = .ok ([], []) := rfl

/-- Reading the identifier of a declared field. -/
theorem field_ident_at_eq (s : StructIns) (j : Nat)
    (hj : j < (s.Fields.map (fun f => f.Decl.Ident)).length) :
    field_ident_at s j = .ok ((s.Fields.map (fun f => f.Decl.Ident)).getD j "") := by
  have hj2 : j < s.Fields.length := by simpa using hj
  have hget : s.Fields.get? j = some (s.Fields.get ⟨j, hj2⟩) := List.get?_eq_get hj2
  have hg : (s.Fields)[j]? = some (s.Fields.get ⟨j, hj2⟩) := by
    rw [← List.get?_eq_getElem?]; exact hget
  simp [field_ident_at, hget, hg]

/-- C19 (amended): for a struct literal of `k ≥ 1` positional arguments and a
struct with `n > k` fields, the Struct Literal Checker returns with exactly one
`missing_expr_for` diagnostic, whose argument is the identifiers of fields
`k + 1` through `n`, in declared order, joined by ", " (the host logging no
`missing_expr_for`). -/
theorem check_positional_missing (h : Host) (hint : Option TypeKind) (s : StructIns)
    (args : List StructArgExprModel) (exprs : List ExprData)
    (hq : h.quiet "missing_expr_for") (hpos : ∀ e ∈ exprs, e.is_positional = true)
    (hk : 0 < exprs.length) (hn : exprs.length < s.Fields.length) :
    ∃ r log, StructLitChecker.check h hint s args exprs = .ok (r, log) ∧
      log.filter (fun x => x.key == "missing_expr_for")
        = [⟨"missing_expr_for",
            [", ".intercalate ((s.Fields.drop exprs.length).map (fun f => f.Decl.Ident))]⟩] := by
  have hlen : (exprs.length == 0) = false := by
    rw [beq_eq_false_iff_ne]; omega
  have hr := ready_exprs_positional exprs hpos
  have hp : (check_loop h hint s exprs exprs 0 false args).1 = false := by
    rw [check_loop_paired]
    simp only [Bool.false_or]
    rw [Bool.eq_false_iff]
    intro hc
    obtain ⟨e, he, hpe⟩ := List.any_eq_true.mp hc
    have := hpos e he
    cases e <;> simp [ExprData.is_pair, ExprData.is_positional] at hpe this
  have hdiff : ¬ ((s.Fields.length : Int) - (exprs.length : Int) ≤ 0) := by omega
  have htn : ((s.Fields.length : Int) - (exprs.length : Int)).toNat
      = s.Fields.length - exprs.length := by omega
  have hloop := idents_loop_eq (field_ident_at s) (s.Fields.map (fun f => f.Decl.Ident))
    (fun j hj => field_ident_at_eq s j hj) (s.Fields.length - exprs.length) (by simp) ""
  simp only [List.length_map] at hloop
  have hsub : s.Fields.length - (s.Fields.length - exprs.length) = exprs.length := by omega
  rw [hsub] at hloop
  have hne : (s.Fields.map (fun f => f.Decl.Ident)).drop exprs.length ≠ [] := by
    intro hc
    have := congrArg List.length hc
    simp at this
    omega
  have hrun : StructLitChecker.check h hint s args exprs
      = .ok ((check_loop h hint s exprs exprs 0 false args).2.1,
        (check_loop h hint s exprs exprs 0 false args).2.2 ++ [⟨"missing_expr_for",
          [((List.drop exprs.length (s.Fields.map (fun f => f.Decl.Ident))).foldl
            (fun a x => a ++ (", " ++ x)) "").drop 2]⟩]) := by
    simp only [StructLitChecker.check, hlen, hr, hp, hdiff, htn, hloop, Bool.false_eq_true,
      if_false, Bool.not_false, Bool.not_true, if_true, List.nil_append]
  refine ⟨_, _, hrun, ?_⟩
  · rw [List.filter_append, filter_key_none _ _ (check_loop_log h "missing_expr_for" hq
      (by decide) (by decide) (by decide) (by decide) (by decide) _ _ _ _ _ _ _),
      foldl_idents_joined _ hne, List.map_drop]
    simp

/-- C19 (amended) at a concrete input: the literal `{1}` for fields `a` and
`b` names `b`. -/
theorem check_positional_missing_witness :
    ∃ r log, StructLitChecker.check sample_host none struct_ab [] [positional "1"]
        = .ok (r, log) ∧
      log.filter (fun x => x.key == "missing_expr_for")
        = [⟨"missing_expr_for",
            [", ".intercalate ((struct_ab.Fields.drop 1).map (fun f => f.Decl.Ident))]⟩] :=
  check_positional_missing sample_host none struct_ab [] [positional "1"] (sample_host_quiet _)
    (by intro e he; simp only [List.mem_singleton] at he; subst he; rfl)
    (by decide) (by decide)

open RangeChecker

/-! ### Range checker -/

/-- What `strip_ref` leaves: the range declaration and the iteration model as
they were, the stripped type, and the model wrapped if a reference was
stripped. -/
theorem strip_ref_spec (rc : RangeChecker) :
    (strip_ref rc).rang = rc.rang ∧ (strip_ref rc).kind = rc.kind ∧
    (strip_ref rc).d.Kind = stripped rc.d.Kind ∧
    (strip_ref rc).d.Model
      = if rc.d.Kind.Ref.isSome then ExprModel.explicit_deref rc.d.Model else rc.d.Model := by
  unfold strip_ref stripped
  cases h : rc.d.Kind.Ref <;> simp

/-- What `set_size_key` leaves: the first variable materialised with the `int`
type, everything else as it was. -/
theorem set_size_key_spec (sh : ScopeHost) (rc : RangeChecker) :
    (set_size_key sh rc).rang = rc.rang ∧ (set_size_key sh rc).d = rc.d ∧
    (set_size_key sh rc).kind.Key_b = rc.kind.Key_b ∧
    (set_size_key sh rc).kind.Key_a = materialised sh rc.rang.Key_a rc.kind.Key_a prim_int := by
  unfold set_size_key materialised
  cases h : rc.rang.Key_a with
  | none => simp
  | some ka =>
    by_cases hi : sh.Is_ignore_ident ka.Ident = true
    · simp [hi]
    · simp [hi, set_Key_a, RangeChecker.build_var]

/-- On a slice, `check_slice` returns: first variable `int`, second variable the
element type, the data as it was. -/
theorem check_slice_spec (h : Host) (sh : ScopeHost) (rc : RangeChecker) (e : TypeKind)
    (hk : rc.d.Kind.Slc = some e) :
    ∃ rc1 l, check_slice h sh rc = .ok (rc1, l) ∧ rc1.d = rc.d ∧
      rc1.kind.Key_a = materialised sh rc.rang.Key_a rc.kind.Key_a prim_int ∧
      rc1.kind.Key_b = materialised sh rc.rang.Key_b rc.kind.Key_b e := by
  obtain ⟨h1, h2, h3, h4⟩ := set_size_key_spec sh rc
  unfold check_slice
  simp only [h1, h2, hk]
  unfold materialised at *
  cases hb : rc.rang.Key_b with
  | none => exact ⟨_, _, rfl, h2, h4, h3⟩
  | some kb =>
    by_cases hi : sh.Is_ignore_ident kb.Ident = true
    · simp only [hi, if_true]
      exact ⟨_, _, rfl, h2, h4, h3⟩
    · simp only [hi, Bool.false_eq_true, if_false]
      exact ⟨_, _, rfl, h2, h4, rfl⟩

/-- On an array, `check_array` returns: first variable `int`, second variable
the element type, the data as it was. -/
theorem check_array_spec (h : Host) (sh : ScopeHost) (rc : RangeChecker) (n : Int)
    (e : TypeKind) (hk : rc.d.Kind.Arr = some (n, e)) :
    ∃ rc1 l, check_array h sh rc = .ok (rc1, l) ∧ rc1.d = rc.d ∧
      rc1.kind.Key_a = materialised sh rc.rang.Key_a rc.kind.Key_a prim_int ∧
      rc1.kind.Key_b = materialised sh rc.rang.Key_b rc.kind.Key_b e := by
  obtain ⟨h1, h2, h3, h4⟩ := set_size_key_spec sh rc
  unfold check_array
  simp only [h1, h2, hk]
  unfold materialised at *
  cases hb : rc.rang.Key_b with
  | none => exact ⟨_, _, rfl, h2, h4, h3⟩
  | some kb =>
    by_cases hi : sh.Is_ignore_ident kb.Ident = true
    · simp only [hi, if_true]
      exact ⟨_, _, rfl, h2, h4, h3⟩
    · simp only [hi, Bool.false_eq_true, if_false]
      exact ⟨_, _, rfl, h2, h4, rfl⟩

/-- On a map, `check_map` returns: first variable the key type, second variable
the value type, the data as it was. -/
theorem check_map_spec (h : Host) (sh : ScopeHost) (rc : RangeChecker) (k v : TypeKind)
    (hk : rc.d.Kind.Map = some (k, v)) :
    ∃ rc1 l, RangeChecker.check_map h sh rc = .ok (rc1, l) ∧ rc1.d = rc.d ∧
      rc1.kind.Key_a = materialised sh rc.rang.Key_a rc.kind.Key_a k ∧
      rc1.kind.Key_b = materialised sh rc.rang.Key_b rc.kind.Key_b v := by
  have ha : ∃ rc1 l, check_map_key_a h sh rc = .ok (rc1, l) ∧ rc1.d = rc.d ∧
      rc1.rang = rc.rang ∧ rc1.kind.Key_b = rc.kind.Key_b ∧
      rc1.kind.Key_a = materialised sh rc.rang.Key_a rc.kind.Key_a k := by
    unfold check_map_key_a materialised
    cases hka : rc.rang.Key_a with
    | none => exact ⟨_, _, rfl, rfl, rfl, rfl, rfl⟩
    | some ka =>
      by_cases hi : sh.Is_ignore_ident ka.Ident = true
      · simp only [hi, if_true]
        exact ⟨_, _, rfl, rfl, rfl, rfl, rfl⟩
      · simp only [hi, Bool.false_eq_true, if_false, hk]
        exact ⟨_, _, rfl, rfl, rfl, rfl, rfl⟩
  obtain ⟨rc1, l1, hr1, hd1, hrang1, hb1, ha1⟩ := ha
  have hb : ∃ rc2 l, check_map_key_b h sh rc1 = .ok (rc2, l) ∧ rc2.d = rc1.d ∧
      rc2.kind.Key_a = rc1.kind.Key_a ∧
      rc2.kind.Key_b = materialised sh rc1.rang.Key_b rc1.kind.Key_b v := by
    have hk1 : rc1.d.Kind.Map = some (k, v) := by rw [hd1]; exact hk
    unfold check_map_key_b materialised
    cases hkb : rc1.rang.Key_b with
    | none => exact ⟨_, _, rfl, rfl, rfl, rfl⟩
    | some kb =>
      by_cases hi : sh.Is_ignore_ident kb.Ident = true
      · simp only [hi, if_true]
        exact ⟨_, _, rfl, rfl, rfl, rfl⟩
      · simp only [hi, Bool.false_eq_true, if_false, hk1]
        exact ⟨_, _, rfl, rfl, rfl, rfl⟩
  obtain ⟨rc2, l2, hr2, hd2, ha2, hb2⟩ := hb
  refine ⟨rc2, l1 ++ l2, ?_, hd2.trans hd1, ha2.trans ha1, ?_⟩
  · simp only [RangeChecker.check_map, hr1, hr2]
  · rw [hb2, hrang1, hb1]

/-- What `check_str` leaves: first variable `int`, second variable `u8`, the
data as it was. -/
theorem check_str_spec (sh : ScopeHost) (rc : RangeChecker) :
    (check_str sh rc).d = rc.d ∧
    (check_str sh rc).kind.Key_a = materialised sh rc.rang.Key_a rc.kind.Key_a prim_int ∧
    (check_str sh rc).kind.Key_b = materialised sh rc.rang.Key_b rc.kind.Key_b prim_u8 := by
  obtain ⟨h1, h2, h3, h4⟩ := set_size_key_spec sh rc
  unfold check_str
  simp only [h1]
  unfold materialised at *
  cases hb : rc.rang.Key_b with
  | none => exact ⟨h2, h4, h3⟩
  | some kb =>
    by_cases hi : sh.Is_ignore_ident kb.Ident = true
    · simp only [hi, if_true]
      exact ⟨h2, h4, h3⟩
    · simp only [hi, Bool.false_eq_true, if_false]
      exact ⟨h2, h4, rfl⟩

/-- The dispatch of `check` on a checker whose data has the given type: the
result is whether the type can be ranged over, a type that cannot gets exactly
the one diagnostic, the data is left as it was, and for a type that can the two
variables are materialised with the types of the specification. -/
theorem check_dispatch (h : Host) (sh : ScopeHost) (rc : RangeChecker) :
    ∃ rc1 l, RangeChecker.check h sh rc = .ok ((enumerable (stripped rc.d.Kind), rc1), l) ∧
      (enumerable (stripped rc.d.Kind) = false →
        l = [⟨"iter_range_require_enumerable_expr", []⟩]) ∧
      rc1.d = (strip_ref rc).d ∧
      (∀ ka kb, range_key_kinds (stripped rc.d.Kind) = some (ka, kb) →
        rc1.kind.Key_a = materialised sh rc.rang.Key_a rc.kind.Key_a ka ∧
        rc1.kind.Key_b = materialised sh rc.rang.Key_b rc.kind.Key_b kb) := by
  obtain ⟨hrang, hkind, hk, _⟩ := strip_ref_spec rc
  unfold RangeChecker.check
  simp only []
  generalize strip_ref rc = rc0 at *
  rw [← hk, ← hrang, ← hkind]
  cases hK : rc0.d.Kind with
  | slc e =>
    obtain ⟨rc1, l, hr, hd, ha, hb⟩ := check_slice_spec h sh rc0 e (by rw [hK]; rfl)
    refine ⟨rc1, l, ?_, ?_, hd, ?_⟩
    · simp [hK, hr, TypeKind.Slc, enumerable]
    · intro hc; simp [enumerable, TypeKind.Slc] at hc
    · intro ka kb hkk
      simp only [range_key_kinds, Option.some.injEq, Prod.mk.injEq] at hkk
      rw [← hkk.1, ← hkk.2]; exact ⟨ha, hb⟩
  | arr n e =>
    obtain ⟨rc1, l, hr, hd, ha, hb⟩ := check_array_spec h sh rc0 n e (by rw [hK]; rfl)
    refine ⟨rc1, l, ?_, ?_, hd, ?_⟩
    · simp [hK, hr, TypeKind.Slc, TypeKind.Arr, enumerable]
    · intro hc; simp [enumerable, TypeKind.Arr] at hc
    · intro ka kb hkk
      simp only [range_key_kinds, Option.some.injEq, Prod.mk.injEq] at hkk
      rw [← hkk.1, ← hkk.2]; exact ⟨ha, hb⟩
  | map k v =>
    obtain ⟨rc1, l, hr, hd, ha, hb⟩ := check_map_spec h sh rc0 k v (by rw [hK]; rfl)
    refine ⟨rc1, l, ?_, ?_, hd, ?_⟩
    · simp [hK, hr, TypeKind.Slc, TypeKind.Arr, TypeKind.Map, enumerable]
    · intro hc; simp [enumerable, TypeKind.Map] at hc
    · intro ka kb hkk
      simp only [range_key_kinds, Option.some.injEq, Prod.mk.injEq] at hkk
      rw [← hkk.1, ← hkk.2]; exact ⟨ha, hb⟩
  | prim kind =>
    obtain ⟨hd, ha, hb⟩ := check_str_spec sh rc0
    by_cases hs : Prim_Is_str kind = true
    · refine ⟨check_str sh rc0, [], ?_, ?_, hd, ?_⟩
      · simp [hK, TypeKind.Slc, TypeKind.Arr, TypeKind.Map, TypeKind.Prim, enumerable, hs]
      · intro hc; simp [enumerable, TypeKind.Prim, hs, TypeKind.Slc, TypeKind.Arr,
          TypeKind.Map] at hc
      · intro ka kb hkk
        simp only [range_key_kinds, hs, if_true, Option.some.injEq, Prod.mk.injEq] at hkk
        rw [← hkk.1, ← hkk.2]; exact ⟨ha, hb⟩
    · refine ⟨rc0, [⟨"iter_range_require_enumerable_expr", []⟩], ?_, fun _ => rfl, rfl, ?_⟩
      · simp [hK, TypeKind.Slc, TypeKind.Arr, TypeKind.Map, TypeKind.Prim, enumerable, hs]
      · intro ka kb hkk
        simp [range_key_kinds, hs] at hkk
  | nil | ref _ | ptr _ | strct _ | trt _ | enm _ | fnc _ | tup _ =>
    refine ⟨rc0, [⟨"iter_range_require_enumerable_expr", []⟩], ?_, fun _ => rfl, rfl, ?_⟩
    · simp [hK, TypeKind.Slc, TypeKind.Arr, TypeKind.Map, TypeKind.Prim, enumerable]
    · intro ka kb hkk
      simp [range_key_kinds] at hkk

/-- A type with range variable types can be ranged over. -/
theorem range_key_kinds_enumerable (k ka kb : TypeKind)
    (h : range_key_kinds k = some (ka, kb)) : enumerable k = true := by
  cases k <;> simp_all [range_key_kinds, enumerable, TypeKind.Slc, TypeKind.Arr, TypeKind.Map,
    TypeKind.Prim]

/-- The range check on a type with range variable types. -/
theorem ranges_with_of_kinds (h : Host) (sh : ScopeHost) (rc : RangeChecker) (ka kb : TypeKind)
    (hk : range_key_kinds (stripped rc.d.Kind) = some (ka, kb)) : ranges_with h sh rc ka kb := by
  obtain ⟨rc1, l, hr, _, _, hkeys⟩ := check_dispatch h sh rc
  rw [range_key_kinds_enumerable _ _ _ hk] at hr
  exact ⟨rc1, l, hr, hkeys ka kb hk⟩

/-- C21: after one reference layer is stripped if present, the range check on a
slice or an array of element type `e` gives the first variable the `int` type
and the second `e`; on a map from `k` to `v` it gives them `k` and `v`; on a
string it gives them `int` and `u8`; and a variable that is absent or bound to
the ignore identifier is not built: its slot is left as it was. -/
theorem check_range_variables (h : Host) (sh : ScopeHost) (rc : RangeChecker) :
    (∀ e, stripped rc.d.Kind = TypeKind.slc e → ranges_with h sh rc prim_int e) ∧
    (∀ n e, stripped rc.d.Kind = TypeKind.arr n e → ranges_with h sh rc prim_int e) ∧
    (∀ k v, stripped rc.d.Kind = TypeKind.map k v → ranges_with h sh rc k v) ∧
    (∀ s, stripped rc.d.Kind = TypeKind.prim s → Prim_Is_str s = true →
      ranges_with h sh rc prim_int prim_u8) ∧
    (∀ old k, materialised sh none old k = old) ∧
    (∀ decl old k, sh.Is_ignore_ident decl.Ident = true →
      materialised sh (some decl) old k = old) := by
  refine ⟨?_, ?_, ?_, ?_, fun _ _ => rfl, ?_⟩
  · intro e hk
    exact ranges_with_of_kinds h sh rc _ _ (by rw [hk]; rfl)
  · intro n e hk
    exact ranges_with_of_kinds h sh rc _ _ (by rw [hk]; rfl)
  · intro k v hk
    exact ranges_with_of_kinds h sh rc _ _ (by rw [hk]; rfl)
  · intro s hk hs
    exact ranges_with_of_kinds h sh rc _ _ (by rw [hk]; simp [range_key_kinds, hs])
  · intro decl old k hi
    simp [materialised, hi]

/-- C21 at a concrete input: `for i, _ in xs` over a reference to a slice of
strings builds `i` with the `int` type and builds no second variable. -/
theorem check_range_variables_witness :
    ranges_with sample_host sample_scope range_over_ref_slice prim_int (TypeKind.prim "str") ∧
    materialised sample_scope range_over_ref_slice.rang.Key_b none (TypeKind.prim "str") = none :=
  ⟨(check_range_variables sample_host sample_scope range_over_ref_slice).1 _ rfl,
   (check_range_variables sample_host sample_scope range_over_ref_slice).2.2.2.2.2
     (var_decl "_") none _ rfl⟩

/-- C22: `_RangeChecker.check` returns true exactly when the iterated type, after
one reference layer is stripped if present, is a slice, an array, a map or the
string primitive; for every other type it returns false and pushes exactly one
`iter_range_require_enumerable_expr` diagnostic and nothing else; and the data is
left with the stripped type and, whenever a reference layer was stripped, with
its model wrapped in an explicit-dereference node around the original model. -/
theorem check_range_enumerable (h : Host) (sh : ScopeHost) (rc : RangeChecker) :
    ∃ rc1 l, RangeChecker.check h sh rc = .ok ((enumerable (stripped rc.d.Kind), rc1), l) ∧
      (enumerable (stripped rc.d.Kind) = false →
        l = [⟨"iter_range_require_enumerable_expr", []⟩]) ∧
      rc1.d.Kind = stripped rc.d.Kind ∧
      rc1.d.Model
        = if rc.d.Kind.Ref.isSome then ExprModel.explicit_deref rc.d.Model else rc.d.Model := by
  obtain ⟨rc1, l, hr, hl, hd, _⟩ := check_dispatch h sh rc
  obtain ⟨_, _, hk, hm⟩ := strip_ref_spec rc
  exact ⟨rc1, l, hr, hl, by rw [hd, hk], by rw [hd, hm]⟩

/-- C22 at a concrete input: ranging over an `int` value returns false with the
one diagnostic. -/
theorem check_range_enumerable_witness :
    ∃ rc1, RangeChecker.check sample_host sample_scope range_over_int
      = .ok ((false, rc1), [⟨"iter_range_require_enumerable_expr", []⟩]) := by
  obtain ⟨rc1, l, hr, hl, _⟩ := check_range_enumerable sample_host sample_scope range_over_int
  have hl1 := hl rfl
  subst hl1
  exact ⟨rc1, hr⟩

open RetTypeChecker

/-! ### Return type checker -/

/-- Preparation leaves the function as it is and sets the expected types. -/
theorem prepared_spec (sh : ScopeHost) (rtc : RetTypeChecker) (d : Option Data) :
    (rtc.prepared sh d).f = rtc.f ∧ (rtc.prepared sh d).types = get_fn_result_types rtc.f := by
  unfold RetTypeChecker.prepared prepare_exprs prepare_types
  cases d with
  | none => exact ⟨rfl, rfl⟩
  | some x => by_cases hx : x.Kind.Tup.isNone = true <;> simp [hx]

/-- The loop of `ret_vars` returns when its indices stay within the expected
types and the variables of the root scope. -/
theorem ret_vars_loop_returns (sh : ScopeHost) (types : List TypeKind) (idents : List String)
    (i j : Nat) (hi : i + idents.length ≤ types.length)
    (hj : j + idents.length ≤ sh.root_vars.length) :
    ∃ r, ret_vars_loop sh types idents i j = .ok r := by
  induction idents generalizing i j with
  | nil => exact ⟨_, rfl⟩
  | cons ident rest ih =>
    simp only [List.length_cons] at hi hj
    simp only [ret_vars_loop]
    by_cases hg : sh.Is_ignore_ident ident = true
    · have hlt : i < types.length := by omega
      obtain ⟨r, hr⟩ := ih (i + 1) j (by omega) (by omega)
      simp only [hg, Bool.not_true, Bool.false_eq_true, if_false, List.get?_eq_getElem?,
        List.getElem?_eq_getElem hlt, hr]
      exact ⟨_, rfl⟩
    · have hlt : j < sh.root_vars.length := by omega
      obtain ⟨r, hr⟩ := ih (i + 1) (j + 1) (by omega) (by omega)
      simp only [hg, Bool.not_false, if_true, List.get?_eq_getElem?,
        List.getElem?_eq_getElem hlt, hr]
      exact ⟨_, rfl⟩

/-- The method `ret_vars` returns on a prepared checker of a ready function,
and changes nothing but the variables. -/
theorem ret_vars_returns (sh : ScopeHost) (rtc : RetTypeChecker)
    (ht : rtc.types = get_fn_result_types rtc.f) (hready : ret_vars_ready sh rtc.f) :
    ∃ vs, ret_vars sh rtc = .ok ⟨rtc.f, rtc.types, rtc.exprs, vs⟩ := by
  unfold ret_vars
  by_cases hv : rtc.f.Decl.Is_void = true
  · simp only [hv, if_true]
    exact ⟨rtc.vars, rfl⟩
  · simp only [hv, Bool.false_eq_true, if_false]
    cases hr : rtc.f.Decl.Result with
    | none => simp [Fn.Is_void, hr] at hv
    | some r =>
      obtain ⟨h1, h2⟩ := hready r hr
      obtain ⟨⟨vs, j⟩, hl⟩ := ret_vars_loop_returns sh rtc.types r.Idents 0 0
        (by rw [ht]; omega) (by omega)
      simp only [hl]
      exact ⟨_, rfl⟩

/-- A function without named results is ready: `ret_vars` has nothing to
index. -/
theorem ret_vars_ready_of_no_var (sh : ScopeHost) (f : FnIns) (h : f.Decl.Any_var = false) :
    ret_vars_ready sh f := by
  intro r hr
  simp only [Fn.Any_var, hr, decide_eq_false_iff_not, not_lt, Nat.le_zero] at h
  rw [h]
  exact ⟨Nat.zero_le _, Nat.zero_le _⟩

/-- A run of `ret_vars` that returns has changed nothing but the variables. -/
theorem ret_vars_keeps (sh : ScopeHost) (rtc r : RetTypeChecker)
    (h : ret_vars sh rtc = .ok r) : r.f = rtc.f ∧ r.types = rtc.types ∧ r.exprs = rtc.exprs := by
  unfold ret_vars at h
  split at h
  · simp only [Except.ok.injEq] at h
    subst h; exact ⟨rfl, rfl, rfl⟩
  · split at h
    · simp at h
    · split at h
      · simp at h
      · simp only [Except.ok.injEq] at h
        subst h; exact ⟨rfl, rfl, rfl⟩

/-- The method `check` once `ret_vars` has returned the checker `r`: the three
rules in order, on the prepared values and the expected types. -/
theorem ret_check_of_vars (env : Env) (compat : TypeKind → TypeKind → Bool → Run Bool)
    (sh : ScopeHost) (rtc : RetTypeChecker) (d : Option Data) (r : RetTypeChecker)
    (hv : ret_vars sh (rtc.prepared sh d) = .ok r) :
    RetTypeChecker.check env compat sh rtc d =
      if r.exprs.length == 0 && !r.f.Decl.Is_void then
        if !r.f.Decl.Any_var then .ok ((false, r), [⟨"require_ret_expr", []⟩])
        else .ok ((true, r), [])
      else if decide (r.exprs.length > 0) && r.f.Decl.Is_void then
        .ok ((false, r), [⟨"void_function_ret_expr", []⟩])
      else
        match check_exprs_loop env compat sh r.exprs r.types with
        | .error e => .error e
        | .ok l =>
          .ok ((true, r),
            (if r.exprs.length > r.types.length then [(⟨"overflow_ret", []⟩ : Diag)]
             else if r.exprs.length < r.types.length then [⟨"missing_multi_ret", []⟩]
             else []) ++ l) := by
  unfold RetTypeChecker.prepared at hv
  simp only [RetTypeChecker.check, hv, check_exprs]

/-- On a ready function `ret_vars` returns on the prepared checker, with the
function, the expected types and the prepared values in place. -/
theorem ret_vars_prepared (sh : ScopeHost) (rtc : RetTypeChecker) (d : Option Data)
    (hready : ret_vars_ready sh rtc.f) :
    ∃ r, ret_vars sh (rtc.prepared sh d) = .ok r ∧ r.f = rtc.f ∧
      r.types = get_fn_result_types rtc.f ∧ r.exprs = (rtc.prepared sh d).exprs := by
  obtain ⟨hf, ht⟩ := prepared_spec sh rtc d
  obtain ⟨vs, hv⟩ := ret_vars_returns sh (rtc.prepared sh d) (by rw [ht, hf])
    (by rw [hf]; exact hready)
  exact ⟨_, hv, hf, ht, rfl⟩

/-- C23: `_RetTypeChecker.check` returns false in exactly two cases, each with
exactly one diagnostic: no value returned from a non-void function without named
result variables (`require_ret_expr`), and at least one value returned from a
void function (`void_function_ret_expr`); and no value returned from a non-void
function with named result variables (each with its type and its variable in the
root scope) returns true with no diagnostic. -/
theorem ret_check_false_cases (env : Env) (compat : TypeKind → TypeKind → Bool → Run Bool)
    (sh : ScopeHost) (rtc : RetTypeChecker) (d : Option Data) :
    ((rtc.prepared sh d).exprs.length = 0 → rtc.f.Decl.Is_void = false →
      rtc.f.Decl.Any_var = false →
      ∃ r, RetTypeChecker.check env compat sh rtc d
        = .ok ((false, r), [⟨"require_ret_expr", []⟩])) ∧
    (0 < (rtc.prepared sh d).exprs.length → rtc.f.Decl.Is_void = true →
      ∃ r, RetTypeChecker.check env compat sh rtc d
        = .ok ((false, r), [⟨"void_function_ret_expr", []⟩])) ∧
    ((rtc.prepared sh d).exprs.length = 0 → rtc.f.Decl.Is_void = false →
      rtc.f.Decl.Any_var = true → ret_vars_ready sh rtc.f →
      ∃ r, RetTypeChecker.check env compat sh rtc d = .ok ((true, r), [])) ∧
    (∀ r l, RetTypeChecker.check env compat sh rtc d = .ok ((false, r), l) →
      ((rtc.prepared sh d).exprs.length = 0 ∧ rtc.f.Decl.Is_void = false ∧
        rtc.f.Decl.Any_var = false) ∨
      (0 < (rtc.prepared sh d).exprs.length ∧ rtc.f.Decl.Is_void = true)) := by
  refine ⟨?_, ?_, ?_, ?_⟩
  · intro hn hvoid hvar
    obtain ⟨r, hv, hf, _, he⟩ :=
      ret_vars_prepared sh rtc d (ret_vars_ready_of_no_var sh rtc.f hvar)
    refine ⟨r, ?_⟩
    rw [ret_check_of_vars env compat sh rtc d r hv, he, hf, hn, hvoid, hvar]
    rfl
  · intro hn hvoid
    have hready : ret_vars_ready sh rtc.f := by
      intro r hr
      simp [Fn.Is_void, hr] at hvoid
    obtain ⟨r, hv, hf, _, he⟩ := ret_vars_prepared sh rtc d hready
    refine ⟨r, ?_⟩
    rw [ret_check_of_vars env compat sh rtc d r hv, he, hf, hvoid]
    simp [hn, Nat.ne_of_gt hn]
  · intro hn hvoid hvar hready
    obtain ⟨r, hv, hf, _, he⟩ := ret_vars_prepared sh rtc d hready
    refine ⟨r, ?_⟩
    rw [ret_check_of_vars env compat sh rtc d r hv, he, hf, hn, hvoid, hvar]
    rfl
  · intro r l hrun
    cases hv : ret_vars sh (rtc.prepared sh d) with
    | error e =>
      unfold RetTypeChecker.prepared at hv
      simp [RetTypeChecker.check, hv] at hrun
    | ok r0 =>
      obtain ⟨hf, _, he⟩ := ret_vars_keeps sh _ r0 hv
      rw [(prepared_spec sh rtc d).1] at hf
      rw [ret_check_of_vars env compat sh rtc d r0 hv, he, hf] at hrun
      by_cases hn : (rtc.prepared sh d).exprs.length = 0
      · cases hvoid : rtc.f.Decl.Is_void with
        | false =>
          cases hvar : rtc.f.Decl.Any_var with
          | false => exact Or.inl ⟨hn, rfl, rfl⟩
          | true => simp [hn, hvoid, hvar] at hrun
        | true =>
          simp only [hn, hvoid, Nat.lt_irrefl, gt_iff_lt, decide_False, Bool.false_and,
            Bool.not_true, Bool.and_false, Bool.false_eq_true, if_false] at hrun
          split at hrun <;> simp at hrun
      · cases hvoid : rtc.f.Decl.Is_void with
        | true => exact Or.inr ⟨Nat.pos_of_ne_zero hn, rfl⟩
        | false =>
          simp only [hvoid, Bool.and_false, Bool.false_eq_true, if_false, beq_iff_eq, hn,
            Bool.not_false, Bool.and_true, decide_False] at hrun
          split at hrun <;> simp at hrun

/-- C23 at a concrete input: `fn named() (a: int, b: int)` returning no value. -/
theorem ret_check_false_cases_witness :
    ∃ r, RetTypeChecker.check sample_env (check_type_compatibility sample_env 1) sample_scope
      (ret_checker named_ins) none = .ok ((true, r), []) :=
  (ret_check_false_cases sample_env (check_type_compatibility sample_env 1) sample_scope
    (ret_checker named_ins) none).2.2.1 rfl rfl rfl
    (by
      intro r hr
      obtain rfl : RetType.mk _ ["a", "b"] = r := Option.some.inj hr
      exact ⟨Nat.le_refl 2, Nat.le_refl 2⟩)

/-! ### Diagnostics of the compatibility checker -/

/-- The empty log holds only trait diagnostics. -/
theorem trait_only_nil : TraitOnly [] := by intro x hx; simp at hx

/-- Two logs of trait diagnostics, appended. -/
theorem trait_only_append {a b : List Diag} (ha : TraitOnly a) (hb : TraitOnly b) :
    TraitOnly (a ++ b) := by
  intro x hx
  rcases List.mem_append.mp hx with h | h
  · exact ha x h
  · exact hb x h

/-- A result with the empty log. -/
theorem trait_only_of_ok_nil {b c : Bool} {l : List Diag}
    (h : (Except.ok (c, []) : Run Bool) = .ok (b, l)) : TraitOnly l := by
  simp only [Except.ok.injEq, Prod.mk.injEq] at h
  rw [← h.2]; exact trait_only_nil

/-- The struct case of `check_trait` logs only the trait diagnostic. -/
theorem check_trait_struct_log (trt : Trait) (ref : Bool) (s : StructIns) (b : Bool)
    (l : List Diag) (h : check_trait_struct trt ref s = .ok (b, l)) : TraitOnly l := by
  unfold check_trait_struct at h
  split at h
  · exact trait_only_of_ok_nil h
  · split at h
    · simp at h
    · split at h
      · simp only [Except.ok.injEq, Prod.mk.injEq] at h
        rw [← h.2]; intro x hx; simpa using hx
      · exact trait_only_of_ok_nil h

/-- The method `check_trait` logs only the trait diagnostic. -/
theorem check_trait_log (dest src : TypeKind) (b : Bool) (l : List Diag)
    (h : check_trait dest src = .ok (b, l)) : TraitOnly l := by
  unfold check_trait at h
  split at h
  · exact trait_only_of_ok_nil h
  · split at h
    · simp at h
    · split at h
      · split at h
        · exact trait_only_of_ok_nil h
        · exact check_trait_struct_log _ _ _ _ _ h
      · split at h
        · exact check_trait_struct_log _ _ _ _ _ h
        · split at h
          · exact trait_only_of_ok_nil h
          · exact trait_only_of_ok_nil h

/-- The method `check_ref` logs what its recursive entry logs. -/
theorem check_ref_log (env : Env) (chk : Checker) (hchk : LogsTraitOnly chk) (deref : Bool)
    (dest src : TypeKind) (b : Bool) (l : List Diag)
    (h : check_ref env chk deref dest src = .ok (b, l)) : TraitOnly l := by
  unfold check_ref at h
  split at h
  · exact trait_only_of_ok_nil h
  · split at h
    · exact trait_only_of_ok_nil h
    · split at h
      · split at h
        · simp at h
        · exact hchk _ _ _ _ _ h
      · exact hchk _ _ _ _ _ h

/-- The method `check_ptr` logs what its recursive entry logs. -/
theorem check_ptr_log (chk : Checker) (hchk : LogsTraitOnly chk)
    (dest src : TypeKind) (b : Bool) (l : List Diag)
    (h : check_ptr chk dest src = .ok (b, l)) : TraitOnly l := by
  unfold check_ptr at h
  split at h
  · exact trait_only_of_ok_nil h
  · split at h
    · exact trait_only_of_ok_nil h
    · split at h
      · simp at h
      · split at h
        · exact trait_only_of_ok_nil h
        · exact hchk _ _ _ _ _ h

/-- The method `check_slc` logs what its recursive entry logs. -/
theorem check_slc_log (chk : Checker) (hchk : LogsTraitOnly chk)
    (dest src : TypeKind) (b : Bool) (l : List Diag)
    (h : check_slc chk dest src = .ok (b, l)) : TraitOnly l := by
  unfold check_slc at h
  split at h
  · exact trait_only_of_ok_nil h
  · split at h
    · exact trait_only_of_ok_nil h
    · split at h
      · simp at h
      · exact hchk _ _ _ _ _ h

/-- The method `check_arr` logs what its recursive entry logs. -/
theorem check_arr_log (chk : Checker) (hchk : LogsTraitOnly chk)
    (dest src : TypeKind) (b : Bool) (l : List Diag)
    (h : check_arr chk dest src = .ok (b, l)) : TraitOnly l := by
  unfold check_arr at h
  split at h
  · exact trait_only_of_ok_nil h
  · split at h
    · simp at h
    · split at h
      · exact trait_only_of_ok_nil h
      · exact hchk _ _ _ _ _ h

/-- The method `check_map` logs what its recursive entry logs. -/
theorem check_map_log (chk : Checker) (hchk : LogsTraitOnly chk)
    (dest src : TypeKind) (b : Bool) (l : List Diag)
    (h : TypeCompatibilityChecker.check_map chk dest src = .ok (b, l)) : TraitOnly l := by
  unfold TypeCompatibilityChecker.check_map at h
  split at h
  · exact trait_only_of_ok_nil h
  · split at h
    · exact trait_only_of_ok_nil h
    · split at h
      · simp at h
      · split at h
        · simp at h
        · rename_i l1 h1
          simp only [Except.ok.injEq, Prod.mk.injEq] at h
          rw [← h.2]; exact hchk _ _ _ _ _ h1
        · rename_i l1 h1
          split at h
          · simp at h
          · rename_i b2 l2 h2
            simp only [Except.ok.injEq, Prod.mk.injEq] at h
            rw [← h.2]
            exact trait_only_append (hchk _ _ _ _ _ h1) (hchk _ _ _ _ _ h2)

/-- The loop of `check_struct` logs what its recursive entry logs. -/
theorem check_struct_loop_log (chk : Checker) (hchk : LogsTraitOnly chk)
    (sg : List TypeKind) (dg : List TypeKind) (i : Nat) (b : Bool) (l : List Diag)
    (h : check_struct_loop chk sg dg i = .ok (b, l)) : TraitOnly l := by
  induction dg generalizing i b l with
  | nil => exact trait_only_of_ok_nil h
  | cons g rest ih =>
    simp only [check_struct_loop] at h
    split at h
    · simp at h
    · split at h
      · simp at h
      · rename_i l1 h1
        simp only [Except.ok.injEq, Prod.mk.injEq] at h
        rw [← h.2]; exact hchk _ _ _ _ _ h1
      · rename_i l1 h1
        split at h
        · simp at h
        · rename_i b2 l2 h2
          simp only [Except.ok.injEq, Prod.mk.injEq] at h
          rw [← h.2]
          exact trait_only_append (hchk _ _ _ _ _ h1) (ih _ _ _ h2)

/-- The method `check_struct` logs what its recursive entry logs. -/
theorem check_struct_log (chk : Checker) (hchk : LogsTraitOnly chk)
    (dest src : TypeKind) (b : Bool) (l : List Diag)
    (h : check_struct chk dest src = .ok (b, l)) : TraitOnly l := by
  unfold check_struct at h
  split at h
  · exact trait_only_of_ok_nil h
  · split at h
    · simp at h
    · split at h
      · exact trait_only_of_ok_nil h
      · split at h
        · exact trait_only_of_ok_nil h
        · exact check_struct_loop_log chk hchk _ _ _ _ _ h

/-- The loop of `check_fn` logs what its recursive entry logs. -/
theorem check_fn_loop_log (chk : Checker) (hchk : LogsTraitOnly chk)
    (sp dp : List (Option ParamIns)) (b : Bool) (l : List Diag)
    (h : check_fn_loop chk sp dp = .ok (b, l)) : TraitOnly l := by
  induction sp generalizing dp b l with
  | nil => exact trait_only_of_ok_nil h
  | cons s srest ih =>
    cases dp with
    | nil => simp [check_fn_loop] at h
    | cons d drest =>
      simp only [check_fn_loop] at h
      split at h
      · exact trait_only_of_ok_nil h
      · split at h
        · simp at h
        · split at h
          · simp at h
          · split at h
            · simp at h
            · rename_i l1 h1
              simp only [Except.ok.injEq, Prod.mk.injEq] at h
              rw [← h.2]; exact hchk _ _ _ _ _ h1
            · rename_i l1 h1
              split at h
              · simp at h
              · rename_i b2 l2 h2
                simp only [Except.ok.injEq, Prod.mk.injEq] at h
                rw [← h.2]
                exact trait_only_append (hchk _ _ _ _ _ h1) (ih _ _ _ h2)

/-- The method `check_fn` logs what its recursive entry logs. -/
theorem check_fn_log (chk : Checker) (hchk : LogsTraitOnly chk)
    (dest src : TypeKind) (b : Bool) (l : List Diag)
    (h : check_fn chk dest src = .ok (b, l)) : TraitOnly l := by
  unfold check_fn at h
  split at h
  · exact trait_only_of_ok_nil h
  · split at h
    · exact trait_only_of_ok_nil h
    · split at h
      · simp at h
      · split at h
        · exact trait_only_of_ok_nil h
        · split at h
          · exact trait_only_of_ok_nil h
          · split at h
            · simp at h
            · rename_i l1 h1
              simp only [Except.ok.injEq, Prod.mk.injEq] at h
              rw [← h.2]; exact check_fn_loop_log chk hchk _ _ _ _ h1
            · rename_i l1 h1
              have hl1 := check_fn_loop_log chk hchk _ _ _ _ h1
              split at h
              · split at h
                · simp at h
                · rename_i b2 l2 h2
                  simp only [Except.ok.injEq, Prod.mk.injEq] at h
                  rw [← h.2]
                  exact trait_only_append hl1 (hchk _ _ _ _ _ h2)
              · simp only [Except.ok.injEq, Prod.mk.injEq] at h
                rw [← h.2]; exact hl1

/-- The method `check_enum` logs nothing. -/
theorem check_enum_log (dest src : TypeKind) (b : Bool) (l : List Diag)
    (h : check_enum dest src = .ok (b, l)) : TraitOnly l := by
  unfold check_enum at h
  split at h
  · exact trait_only_of_ok_nil h
  · split at h <;> exact trait_only_of_ok_nil h

/-- A run of the compatibility check that returns has logged only trait
diagnostics. -/
theorem check_log (env : Env) (fuel : Nat) :
    LogsTraitOnly (TypeCompatibilityChecker.check env fuel) := by
  induction fuel with
  | zero => intro deref dest src b l h; simp [TypeCompatibilityChecker.check] at h
  | succ n ih =>
    intro deref dest src b l h
    simp only [TypeCompatibilityChecker.check] at h
    cases src with
    | none => exact trait_only_of_ok_nil h
    | some src =>
      cases dest with
      | none => simp at h
      | some dest =>
        simp only at h
        by_cases h0 : dest.Ref.isSome = true
        · rw [if_pos h0] at h
          exact check_ref_log env _ ih _ _ _ _ _ h
        · rw [if_neg h0] at h
          generalize (match src.Ref with | some e => e | none => src) = s at h
          by_cases h1 : dest.Trt.isSome = true
          · rw [if_pos h1] at h; exact check_trait_log _ _ _ _ h
          · rw [if_neg h1] at h
            by_cases h2 : dest.Ptr.isSome = true
            · rw [if_pos h2] at h; exact check_ptr_log _ ih _ _ _ _ h
            · rw [if_neg h2] at h
              by_cases h3 : dest.Slc.isSome = true
              · rw [if_pos h3] at h; exact check_slc_log _ ih _ _ _ _ h
              · rw [if_neg h3] at h
                by_cases h4 : dest.Arr.isSome = true
                · rw [if_pos h4] at h; exact check_arr_log _ ih _ _ _ _ h
                · rw [if_neg h4] at h
                  by_cases h5 : dest.Map.isSome = true
                  · rw [if_pos h5] at h; exact check_map_log _ ih _ _ _ _ h
                  · rw [if_neg h5] at h
                    by_cases h6 : dest.Enm.isSome = true
                    · rw [if_pos h6] at h; exact check_enum_log _ _ _ _ h
                    · rw [if_neg h6] at h
                      by_cases h7 : dest.Strct.isSome = true
                      · rw [if_pos h7] at h; exact check_struct_log _ ih _ _ _ _ h
                      · rw [if_neg h7] at h
                        by_cases h8 : dest.Fnc.isSome = true
                        · rw [if_pos h8] at h; exact check_fn_log _ ih _ _ _ _ h
                        · rw [if_neg h8] at h
                          split at h <;> exact trait_only_of_ok_nil h

/-- The compatibility entry logs only the trait diagnostic and
`incompatible_types`: it is quiet for every other key. -/
theorem check_type_compatibility_quiet (env : Env) (fuel : Nat) (key : String)
    (hk1 : key ≠ "trait_has_reference_parametered_function")
    (hk2 : key ≠ "incompatible_types") :
    quiet_compat (check_type_compatibility env fuel) key := by
  intro dest src deref b l h x hx hc
  unfold check_type_compatibility at h
  split at h
  · simp at h
  · rename_i l1 h1
    simp only [Except.ok.injEq, Prod.mk.injEq] at h
    rw [← h.2] at hx
    rw [check_log env fuel _ _ _ _ _ h1 x hx] at hc
    exact hk1 hc.symm
  · rename_i l1 h1
    simp only [Except.ok.injEq, Prod.mk.injEq] at h
    rw [← h.2] at hx
    rcases List.mem_append.mp hx with h2 | h2
    · rw [check_log env fuel _ _ _ _ _ h1 x h2] at hc
      exact hk1 hc.symm
    · simp only [List.mem_singleton] at h2
      rw [h2] at hc
      exact hk2 hc.symm

/-! ### Return values against the expected types -/

/-- A run of the Assignment Type Checker logs only its own six kinds of
diagnostic and those of the compatibility entry. -/
theorem assign_check_quiet (env : Env) (compat : TypeKind → TypeKind → Bool → Run Bool)
    (deref : Bool) (dest : TypeKind) (d : Option Data) (key : String)
    (hq : quiet_compat compat key)
    (hk : key ≠ "builtin_as_anonymous_fn" ∧ key ≠ "method_as_anonymous_fn" ∧
      key ≠ "genericed_fn_as_anonymous_fn" ∧ key ≠ "tuple_assign_to_single" ∧
      key ≠ "incompatible_types" ∧ key ≠ "overflow_limits")
    (b : Bool) (l : List Diag)
    (h : AssignTypeChecker.check env compat deref dest d = .ok (b, l)) :
    ∀ x ∈ l, x.key ≠ key := by
  obtain ⟨k1, k2, k3, k4, k5, k6⟩ := hk
  have hval : ∀ y : Data, ∀ x ∈ (AssignTypeChecker.check_validity y).2, x.key ≠ key := by
    intro y x hx hc
    unfold AssignTypeChecker.check_validity at hx
    split at hx
    · split at hx
      · simp only [List.mem_singleton] at hx; rw [hx] at hc; exact k1 hc.symm
      · split at hx
        · simp only [List.mem_singleton] at hx; rw [hx] at hc; exact k2 hc.symm
        · split at hx
          · simp only [List.mem_singleton] at hx; rw [hx] at hc; exact k3 hc.symm
          · simp at hx
    · split at hx
      · simp only [List.mem_singleton] at hx; rw [hx] at hc; exact k4 hc.symm
      · simp at hx
  have hconst : ∀ y : Data, ∀ x ∈ (AssignTypeChecker.check_const env dest y).2, x.key ≠ key := by
    intro y x hx hc
    unfold AssignTypeChecker.check_const at hx
    split at hx
    · split at hx
      · simp at hx
      · split at hx
        · split at hx
          · simp only [List.mem_singleton] at hx; rw [hx] at hc; exact k6 hc.symm
          · simp at hx
        · split at hx
          · split at hx
            · simp only [List.mem_singleton] at hx; rw [hx] at hc; exact k6 hc.symm
            · simp at hx
          · simp at hx
    · simp at hx
  cases d with
  | none =>
    simp only [AssignTypeChecker.check, Except.ok.injEq, Prod.mk.injEq] at h
    rw [← h.2]; simp
  | some y =>
    simp only [AssignTypeChecker.check] at h
    split at h
    · simp only [Except.ok.injEq, Prod.mk.injEq] at h
      rw [← h.2]; exact hval y
    · split at h
      · simp only [Except.ok.injEq, Prod.mk.injEq] at h
        rw [← h.2]
        intro x hx
        rcases List.mem_append.mp hx with h1 | h1
        · exact hval y x h1
        · simp only [List.mem_singleton] at h1
          rw [h1]; exact fun hc => k5 hc.symm
      · split at h
        · simp only [Except.ok.injEq, Prod.mk.injEq] at h
          rw [← h.2]
          intro x hx
          rcases List.mem_append.mp hx with h1 | h1
          · exact hval y x h1
          · exact hconst y x h1
        · split at h
          · simp at h
          · rename_i b1 l1 h1
            simp only [Except.ok.injEq, Prod.mk.injEq] at h
            rw [← h.2]
            intro x hx
            rcases List.mem_append.mp hx with h2 | h2
            · rcases List.mem_append.mp h2 with h3 | h3
              · exact hval y x h3
              · exact hconst y x h3
            · exact hq _ _ _ _ _ h1 x h2

/-- The position-wise run of the Assignment Type Checker logs only what single
runs log. -/
theorem assign_each_quiet (env : Env) (compat : TypeKind → TypeKind → Bool → Run Bool)
    (key : String) (hq : quiet_compat compat key)
    (hk : key ≠ "builtin_as_anonymous_fn" ∧ key ≠ "method_as_anonymous_fn" ∧
      key ≠ "genericed_fn_as_anonymous_fn" ∧ key ≠ "tuple_assign_to_single" ∧
      key ≠ "incompatible_types" ∧ key ≠ "overflow_limits")
    (ts : List TypeKind) (ds : List Data) (l : List Diag)
    (h : assign_each env compat ts ds = .ok l) : ∀ x ∈ l, x.key ≠ key := by
  induction ts generalizing ds l with
  | nil =>
    simp only [assign_each, Except.ok.injEq] at h
    rw [← h]; simp
  | cons t ts ih =>
    cases ds with
    | nil =>
      simp only [assign_each, Except.ok.injEq] at h
      rw [← h]; simp
    | cons d ds =>
      simp only [assign_each] at h
      split at h
      · simp at h
      · rename_i b1 l1 h1
        split at h
        · simp at h
        · rename_i l2 h2
          simp only [Except.ok.injEq] at h
          rw [← h]
          intro x hx
          rcases List.mem_append.mp hx with h3 | h3
          · exact assign_check_quiet env compat false t (some d) key hq hk _ _ h1 x h3
          · exact ih ds l2 h2 x h3

/-- With no value of the overlapping prefix rejected by the mutability rule, the
loop of `check_exprs` is the position-wise run of the Assignment Type
Checker. -/
theorem check_exprs_loop_eq (env : Env) (compat : TypeKind → TypeKind → Bool → Run Bool)
    (sh : ScopeHost) (ds : List Data) (ts : List TypeKind)
    (hmut : ∀ x ∈ ds.take ts.length, mut_rejected sh x = false) :
    check_exprs_loop env compat sh ds ts = assign_each env compat ts ds := by
  induction ds generalizing ts with
  | nil => cases ts <;> rfl
  | cons d ds ih =>
    cases ts with
    | nil => rfl
    | cons t ts =>
      have hd : mut_rejected sh d = false := hmut d (by simp)
      have hrest : ∀ x ∈ ds.take ts.length, mut_rejected sh x = false := by
        intro x hx
        exact hmut x (by simp [hx])
      unfold mut_rejected at hd
      simp only [check_exprs_loop, assign_each, hd, Bool.false_eq_true, if_false, ih ts hrest]

/-- C24: when a non-void function with `m` expected result types returns
`n ≥ 1` values with `n ≠ m` and no value of the overlapping prefix is rejected by
the mutability rule, `_RetTypeChecker.check` pushes the count diagnostic
(`overflow_ret` if `n > m`, `missing_multi_ret` if `n < m`) and then exactly the
diagnostics of the Assignment Type Checker run on each of the first `min n m`
values against the expected type at the same position, in order; it returns true
when those runs return, and the count diagnostic is the only one of its kind (the
compatibility entry logging none). -/
theorem ret_check_count_mismatch (env : Env)
    (compat : TypeKind → TypeKind → Bool → Run Bool) (sh : ScopeHost) (rtc : RetTypeChecker)
    (d : Option Data) (hvoid : rtc.f.Decl.Is_void = false) (hready : ret_vars_ready sh rtc.f)
    (hn : 0 < (rtc.prepared sh d).exprs.length)
    (hne : (rtc.prepared sh d).exprs.length ≠ (get_fn_result_types rtc.f).length)
    (hmut : ∀ x ∈ (rtc.prepared sh d).exprs.take (get_fn_result_types rtc.f).length,
      mut_rejected sh x = false)
    (hq1 : quiet_compat compat "overflow_ret") (hq2 : quiet_compat compat "missing_multi_ret") :
    (∀ e, assign_each env compat (get_fn_result_types rtc.f) (rtc.prepared sh d).exprs
        = .error e → RetTypeChecker.check env compat sh rtc d = .error e) ∧
    (∀ l, assign_each env compat (get_fn_result_types rtc.f) (rtc.prepared sh d).exprs = .ok l →
      (∃ r, RetTypeChecker.check env compat sh rtc d
        = .ok ((true, r),
            count_diag (rtc.prepared sh d).exprs.length (get_fn_result_types rtc.f).length
              :: l)) ∧
      l.filter (fun x => x.key == "overflow_ret" || x.key == "missing_multi_ret") = []) := by
  obtain ⟨r, hv, hf, ht, he⟩ := ret_vars_prepared sh rtc d hready
  have hrun := ret_check_of_vars env compat sh rtc d r hv
  have hloop := check_exprs_loop_eq env compat sh (rtc.prepared sh d).exprs
    (get_fn_result_types rtc.f) hmut
  rw [he, hf, ht, hloop, hvoid] at hrun
  simp only [beq_iff_eq, Nat.ne_of_gt hn, Bool.not_false, Bool.and_true, Bool.and_false,
    Bool.false_eq_true, if_false, decide_False] at hrun
  refine ⟨?_, ?_⟩
  · intro e hl
    rw [hrun, hl]
  · intro l hl
    refine ⟨⟨r, ?_⟩, ?_⟩
    · rw [hrun, hl]
      simp only [count_diag]
      by_cases hgt : (rtc.prepared sh d).exprs.length > (get_fn_result_types rtc.f).length
      · simp [hgt]
      · have hlt : (rtc.prepared sh d).exprs.length < (get_fn_result_types rtc.f).length := by
          omega
        simp [hgt, hlt]
    · rw [List.filter_eq_nil_iff]
      intro x hx hc
      simp only [Bool.or_eq_true, beq_iff_eq] at hc
      rcases hc with hc | hc
      · exact assign_each_quiet env compat "overflow_ret" hq1 (by decide) _ _ l hl x hx hc
      · exact assign_each_quiet env compat "missing_multi_ret" hq2 (by decide) _ _ l hl x hx hc

/-- C24 at a concrete input: `fn pair() (int, int)` returning the single value
`1` gets `missing_multi_ret`, and the value is checked against `int` without
further diagnostic. -/
theorem ret_check_count_mismatch_witness :
    ∃ r, RetTypeChecker.check sample_env (check_type_compatibility sample_env 1) sample_scope
      (ret_checker pair_ins) (some data_int) = .ok ((true, r), [⟨"missing_multi_ret", []⟩]) :=
  ((ret_check_count_mismatch sample_env (check_type_compatibility sample_env 1) sample_scope
    (ret_checker pair_ins) (some data_int) rfl
    (ret_vars_ready_of_no_var sample_scope pair_ins rfl) (by decide) (by decide)
    (by
      intro x hx
      have hx1 : x ∈ [data_int] := hx
      simp only [List.mem_singleton] at hx1
      subst hx1
      rfl)
    (check_type_compatibility_quiet sample_env 1 _ (by decide) (by decide))
    (check_type_compatibility_quiet sample_env 1 _ (by decide) (by decide))).2 [] rfl).1

/-- C25 (evaluation at the failing input): `fn pair() (int, int)` returning
`(xs, "a")`, an immutable slice and a string: the slice is rejected by the
mutability rule and the check stops there; the string, which the Assignment Type
Checker rejects for `int`, is never checked. -/
theorem ret_check_stops_at_mutability :
    (∃ r, RetTypeChecker.check sample_env (check_type_compatibility sample_env 1) sample_scope
      (ret_checker pair_ins) (some ret_slice_str)
        = .ok ((true, r), [⟨"ret_with_mut_typed_non_mut", []⟩])) ∧
    AssignTypeChecker.check sample_env (check_type_compatibility sample_env 1) false
      (TypeKind.prim "int") (some data_str)
        = .ok (false, [⟨"incompatible_types", ["int", "str"]⟩]) :=
  ⟨⟨_, rfl⟩, rfl⟩

/-! ### Assignment type checker: rejections and diagnostics -/

/-- A valid data logs nothing in `check_validity`; an invalid one logs exactly
one diagnostic. -/
theorem check_validity_log (d : Data) :
    ((AssignTypeChecker.check_validity d).1 = true → (AssignTypeChecker.check_validity d).2 = []) ∧
    ((AssignTypeChecker.check_validity d).1 = false →
      ∃ x, (AssignTypeChecker.check_validity d).2 = [x]) := by
  unfold AssignTypeChecker.check_validity
  split
  · split
    · exact ⟨fun h => absurd h (by simp), fun _ => ⟨_, rfl⟩⟩
    · split
      · exact ⟨fun h => absurd h (by simp), fun _ => ⟨_, rfl⟩⟩
      · split
        · exact ⟨fun h => absurd h (by simp), fun _ => ⟨_, rfl⟩⟩
        · exact ⟨fun _ => rfl, fun h => absurd h (by simp)⟩
  · split
    · exact ⟨fun h => absurd h (by simp), fun _ => ⟨_, rfl⟩⟩
    · exact ⟨fun _ => rfl, fun h => absurd h (by simp)⟩

/-- A constant accepted by `check_const` logs nothing. -/
theorem check_const_true_log (env : Env) (dest : TypeKind) (d : Data)
    (h : (AssignTypeChecker.check_const env dest d).1 = true) :
    (AssignTypeChecker.check_const env dest d).2 = [] := by
  unfold AssignTypeChecker.check_const at h ⊢
  split
  · split
    · simp_all
    · split
      · split
        · simp_all
        · rfl
      · split
        · split
          · simp_all
          · rfl
        · simp_all
  · rfl

/-- C26: `_AssignTypeChecker.check` returns false, for every destination type and
whatever the compatibility checker would answer, whenever the data is nil, or its
type is a function value that is built-in, a method or generic, or its type is a
tuple, or the data is a variadic-spread value. -/
theorem assign_check_rejects (env : Env) (compat : TypeKind → TypeKind → Bool → Run Bool)
    (deref : Bool) (dest : TypeKind) (d : Option Data)
    (h : d = none ∨ ∃ x, d = some x ∧
      ((∃ f, x.Kind.Fnc = some f ∧
          (f.Is_builtin = true ∨ f.Decl.Is_method = true ∨ 0 < f.Decl.Generics.length)) ∨
        x.Kind.Tup.isSome = true ∨ x.Variadiced = true)) :
    ∃ l, AssignTypeChecker.check env compat deref dest d = .ok (false, l) := by
  rcases h with h | ⟨x, hx, h⟩
  · subst h; exact ⟨[], rfl⟩
  · subst hx
    cases hv : (AssignTypeChecker.check_validity x).1 with
    | false =>
      exact ⟨(AssignTypeChecker.check_validity x).2, by simp [AssignTypeChecker.check, hv]⟩
    | true =>
      rcases h with ⟨f, hf, h⟩ | h | h
      · exfalso
        revert hv
        unfold AssignTypeChecker.check_validity
        rw [hf]
        rcases h with h | h | h
        · simp [h]
        · by_cases hb : f.Is_builtin = true <;> simp [h, hb]
        · by_cases hb : f.Is_builtin = true <;> by_cases hm : f.Decl.Is_method = true <;>
            simp [h, hb, hm]
      · exfalso
        revert hv
        unfold AssignTypeChecker.check_validity
        cases hk : x.Kind <;> simp_all [TypeKind.Fnc, TypeKind.Tup]
      · exact ⟨(AssignTypeChecker.check_validity x).2 ++
          [⟨"incompatible_types", [env.To_str dest, env.To_str x.Kind ++ "..."]⟩],
          by simp [AssignTypeChecker.check, hv, h]⟩

/-- C26 at a concrete input: a spread value of type `int` for the destination
`int`. -/
theorem assign_check_rejects_witness :
    ∃ l, AssignTypeChecker.check sample_env (check_type_compatibility sample_env 1) false
      (TypeKind.prim "int") (some ⟨TypeKind.prim "int", none, false, true, ExprModel.other 0⟩)
        = .ok (false, l) :=
  assign_check_rejects sample_env (check_type_compatibility sample_env 1) false
    (TypeKind.prim "int") (some ⟨TypeKind.prim "int", none, false, true, ExprModel.other 0⟩)
    (Or.inr ⟨_, rfl, Or.inr (Or.inr rfl)⟩)

/-- C27 (counterexample): for nil data and the destination `int`, the check
returns false and appends no diagnostic. -/
theorem assign_check_nil_silent :
    AssignTypeChecker.check sample_env (check_type_compatibility sample_env 1) false
      (TypeKind.prim "int") none = .ok (false, []) := rfl

/-- C27 (amended): a run of `_AssignTypeChecker.check` on nil data returns false
and appends nothing; a run that rejects the data itself (an invalid function
value, a tuple, a variadic-spread value) returns false and appends exactly one
diagnostic; a run that returns true by constant narrowing appends none; and
where no constant overflow is logged, every other run returns the compatibility
checker's verdict and appends exactly that checker's diagnostics. -/
theorem assign_check_log (env : Env) (compat : TypeKind → TypeKind → Bool → Run Bool)
    (deref : Bool) (dest : TypeKind) (x : Data) :
    AssignTypeChecker.check env compat deref dest none = .ok (false, []) ∧
    ((AssignTypeChecker.check_validity x).1 = false ∨ x.Variadiced = true →
      ∃ dg, AssignTypeChecker.check env compat deref dest (some x) = .ok (false, [dg])) ∧
    ((AssignTypeChecker.check_validity x).1 = true → x.Variadiced = false →
      (AssignTypeChecker.check_const env dest x).1 = true →
      AssignTypeChecker.check env compat deref dest (some x) = .ok (true, [])) ∧
    ((AssignTypeChecker.check_validity x).1 = true → x.Variadiced = false →
      (AssignTypeChecker.check_const env dest x).1 = false →
      (AssignTypeChecker.check_const env dest x).2 = [] →
      AssignTypeChecker.check env compat deref dest (some x) = compat dest x.Kind deref) := by
  refine ⟨rfl, ?_, ?_, ?_⟩
  · intro h
    cases hv : (AssignTypeChecker.check_validity x).1 with
    | false =>
      obtain ⟨dg, hdg⟩ := (check_validity_log x).2 hv
      exact ⟨dg, by simp [AssignTypeChecker.check, hv, hdg]⟩
    | true =>
      have hx : x.Variadiced = true := by
        rcases h with h | h
        · rw [hv] at h; exact absurd h (by simp)
        · exact h
      have hl := (check_validity_log x).1 hv
      exact ⟨⟨"incompatible_types", [env.To_str dest, env.To_str x.Kind ++ "..."]⟩,
        by simp [AssignTypeChecker.check, hv, hx, hl]⟩
  · intro hv hx hc
    have hl := (check_validity_log x).1 hv
    have hcl := check_const_true_log env dest x hc
    simp [AssignTypeChecker.check, hv, hx, hc, hl, hcl]
  · intro hv hx hc hcl
    have hl := (check_validity_log x).1 hv
    simp only [AssignTypeChecker.check, hv, hx, hc, hl, hcl, Bool.not_true, Bool.false_eq_true,
      if_false, List.nil_append]
    cases compat dest x.Kind deref with
    | error e => rfl
    | ok r => rfl

/-- C27 (amended) at a concrete input: a spread value of type `int` is rejected
with one diagnostic; a plain `int` value for the destination `int` goes to the
compatibility checker. -/
theorem assign_check_log_witness :
    (∃ dg, AssignTypeChecker.check sample_env (check_type_compatibility sample_env 1) false
      (TypeKind.prim "int") (some ⟨TypeKind.prim "int", none, false, true, ExprModel.other 0⟩)
        = .ok (false, [dg])) ∧
    AssignTypeChecker.check sample_env (check_type_compatibility sample_env 1) false
      (TypeKind.prim "int") (some data_int)
        = check_type_compatibility sample_env 1 (TypeKind.prim "int") data_int.Kind false :=
  ⟨(assign_check_log sample_env (check_type_compatibility sample_env 1) false
      (TypeKind.prim "int") ⟨TypeKind.prim "int", none, false, true, ExprModel.other 0⟩).2.1
      (Or.inr rfl),
   (assign_check_log sample_env (check_type_compatibility sample_env 1) false
      (TypeKind.prim "int") data_int).2.2.2 rfl rfl rfl rfl⟩

/-! ### Nil sources, function types and nested references -/

/-- C28: a nil source is compatible with every pointer, slice and map
destination, whatever their element, key and value types (the unsafe pointer
included), and with no array destination; with either value of the deref flag
and any fuel. -/
theorem check_nil_source (env : Env) (fuel : Nat) (deref : Bool) (e : Option TypeKind)
    (t k v : TypeKind) (n : Int) :
    TypeCompatibilityChecker.check env (fuel + 1) deref (some (TypeKind.ptr e))
        (some TypeKind.nil) = .ok (true, []) ∧
    TypeCompatibilityChecker.check env (fuel + 1) deref (some (TypeKind.slc t))
        (some TypeKind.nil) = .ok (true, []) ∧
    TypeCompatibilityChecker.check env (fuel + 1) deref (some (TypeKind.map k v))
        (some TypeKind.nil) = .ok (true, []) ∧
    TypeCompatibilityChecker.check env (fuel + 1) deref (some (TypeKind.arr n t))
        (some TypeKind.nil) = .ok (false, []) :=
  ⟨rfl, rfl, rfl, rfl⟩

/-- C29: for a function-typed destination and a function-typed source, the
compatibility check returns false, without diagnostic, whenever the parameter
counts differ, or exactly one of the two has a result type, or both sides' first
parameter entries are present. -/
theorem check_fn_rejects (env : Env) (fuel : Nat) (deref : Bool) (df sf : FnIns)
    (h : df.Params.length ≠ sf.Params.length ∨ df.Result.isSome ≠ sf.Result.isSome ∨
      (∃ dp sp drest srest, df.Params = some dp :: drest ∧ sf.Params = some sp :: srest)) :
    TypeCompatibilityChecker.check env (fuel + 1) deref (some (TypeKind.fnc df))
        (some (TypeKind.fnc sf)) = .ok (false, []) := by
  have hrun : TypeCompatibilityChecker.check env (fuel + 1) deref (some (TypeKind.fnc df))
      (some (TypeKind.fnc sf)) = check_fn (TypeCompatibilityChecker.check env fuel)
        (TypeKind.fnc df) (TypeKind.fnc sf) := rfl
  rw [hrun]
  simp only [check_fn, TypeKind.Is_nil, TypeKind.Fnc, Bool.false_eq_true, if_false]
  by_cases hr : sf.Result.isSome != df.Result.isSome
  · simp [hr]
  · by_cases hl : sf.Params.length != df.Params.length
    · simp [hr, hl]
    · simp only [hr, hl, Bool.false_eq_true, if_false]
      rcases h with h1 | h1 | ⟨dp, sp, drest, srest, hd, hs⟩
      · exact absurd (by simpa using hl) (Ne.symm h1)
      · exact absurd (by simpa using hr) (Ne.symm h1)
      · rw [hd, hs]
        simp [check_fn_loop]

/-- C29 at a concrete input: `fn(int)` against itself, both first parameter
entries present. -/
theorem check_fn_rejects_witness :
    TypeCompatibilityChecker.check sample_env 1 false (some (TypeKind.fnc fn_of_int_ins))
        (some (TypeKind.fnc fn_of_int_ins)) = .ok (false, []) :=
  check_fn_rejects sample_env 0 false fn_of_int_ins fn_of_int_ins
    (Or.inr (Or.inr ⟨_, _, _, _, rfl, rfl⟩))

/-- C30 (evaluation at the failing input): for the struct type `Circle`, a slice,
an array and a map whose elements are references to `Circle` are each accepted
for the destination of the same shape whose elements are `Circle` itself, in
every environment and with either value of the top-level deref flag: the nested
check replaces the source reference by its element. -/
theorem check_nested_reference_accepted (env : Env) (fuel : Nat) (deref : Bool) :
    TypeCompatibilityChecker.check env (fuel + 2) deref (some (TypeKind.slc circle))
        (some (TypeKind.slc (TypeKind.ref circle))) = .ok (true, []) ∧
    TypeCompatibilityChecker.check env (fuel + 2) deref (some (TypeKind.arr 3 circle))
        (some (TypeKind.arr 3 (TypeKind.ref circle))) = .ok (true, []) ∧
    TypeCompatibilityChecker.check env (fuel + 2) deref (some (TypeKind.map circle circle))
        (some (TypeKind.map (TypeKind.ref circle) (TypeKind.ref circle))) = .ok (true, []) :=
  ⟨rfl, rfl, rfl⟩

/-! ### Constant narrowing: fractions and signs -/

/-- The fractional part that `Modf` returns is non-zero (in Go's sense, which NaN
satisfies) for NaN, the infinities and every float with a fractional part. -/
theorem modf_frac_ne_zero (x : F64)
    (h : Const.not_integral (Const.f64 x) = true) : (F64.Modf x).2.ne_zero = true := by
  cases x with
  | nan => rfl
  | inf s => rfl
  | fin n e =>
    simp only [Const.not_integral, F64.has_fraction, Bool.and_eq_true, decide_eq_true_eq] at h
    obtain ⟨he, hn⟩ := h
    have hneg : ¬ (0 ≤ e) := by omega
    simp only [F64.Modf, hneg, if_false, F64.ne_zero, bne_iff_ne, ne_eq]
    intro hz
    apply hn
    have hdvd : (2 : Int) ^ (-e).toNat ∣ n :=
      ⟨Int.tdiv n (2 ^ (-e).toNat), by rw [Int.mul_comm]; omega⟩
    exact Int.emod_eq_zero_of_dvd hdvd

/-- The number of binary digits found with fuel `f` is at most `f`. -/
theorem bit_len_le (f n : Nat) : F64.bit_len f n ≤ f := by
  induction f generalizing n with
  | zero => simp [F64.bit_len]
  | succ k ih =>
    simp only [F64.bit_len]
    split
    · omega
    · have := ih (n / 2); omega

/-- Rounding a positive natural number to float64 gives a positive number. -/
theorem round_to_f64_pos (n : Nat) (h : 0 < n) : 0 < F64.round_to_f64 n := by
  unfold F64.round_to_f64
  by_cases hs : n < 2 ^ 53
  · rw [if_pos hs]; exact h
  · rw [if_neg hs]
    simp only []
    have hb := bit_len_le 64 n
    have he : F64.bit_len 64 n - 53 ≤ 11 := by omega
    have hp : 2 ^ (F64.bit_len 64 n - 53) ≤ 2 ^ 11 := Nat.pow_le_pow_right (by decide) he
    have hn : 2 ^ (F64.bit_len 64 n - 53) ≤ n := by
      have : (2 : Nat) ^ 11 ≤ 2 ^ 53 := by decide
      omega
    have hq : 0 < n / 2 ^ (F64.bit_len 64 n - 53) :=
      Nat.div_pos hn (Nat.pos_pow_of_pos _ (by decide))
    have hpos : 0 < 2 ^ (F64.bit_len 64 n - 53) := Nat.pos_pow_of_pos _ (by decide)
    split
    · exact Nat.mul_pos (by omega) hpos
    · exact Nat.mul_pos hq hpos

/-- A negative float is below the float64 zero. -/
theorem lt_zero_of_negative (x : F64) (h : x.negative = true) : F64.lt x F64.zero = true := by
  cases x with
  | nan => simp [F64.negative] at h
  | inf s =>
    simp only [F64.negative] at h
    subst h; rfl
  | fin n e =>
    simp only [F64.negative, decide_eq_true_eq] at h
    simp only [F64.lt, F64.zero, F64.scaled, decide_eq_true_eq, Int.zero_mul]
    exact Int.mul_neg_of_neg_of_pos h (by positivity)

/-- The float64 of a negative signed integer is not at or above zero. -/
theorem zero_le_of_i64_neg (v : Int) (h : v < 0) : F64.le F64.zero (F64.of_i64 v) = false := by
  have hpos : 0 < F64.round_to_f64 v.natAbs := round_to_f64_pos _ (by omega)
  simp only [F64.of_i64, h, if_true, F64.le, F64.zero, F64.scaled, decide_eq_false_iff_not]
  simp
  omega

/-- C31: `int_assignable` returns false, for every destination kind and every
table of package `types`, for every float constant that has a non-zero fractional
part or is NaN or infinite; and for every destination kind that is not a signed
one (so for every unsigned kind) it returns false for every negative constant,
whether tagged signed integer or float. -/
theorem int_assignable_rejects (ty : Types) (kind : String) (c : Const) :
    (c.not_integral = true → int_assignable ty kind c = false) ∧
    (ty.Is_sig_int kind = false → c.negative = true → int_assignable ty kind c = false) := by
  refine ⟨?_, ?_⟩
  · intro h
    cases c with
    | f64 x =>
      have hf := modf_frac_ne_zero x h
      unfold int_assignable sig_assignable unsig_assignable
      simp only [Const.Is_f64, Const.Read_f64, if_true, hf]
      split
      · rfl
      · split
        · split <;> rfl
        · rfl
    | i64 v => simp [Const.not_integral] at h
    | u64 v => simp [Const.not_integral] at h
    | str v => simp [Const.not_integral] at h
    | bool v => simp [Const.not_integral] at h
  · intro hs h
    unfold int_assignable
    simp only [hs, Bool.false_eq_true, if_false]
    split
    · cases c with
      | f64 x =>
        simp only [Const.negative] at h
        simp [unsig_assignable, Const.Is_f64, Const.Read_f64, lt_zero_of_negative x h]
      | i64 v =>
        simp only [Const.negative, decide_eq_true_eq] at h
        simp [unsig_assignable, Const.Is_f64, Const.Is_u64, Const.Is_i64, Const.Read_i64,
          zero_le_of_i64_neg v h]
      | u64 v => simp [Const.negative] at h
      | str v => simp [Const.negative] at h
      | bool v => simp [Const.negative] at h
    · rfl

/-- C31 at concrete inputs: the float constant `2.5` for `i32`, and the signed
constant `-1` for `u8`. -/
theorem int_assignable_rejects_witness :
    int_assignable (documented_types (fun _ _ => true) (fun a b => a == b)) "i32"
        (Const.f64 (F64.fin 5 (-1))) = false ∧
    int_assignable (documented_types (fun _ _ => true) (fun a b => a == b)) "u8"
        (Const.i64 (-1)) = false :=
  ⟨(int_assignable_rejects _ "i32" (Const.f64 (F64.fin 5 (-1)))).1 (by decide),
   (int_assignable_rejects _ "u8" (Const.i64 (-1))).2 (by decide) (by decide)⟩

/-! ### Message formatting -/

/-- The search loop finds no marker in a text without one. -/
theorem find_next_fmt_loop_none (s : List Char) (i : Nat) (h : '@' ∉ s) :
    find_next_fmt_loop s i = -1 := by
  induction s generalizing i with
  | nil => rfl
  | cons b rest ih =>
    have hb : (b == '@') = false := by
      rw [beq_eq_false_iff_ne]
      intro hc; exact h (by simp [hc])
    simp only [find_next_fmt_loop, hb, Bool.false_eq_true, if_false]
    exact ih (i + 1) (fun hc => h (List.mem_cons_of_mem _ hc))

/-- The search loop finds the first marker right after a text without one. -/
theorem find_next_fmt_loop_marker (s t : List Char) (i : Nat) (h : '@' ∉ s) :
    find_next_fmt_loop (s ++ '@' :: t) i = ((i + s.length : Nat) : Int) := by
  induction s generalizing i with
  | nil => simp [find_next_fmt_loop]
  | cons b rest ih =>
    have hb : (b == '@') = false := by
      rw [beq_eq_false_iff_ne]
      intro hc; exact h (by simp [hc])
    simp only [List.cons_append, find_next_fmt_loop, hb, Bool.false_eq_true, if_false,
      List.length_cons]
    have hrec := ih (i + 1) (fun hc => h (List.mem_cons_of_mem _ hc))
    have hrec1 : find_next_fmt_loop (rest.append ('@' :: t)) (i + 1)
        = ((i + 1 + rest.length : Nat) : Int) := hrec
    rw [hrec1]
    congr 1
    omega

/-- Without strings to fill in, every marker is kept. -/
theorem fill_nil (segs : List (List Char)) : fill segs [] = with_markers segs := by
  induction segs with
  | nil => rfl
  | cons s rest ih =>
    cases rest with
    | nil => rfl
    | cons s2 rest2 => simp only [fill, with_markers, ih]

/-- The loop of `apply_fmt` on a template given by its segments: the builder,
then the segments with the markers replaced by the string forms of the
arguments. -/
theorem apply_fmt_loop_fill (segs : List (List Char)) (args : List FmtArg) (s : List Char)
    (hne : segs ≠ []) (hseg : ∀ x ∈ segs, '@' ∉ x) :
    apply_fmt_loop (with_markers segs) args s = s ++ fill segs (args.map arg_to_str) := by
  induction segs generalizing args s with
  | nil => exact absurd rfl hne
  | cons seg rest ih =>
    have hs : '@' ∉ seg := hseg seg (List.mem_cons_self _ _)
    cases rest with
    | nil =>
      cases args with
      | nil => rfl
      | cons a more =>
        simp only [with_markers, apply_fmt_loop, find_next_fmt, find_next_fmt_loop_none seg 0 hs,
          beq_self_eq_true, if_true, List.map_cons, fill]
    | cons seg2 rest2 =>
      cases args with
      | nil =>
        simp only [apply_fmt_loop, List.map_nil, fill_nil]
      | cons a more =>
        have hfind : find_next_fmt (seg ++ '@' :: with_markers (seg2 :: rest2))
            = ((seg.length : Nat) : Int) := by
          unfold find_next_fmt
          rw [find_next_fmt_loop_marker seg _ 0 hs, Nat.zero_add]
        have hneq : (((seg.length : Nat) : Int) == -1) = false := by
          rw [beq_eq_false_iff_ne]; omega
        have hdrop : (seg ++ '@' :: with_markers (seg2 :: rest2)).drop (seg.length + 1)
            = with_markers (seg2 :: rest2) := by
          rw [List.drop_append_eq_append_drop]
          simp
        have htake : (seg ++ '@' :: with_markers (seg2 :: rest2)).take seg.length = seg := by
          rw [List.take_append_eq_append_take]
          simp
        simp only [with_markers, apply_fmt_loop, hfind, hneq, Bool.false_eq_true, if_false,
          Int.toNat_ofNat, hdrop, htake, List.map_cons, fill]
        rw [ih more _ (by simp) (fun x hx => hseg x (List.mem_cons_of_mem _ hx))]
        simp [List.append_assoc]

/-- C32: for a template of `m + 1` marker-free segments joined by `m` markers
`'@'` and a list of `k` arguments, `apply_fmt` returns the segments with the
first `min m k` markers replaced, left to right, by the string forms of the
first `min m k` arguments in order, every other marker and all other text kept;
the string forms are copied as they are, whatever they contain, surplus arguments
are ignored, and with no arguments any template is returned unchanged. -/
theorem apply_fmt_fills (segs : List (List Char)) (args : List FmtArg) (fmt : List Char)
    (hne : segs ≠ []) (hseg : ∀ x ∈ segs, '@' ∉ x) :
    apply_fmt (with_markers segs) args = fill segs (args.map arg_to_str) ∧
    apply_fmt fmt [] = fmt := by
  refine ⟨?_, rfl⟩
  unfold apply_fmt
  rw [apply_fmt_loop_fill segs args [] hne hseg]
  rfl

/-- C32 at a concrete input: the template `type "@" is not derives: @` with
the arguments `a@b`, `T` and a surplus one; the marker inside the first argument
stays text. -/
theorem apply_fmt_fills_witness :
    apply_fmt (with_markers ["type \"".data, "\" is not derives: ".data, []])
        [FmtArg.string "a@b".data, FmtArg.string "T".data, FmtArg.other]
      = "type \"a@b\" is not derives: T".data ∧
    apply_fmt "no marker".data [] = "no marker".data :=
  apply_fmt_fills ["type \"".data, "\" is not derives: ".data, []]
    [FmtArg.string "a@b".data, FmtArg.string "T".data, FmtArg.other] "no marker".data
    (by simp) (by decide)

/-! ### First binding wins -/

/-- Nothing changed, nothing lost. -/
theorem keeps_bound_refl (f : FnIns) : keeps_bound f f := ⟨rfl, fun _ _ h => h⟩

/-- Two runs in a row. -/
theorem keeps_bound_trans {f g k : FnIns} (h1 : keeps_bound f g) (h2 : keeps_bound g k) :
    keeps_bound f k := ⟨h2.1.trans h1.1, fun i t h => h2.2 i t (h1.2 i t h)⟩

/-- A result that hands back the instance it was given. -/
theorem keeps_bound_of_ok {f : FnIns} {b : Bool} {r : Bool × FnIns} {l : List Diag}
    (h : (Except.ok ((b, f), []) : Run (Bool × FnIns)) = .ok (r, l)) : keeps_bound f r.2 := by
  simp only [Except.ok.injEq, Prod.mk.injEq] at h
  rw [← h.1]; exact keeps_bound_refl f

/-- Binding an unbound slot leaves the bound ones alone. -/
theorem push_generic_keeps (f : FnIns) (k : TypeKind) (i : Nat) (f1 : FnIns) (l : List Diag)
    (hi : f.Generics.get? i = some none) (h : push_generic f k i = .ok (f1, l)) :
    keeps_bound f f1 := by
  unfold push_generic at h
  by_cases hlt : i < f.Generics.length
  · simp only [hlt, if_true, Except.ok.injEq, Prod.mk.injEq] at h
    rw [← h.1]
    refine ⟨by cases f; rfl, ?_⟩
    intro j t hj
    have hne : i ≠ j := by
      intro hc; subst hc
      rw [hi] at hj
      simp at hj
    cases f with
    | mk d g p r c a =>
      simp only [FnIns.set_Generics, FnIns.Generics, List.get?_eq_getElem?] at hj ⊢
      rw [List.getElem?_set_ne hne]
      exact hj
  · simp [hlt] at h

/-- The loop of `annotate_any` never changes a bound slot. -/
theorem annotate_any_loop_keeps (To_str : TypeKind → String) (f : FnIns) (kind : String)
    (k : Option TypeKind) (gs : List GenericDecl) (i : Nat) (r : Bool × FnIns) (l : List Diag)
    (h : annotate_any_loop To_str f kind k gs i = .ok (r, l)) : keeps_bound f r.2 := by
  induction gs generalizing i with
  | nil => exact keeps_bound_of_ok h
  | cons g rest ih =>
    simp only [annotate_any_loop] at h
    split at h
    · exact ih _ h
    · split at h
      · simp at h
      · rename_i hslot
        split at h
        · simp at h
        · split at h
          · simp at h
          · rename_i f1 l1 hpg
            simp only [Except.ok.injEq, Prod.mk.injEq] at h
            rw [← h.1]
            exact push_generic_keeps _ _ _ _ _ hslot hpg
      · split at h
        · simp at h
        · split at h <;> exact keeps_bound_of_ok h

/-- The method `annotate_slc` keeps what its recursive entry keeps. -/
theorem annotate_slc_keeps (ann : Annotator) (hann : KeepsBound ann) (f : FnIns)
    (p k : TypeKind) (r : Bool × FnIns) (l : List Diag)
    (h : annotate_slc ann f p k = .ok (r, l)) : keeps_bound f r.2 := by
  unfold annotate_slc at h
  split at h
  · exact keeps_bound_of_ok h
  · split at h
    · simp at h
    · exact hann _ _ _ _ _ h

/-- The method `annotate_ptr` keeps what its recursive entry keeps. -/
theorem annotate_ptr_keeps (ann : Annotator) (hann : KeepsBound ann) (f : FnIns)
    (p k : TypeKind) (r : Bool × FnIns) (l : List Diag)
    (h : annotate_ptr ann f p k = .ok (r, l)) : keeps_bound f r.2 := by
  unfold annotate_ptr at h
  split at h
  · exact keeps_bound_of_ok h
  · split at h
    · simp at h
    · exact hann _ _ _ _ _ h

/-- The method `annotate_map` keeps what its recursive entry keeps. -/
theorem annotate_map_keeps (ann : Annotator) (hann : KeepsBound ann) (f : FnIns)
    (p k : TypeKind) (r : Bool × FnIns) (l : List Diag)
    (h : annotate_map ann f p k = .ok (r, l)) : keeps_bound f r.2 := by
  unfold annotate_map at h
  split at h
  · exact keeps_bound_of_ok h
  · split at h
    · simp at h
    · split at h
      · simp at h
      · rename_i f1 l1 h1
        simp only [Except.ok.injEq, Prod.mk.injEq] at h
        rw [← h.1]; exact hann _ _ _ _ _ h1
      · rename_i f1 l1 h1
        split at h
        · simp at h
        · rename_i r2 l2 h2
          simp only [Except.ok.injEq, Prod.mk.injEq] at h
          rw [← h.1]
          exact keeps_bound_trans (hann _ _ _ _ _ h1) (hann _ _ _ _ _ h2)

/-- The loop of `annotate_fn` keeps what its recursive entry keeps. -/
theorem annotate_fn_loop_keeps (ann : Annotator) (hann : KeepsBound ann) (f : FnIns)
    (ok : Bool) (fps pfps : List (Option ParamIns)) (r : Bool × FnIns) (l : List Diag)
    (h : annotate_fn_loop ann f ok fps pfps = .ok (r, l)) : keeps_bound f r.2 := by
  induction fps generalizing f ok pfps l r with
  | nil => exact keeps_bound_of_ok h
  | cons fp frest ih =>
    cases pfps with
    | nil => simp [annotate_fn_loop] at h
    | cons pfp prest =>
      simp only [annotate_fn_loop] at h
      split at h
      · simp at h
      · split at h
        · simp at h
        · split at h
          · simp at h
          · rename_i b f1 l1 h1
            split at h
            · simp at h
            · rename_i r2 l2 h2
              simp only [Except.ok.injEq, Prod.mk.injEq] at h
              rw [← h.1]
              exact keeps_bound_trans (hann _ _ _ _ _ h1) (ih _ _ _ _ _ h2)

/-- The method `annotate_fn` keeps what its recursive entry keeps. -/
theorem annotate_fn_keeps (ann : Annotator) (hann : KeepsBound ann) (f : FnIns)
    (p k : TypeKind) (r : Bool × FnIns) (l : List Diag)
    (h : annotate_fn ann f p k = .ok (r, l)) : keeps_bound f r.2 := by
  unfold annotate_fn at h
  split at h
  · exact keeps_bound_of_ok h
  · split at h
    · simp at h
    · split at h
      · exact keeps_bound_of_ok h
      · split at h
        · exact keeps_bound_of_ok h
        · split at h
          · simp at h
          · rename_i ok f1 l1 h1
            have hk1 := annotate_fn_loop_keeps ann hann _ _ _ _ _ _ h1
            split at h
            · split at h
              · simp at h
              · rename_i b f2 l2 h2
                simp only [Except.ok.injEq, Prod.mk.injEq] at h
                rw [← h.1]
                have hk2 : keeps_bound f1 f2 := hann _ _ _ _ _ h2
                exact keeps_bound_trans hk1 hk2
            · simp only [Except.ok.injEq, Prod.mk.injEq] at h
              rw [← h.1]; exact hk1

/-- A run of `annotate_kind` that returns has changed no bound slot. -/
theorem annotate_kind_keeps (To_str : TypeKind → String) (fuel : Nat) :
    KeepsBound (annotate_kind To_str fuel) := by
  induction fuel with
  | zero => intro f p k r l h; simp [annotate_kind] at h
  | succ n ih =>
    intro f p k r l h
    simp only [annotate_kind] at h
    split at h
    · exact keeps_bound_of_ok h
    · split at h
      · simp at h
      · rename_i f1 l1 h1
        simp only [Except.ok.injEq, Prod.mk.injEq] at h
        rw [← h.1]
        exact annotate_any_loop_keeps _ _ _ _ _ _ _ _ h1
      · rename_i f1 l1 h1
        have hk1 : keeps_bound f f1 := annotate_any_loop_keeps _ _ _ _ _ _ _ _ h1
        split at h
        · simp at h
        · rename_i kk
          split at h
          · simp at h
          · rename_i x l2 h2
            simp only [Except.ok.injEq, Prod.mk.injEq] at h
            rw [← h.1]
            refine keeps_bound_trans hk1 ?_
            split at h2
            · exact annotate_any_loop_keeps _ _ _ _ _ _ _ _ h2
            · split at h2
              · exact annotate_slc_keeps _ ih _ _ _ _ _ h2
              · split at h2
                · exact annotate_map_keeps _ ih _ _ _ _ _ h2
                · split at h2
                  · exact annotate_fn_keeps _ ih _ _ _ _ _ h2
                  · split at h2
                    · exact annotate_ptr_keeps _ ih _ _ _ _ _ h2
                    · exact keeps_bound_of_ok h2

/-- C33: first binding wins. For every parameter shape and every argument type,
a run of `annotate`, whether it returns true or false, leaves every generic slot
that was bound before the run holding the type it held. -/
theorem annotate_first_binding_wins (To_str : TypeKind → String) (fuel : Nat) (f : FnIns)
    (p : ParamIns) (a : Data) (b : Bool) (f1 : FnIns) (l : List Diag)
    (h : annotate To_str fuel f p a = .ok ((b, f1), l)) (i : Nat) (t : TypeKind)
    (hi : f.Generics.get? i = some (some t)) : f1.Generics.get? i = some (some t) :=
  (annotate_kind_keeps To_str fuel f p.Kind (some a.Kind) (b, f1) l h).2 i t hi

/-- C33 at a concrete input: with `T` bound to `int` and `U` unbound in
`g[T, U]`, annotating the shape `U` with a string binds `U` and leaves `T` at
`int`. -/
theorem annotate_first_binding_wins_witness :
    annotate sample_str 1 (open_ins.set_Generics [some (TypeKind.prim "int"), none])
        (ParamIns.mk none (some (TypeKind.prim "U"))) data_str
      = .ok ((true, open_ins.set_Generics [some (TypeKind.prim "int"),
          some (TypeKind.prim "str")]), []) ∧
    (open_ins.set_Generics [some (TypeKind.prim "int"), some (TypeKind.prim "str")]).Generics.get? 0
      = some (some (TypeKind.prim "int")) :=
  ⟨rfl, annotate_first_binding_wins sample_str 1
    (open_ins.set_Generics [some (TypeKind.prim "int"), none])
    (ParamIns.mk none (some (TypeKind.prim "U"))) data_str true _ [] rfl 0 _ rfl⟩

/-! ### What a successful annotation implies -/

/-- The type whose slice payload is `e` is the slice of `e`. -/
theorem eq_slc_of_Slc (t e : TypeKind) (h : t.Slc = some e) : t = TypeKind.slc e := by
  cases t <;> simp_all [TypeKind.Slc]

/-- The type whose map payload is `(k, v)` is the map from `k` to `v`. -/
theorem eq_map_of_Map (t k v : TypeKind) (h : t.Map = some (k, v)) : t = TypeKind.map k v := by
  cases t <;> simp_all [TypeKind.Map]

/-- The type whose pointer payload is `e` is the pointer to `e`. -/
theorem eq_ptr_of_Ptr (t : TypeKind) (e : Option TypeKind) (h : t.Ptr = some e) :
    t = TypeKind.ptr e := by
  cases t <;> simp_all [TypeKind.Ptr]

/-- The type whose function payload is `f` is the function type of `f`. -/
theorem eq_fnc_of_Fnc (t : TypeKind) (f : FnIns) (h : t.Fnc = some f) : t = TypeKind.fnc f := by
  cases t <;> simp_all [TypeKind.Fnc]

/-- A match stays one when the names are those of an instance of the same
declaration. -/
theorem generic_names_of_keeps {f f1 : FnIns} (h : keeps_bound f f1) :
    f1.generic_names = f.generic_names := by
  unfold FnIns.generic_names
  rw [h.1]

/-- The loop of `annotate_any` returns true only at a generic parameter whose
name is the rendering under the cursor, and only for a present argument type. -/
theorem annotate_any_loop_true (To_str : TypeKind → String) (f : FnIns) (kind : String)
    (k : Option TypeKind) (gs : List GenericDecl) (i : Nat) (f1 : FnIns) (l : List Diag)
    (h : annotate_any_loop To_str f kind k gs i = .ok ((true, f1), l)) :
    kind ∈ gs.map GenericDecl.Ident ∧ ∃ kk, k = some kk := by
  induction gs generalizing i with
  | nil => simp [annotate_any_loop] at h
  | cons g rest ih =>
    simp only [annotate_any_loop] at h
    split at h
    · obtain ⟨h1, h2⟩ := ih _ h
      exact ⟨by simp [h1], h2⟩
    · rename_i hk
      have hmem : kind ∈ (g :: rest).map GenericDecl.Ident := by
        have : kind = g.Ident := by simpa using hk
        simp [this]
      split at h
      · simp at h
      · split at h
        · simp at h
        · exact ⟨hmem, _, rfl⟩
      · split at h
        · simp at h
        · exact ⟨hmem, _, rfl⟩

/-- The loop of `annotate_any` on a rendering that is no generic name returns
false and changes nothing. -/
theorem annotate_any_loop_no_name (To_str : TypeKind → String) (f : FnIns) (kind : String)
    (k : Option TypeKind) (gs : List GenericDecl) (i : Nat)
    (h : kind ∉ gs.map GenericDecl.Ident) :
    annotate_any_loop To_str f kind k gs i = .ok ((false, f), []) := by
  induction gs generalizing i with
  | nil => rfl
  | cons g rest ih =>
    have hne : (kind != g.Ident) = true := by
      rw [bne_iff_ne]
      intro hc; exact h (by simp [hc])
    simp only [annotate_any_loop, hne, if_true]
    exact ih _ (fun hc => h (by simp [hc]))

/-- The method `annotate_slc` returns true only on matching shapes. -/
theorem annotate_slc_true (To_str : TypeKind → String) (ann : Annotator)
    (hann : TrueMatches To_str ann) (f : FnIns) (p k : TypeKind) (f1 : FnIns) (l : List Diag)
    (h : annotate_slc ann f p k = .ok ((true, f1), l)) :
    Matches To_str f.generic_names (some p) (some k) := by
  unfold annotate_slc at h
  split at h
  · simp at h
  · rename_i pe hp
    split at h
    · simp at h
    · rename_i ke hk
      rw [eq_slc_of_Slc p pe hp, eq_slc_of_Slc k ke hk]
      exact Matches.slc _ _ (hann _ _ _ _ _ h)

/-- The method `annotate_ptr` returns true only on matching shapes. -/
theorem annotate_ptr_true (To_str : TypeKind → String) (ann : Annotator)
    (hann : TrueMatches To_str ann) (f : FnIns) (p k : TypeKind) (f1 : FnIns) (l : List Diag)
    (h : annotate_ptr ann f p k = .ok ((true, f1), l)) :
    Matches To_str f.generic_names (some p) (some k) := by
  unfold annotate_ptr at h
  split at h
  · simp at h
  · rename_i pe hp
    split at h
    · simp at h
    · rename_i ke hk
      rw [eq_ptr_of_Ptr p pe hp, eq_ptr_of_Ptr k ke hk]
      exact Matches.ptr _ _ (hann _ _ _ _ _ h)

/-- The method `annotate_map` returns true only on matching shapes. -/
theorem annotate_map_true (To_str : TypeKind → String) (ann : Annotator)
    (hann : TrueMatches To_str ann) (hkeep : KeepsBound ann) (f : FnIns) (p k : TypeKind)
    (f1 : FnIns) (l : List Diag) (h : annotate_map ann f p k = .ok ((true, f1), l)) :
    Matches To_str f.generic_names (some p) (some k) := by
  unfold annotate_map at h
  split at h
  · simp at h
  · rename_i pk pv hp
    split at h
    · simp at h
    · rename_i mk mv hk
      split at h
      · simp at h
      · simp at h
      · rename_i f2 l1 h1
        split at h
        · simp at h
        · rename_i r2 l2 h2
          simp only [Except.ok.injEq, Prod.mk.injEq] at h
          have hr : r2 = (true, f1) := h.1
          subst hr
          have hm2 := hann _ _ _ _ _ h2
          rw [generic_names_of_keeps (hkeep _ _ _ _ _ h1)] at hm2
          rw [eq_map_of_Map p pk pv hp, eq_map_of_Map k mk mv hk]
          exact Matches.map _ _ _ _ (hann _ _ _ _ _ h1) hm2

/-- The loop of `annotate_fn` ends true only if it started true and every
parameter shape matches the argument's parameter type at its position. -/
theorem annotate_fn_loop_true (To_str : TypeKind → String) (ann : Annotator)
    (hann : TrueMatches To_str ann) (hkeep : KeepsBound ann) (f : FnIns) (ok : Bool)
    (fps pfps : List (Option ParamIns)) (f1 : FnIns) (l : List Diag)
    (h : annotate_fn_loop ann f ok fps pfps = .ok ((true, f1), l)) :
    ok = true ∧ ParamsMatch To_str f.generic_names pfps fps := by
  induction fps generalizing f ok pfps l with
  | nil =>
    simp only [annotate_fn_loop, Except.ok.injEq, Prod.mk.injEq] at h
    exact ⟨h.1.1, ParamsMatch.nil _⟩
  | cons fp frest ih =>
    cases pfps with
    | nil => simp [annotate_fn_loop] at h
    | cons pfp prest =>
      simp only [annotate_fn_loop] at h
      split at h
      · simp at h
      · rename_i pp
        split at h
        · simp at h
        · rename_i ap
          split at h
          · simp at h
          · rename_i b f2 l1 h1
            split at h
            · simp at h
            · rename_i r2 l2 h2
              simp only [Except.ok.injEq, Prod.mk.injEq] at h
              have hr : r2 = (true, f1) := h.1
              subst hr
              obtain ⟨hb, hrest⟩ := ih _ _ _ _ h2
              simp only [Bool.and_eq_true] at hb
              obtain ⟨hb1, hb2⟩ := hb
              subst hb1
              rw [generic_names_of_keeps (hkeep _ _ _ _ _ h1)] at hrest
              exact ⟨hb2, ParamsMatch.cons _ _ _ _ (hann _ _ _ _ _ h1) hrest⟩

/-- The method `annotate_fn` returns true only on matching shapes. -/
theorem annotate_fn_true (To_str : TypeKind → String) (ann : Annotator)
    (hann : TrueMatches To_str ann) (hkeep : KeepsBound ann) (f : FnIns) (p k : TypeKind)
    (f1 : FnIns) (l : List Diag) (h : annotate_fn ann f p k = .ok ((true, f1), l)) :
    Matches To_str f.generic_names (some p) (some k) := by
  unfold annotate_fn at h
  split at h
  · simp at h
  · rename_i pf hp
    split at h
    · simp at h
    · rename_i kf hk
      split at h
      · simp at h
      · rename_i hlen
        split at h
        · simp at h
        · rename_i hvoid
          have hlen1 : pf.Params.length = kf.Params.length := by simpa using hlen
          have hvoid1 : pf.Decl.Is_void = kf.Decl.Is_void := by simpa using hvoid
          rw [eq_fnc_of_Fnc p pf hp, eq_fnc_of_Fnc k kf hk]
          split at h
          · simp at h
          · rename_i ok f2 l1 h1
            have hkeep1 := annotate_fn_loop_keeps ann hkeep _ _ _ _ _ _ h1
            split at h
            · rename_i hnv
              split at h
              · simp at h
              · rename_i b f3 l2 h2
                simp only [Except.ok.injEq, Prod.mk.injEq, Bool.and_eq_true] at h
                obtain ⟨⟨⟨hb, hok⟩, _⟩, _⟩ := h
                subst hb; subst hok
                obtain ⟨_, hps⟩ := annotate_fn_loop_true To_str ann hann hkeep _ _ _ _ _ _ h1
                have hres := hann _ _ _ _ _ h2
                rw [generic_names_of_keeps hkeep1] at hres
                exact Matches.fnc _ _ hlen1 hvoid1 hps (fun _ => hres)
            · rename_i hnv
              simp only [Except.ok.injEq, Prod.mk.injEq] at h
              obtain ⟨⟨hok, _⟩, _⟩ := h
              subst hok
              obtain ⟨_, hps⟩ := annotate_fn_loop_true To_str ann hann hkeep _ _ _ _ _ _ h1
              refine Matches.fnc _ _ hlen1 hvoid1 hps (fun hv => ?_)
              rw [hv] at hnv
              simp at hnv

/-- A run of `annotate_kind` returns true only on matching shapes. -/
theorem annotate_kind_true (To_str : TypeKind → String) (fuel : Nat) :
    TrueMatches To_str (annotate_kind To_str fuel) := by
  induction fuel with
  | zero => intro f p k f1 l h; simp [annotate_kind] at h
  | succ n ih =>
    intro f p k f1 l h
    have hkeep := annotate_kind_keeps To_str n
    simp only [annotate_kind] at h
    split at h
    · simp at h
    · rename_i pp
      split at h
      · simp at h
      · rename_i f2 l1 h1
        obtain ⟨hmem, kk, hkk⟩ := annotate_any_loop_true _ _ _ _ _ _ _ _ h1
        subst hkk
        exact Matches.leaf _ _ hmem
      · rename_i f2 l1 h1
        have hk1 : keeps_bound f f2 := annotate_any_loop_keeps _ _ _ _ _ _ _ _ h1
        split at h
        · simp at h
        · rename_i kk
          split at h
          · simp at h
          · rename_i x l2 h2
            simp only [Except.ok.injEq, Prod.mk.injEq] at h
            have hx : x = (true, f1) := h.1
            subst hx
            rw [← generic_names_of_keeps hk1]
            split at h2
            · obtain ⟨hmem, _⟩ := annotate_any_loop_true _ _ _ _ _ _ _ _ h2
              exact Matches.leaf _ _ hmem
            · split at h2
              · exact annotate_slc_true To_str _ ih _ _ _ _ _ h2
              · split at h2
                · exact annotate_map_true To_str _ ih hkeep _ _ _ _ _ h2
                · split at h2
                  · exact annotate_fn_true To_str _ ih hkeep _ _ _ _ _ h2
                  · split at h2
                    · exact annotate_ptr_true To_str _ ih _ _ _ _ _ h2
                    · simp at h2

/-- C38: `annotate` returns true only if the parameter shape matches the
argument type structurally (slice with slice, map with map, pointer with pointer,
function with function of equal arity and void-ness), down to nodes that render
as the name of one of the callee's generic parameters; and for a parameter whose
type renders as no generic name, such as the concrete `int`, and an argument of
a primitive type, `annotate` returns false and binds nothing. -/
theorem annotate_true_matches (To_str : TypeKind → String) (fuel : Nat) (f : FnIns)
    (p : ParamIns) (a : Data) :
    (∀ f1 l, annotate To_str fuel f p a = .ok ((true, f1), l) →
      Matches To_str f.generic_names p.Kind (some a.Kind)) ∧
    (∀ pk, p.Kind = some pk → To_str pk ∉ f.generic_names → a.Kind.Prim.isSome = true →
      annotate To_str (fuel + 1) f p a = .ok ((false, f), [])) := by
  refine ⟨fun f1 l h => annotate_kind_true To_str fuel f p.Kind (some a.Kind) f1 l h, ?_⟩
  intro pk hp hname hprim
  unfold annotate
  rw [hp]
  simp only [annotate_kind, annotate_any, annotate_prim,
    annotate_any_loop_no_name To_str f (To_str pk) (some a.Kind) f.Decl.Generics 0 hname, hprim,
    if_true, List.append_nil]

/-- C38 at concrete inputs: the run that binds `U` of `g[T, U]` to a string
was on a shape that is a generic name; and for `fn add(a int, ...)`, which has no
generic parameter, the parameter `a int` and an `int` argument give false. -/
theorem annotate_true_matches_witness :
    Matches sample_str (open_ins.set_Generics [some (TypeKind.prim "int"), none]).generic_names
      (ParamIns.mk none (some (TypeKind.prim "U"))).Kind (some data_str.Kind) ∧
    annotate sample_str 1 (FnIns.mk add_decl [] [] none false false) (int_param "a") data_int
      = .ok ((false, FnIns.mk add_decl [] [] none false false), []) :=
  ⟨(annotate_true_matches sample_str 1
      (open_ins.set_Generics [some (TypeKind.prim "int"), none])
      (ParamIns.mk none (some (TypeKind.prim "U"))) data_str).1 _ _ rfl,
    (annotate_true_matches sample_str 0 (FnIns.mk add_decl [] [] none false false)
      (int_param "a") data_int).2 (TypeKind.prim "int") rfl (by decide) rfl⟩

/-! ### Inference and binding at their edges -/

/-- C37: inference is not atomic per argument. For the shape `[K:K]` of
`fn keys[K](m [K:K])`, with the slot of `K` unbound, and an argument of the type
map from `int` to `str`, `annotate` returns false and leaves the slot bound to
`int`. -/
theorem annotate_map_binds_then_fails :
    keys_ins.Generics = [none] ∧
    annotate sample_str 2 keys_ins param_m_ins data_map_int_str
      = .ok ((false, keys_ins.set_Generics [some (TypeKind.prim "int")]), []) :=
  ⟨rfl, rfl⟩

/-- C34 (evaluation at the failing input): `fn join(a int, b int, values ...int)`
called as `join(1)`: the check returns false after binding `a`, and pushes no
diagnostic at all, so none naming `b`. -/
theorem check_variadic_deficit_silent :
    FnCallArgChecker.check sample_host 1 ⟨[lit "1"], false, none⟩ ⟨join_ins, []⟩
      = .ok ((false, ⟨join_ins, [ExprModel.other 1]⟩), []) := rfl

/-- C39 (evaluation at the failing input): for `fn sum(values ...int)`, the call
`sum(1, xs..., 2)` makes `push_variadic` panic on the absent slice model at the
argument after the spread value, and so does the whole check of `sum(xs..., 1)`. -/
theorem push_variadic_nil_model :
    push_variadic sample_host 1 ⟨[lit "1", spread_xs, lit "2"], false, none⟩ ⟨sum_ins, []⟩
      param_values_ins 0 = .error Fault.nil_deref ∧
    FnCallArgChecker.check sample_host 1 ⟨[spread_xs, lit "1"], false, none⟩ ⟨sum_ins, []⟩
      = .error Fault.nil_deref :=
  ⟨rfl, rfl⟩

/-! ### The binder and the outcome of the checks -/

/-- Without dynamic annotation `check_arg` returns true, whatever the two checks
log. -/
theorem check_arg_plain (h : Host) (fuel : Nat) (fc : FnCallArgChecker) (st : CallState)
    (p : ParamIns) (arg : Data) (d0 : Param) (hd : fc.dynamic_annotation = false)
    (hdecl : p.Decl = some d0) :
    check_arg h fuel fc st p arg
      = .ok ((true, st), h.check_validity_for_init_expr d0.Mutable p.Kind arg
          ++ h.check_assign_type p.Kind arg false) := by
  simp only [check_arg, written_param, hd, hdecl, Bool.false_eq_true, if_false,
    List.nil_append]

/-- Without dynamic annotation `push` returns true for an argument that
evaluates. -/
theorem push_plain (h : Host) (fuel : Nat) (fc : FnCallArgChecker) (st : CallState)
    (p : ParamIns) (arg : Expr) (d0 : Param) (hd : fc.dynamic_annotation = false)
    (hdecl : p.Decl = some d0) (heval : (h.eval_expr_kind p.Kind arg.Kind).1.isSome = true) :
    ∃ st1 l, push h fuel fc st p arg = .ok ((true, st1), l) := by
  obtain ⟨d, hdd⟩ := Option.isSome_iff_exists.mp heval
  refine ⟨⟨st.f, st.arg_models ++ [d.Model]⟩, (h.eval_expr_kind p.Kind arg.Kind).2 ++
    (h.check_validity_for_init_expr d0.Mutable p.Kind d ++ h.check_assign_type p.Kind d false), ?_⟩
  simp only [push, hd, Bool.false_eq_true, if_false, hdd,
    check_arg_plain h fuel fc _ p d d0 hd hdecl]

/-- Without dynamic annotation `push_variadic` returns true when a single
argument remains and it evaluates. -/
theorem push_variadic_single (h : Host) (fuel : Nat) (fc : FnCallArgChecker) (st : CallState)
    (p : ParamIns) (i : Nat) (arg : Expr) (d0 : Param) (hd : fc.dynamic_annotation = false)
    (hdecl : p.Decl = some d0) (hdrop : fc.args.drop i = [arg])
    (heval : (h.eval_expr_kind p.Kind arg.Kind).1.isSome = true) :
    ∃ st1 l, push_variadic h fuel fc st p i = .ok ((true, st1), l) := by
  obtain ⟨d, hdd⟩ := Option.isSome_iff_exists.mp heval
  have hlen : fc.args.length = i + 1 := by
    have h1 := congrArg List.length hdrop
    simp only [List.length_drop, List.length_singleton] at h1
    omega
  have hmore : decide (i + 1 < fc.args.length) = false := by
    rw [hlen]; simp
  unfold push_variadic
  rw [hdrop, hmore]
  simp only [push_variadic_loop, hdd]
  by_cases hv : d.Variadiced = true
  · simp only [hv, if_true]
    cases hm : d.Model with
    | slice k elems =>
      simp only [check_arg_plain h fuel fc _ p _ d0 hd hdecl, Bool.and_true, Bool.and_false,
        Bool.false_eq_true, if_false, List.append_nil, Bool.true_and]
      exact ⟨_, _, rfl⟩
    | explicit_deref e =>
      simp only [check_arg_plain h fuel fc _ p _ d0 hd hdecl, Bool.and_true, Bool.and_false,
        Bool.false_eq_true, if_false, List.append_nil, Bool.true_and]
      exact ⟨_, _, rfl⟩
    | other n =>
      simp only [check_arg_plain h fuel fc _ p _ d0 hd hdecl, Bool.and_true, Bool.and_false,
        Bool.false_eq_true, if_false, List.append_nil, Bool.true_and]
      exact ⟨_, _, rfl⟩
  · simp only [hv, Bool.false_eq_true, if_false,
      check_arg_plain h fuel fc _ p _ d0 hd hdecl, Bool.and_true, Bool.false_and,
      List.append_nil]
    exact ⟨_, _, rfl⟩

/-- Without dynamic annotation the loop of `check_args` keeps `ok` true on a
call that can be bound. -/
theorem check_args_loop_bindable (h : Host) (fuel : Nat) (fc : FnCallArgChecker)
    (hd : fc.dynamic_annotation = false) (rest : List ParamIns) (i : Nat) (st : CallState)
    (hb : bindable h rest (fc.args.drop i)) :
    ∃ st1 l, check_args_loop h fuel fc (rest.map some) i true st = .ok ((true, st1), l) := by
  induction rest generalizing i st with
  | nil => exact ⟨st, [], rfl⟩
  | cons p ps ih =>
    cases hdrop : fc.args.drop i with
    | nil => rw [hdrop] at hb; exact absurd hb (by simp [bindable])
    | cons arg args =>
      rw [hdrop] at hb
      obtain ⟨⟨d0, hdecl, hself, hvar⟩, heval, hrest⟩ := hb
      have hlt : i < fc.args.length := by
        have h1 := congrArg List.length hdrop
        simp only [List.length_drop, List.length_cons] at h1
        omega
      have hget : fc.args.get? i = some arg := by
        have h1 : (fc.args.drop i)[0]? = some arg := by rw [hdrop]; simp
        rw [List.getElem?_drop] at h1
        simpa using h1
      have hnext : fc.args.drop (i + 1) = args := by
        have h1 : (fc.args.drop i).drop 1 = args := by rw [hdrop]; rfl
        rw [List.drop_drop] at h1
        exact h1
      simp only [List.map_cons, check_args_loop, hdecl, hself, Bool.false_eq_true, if_false]
      by_cases hv : d0.Variadic = true
      · have hps : ps = [] := hvar hv
        subst hps
        have hargs : args = [] := by
          cases args with
          | nil => rfl
          | cons a t => exact absurd hrest (by simp [bindable])
        subst hargs
        obtain ⟨st1, l, hr⟩ := push_variadic_single h fuel fc st p i arg d0 hd hdecl hdrop heval
        simp only [hv, if_true, hr, Bool.and_true]
        exact ⟨_, _, rfl⟩
      · obtain ⟨st1, l, hr⟩ := push_plain h fuel fc st p arg d0 hd hdecl heval
        obtain ⟨st2, l2, hr2⟩ := ih (i + 1) st1 (by rw [hnext]; exact hrest)
        simp only [hv, Bool.false_eq_true, if_false, Nat.not_le.mpr hlt, hget, hr,
          Bool.and_true, hr2]
        exact ⟨_, _, rfl⟩

/-- A call that can be bound has as many arguments as parameters. -/
theorem bindable_length (h : Host) (ps : List ParamIns) (args : List Expr)
    (hb : bindable h ps args) : args.length = ps.length := by
  induction ps generalizing args with
  | nil =>
    cases args with
    | nil => rfl
    | cons a t => exact absurd hb (by simp [bindable])
  | cons p ps ih =>
    cases args with
    | nil => exact absurd hb (by simp [bindable])
    | cons a t =>
      simp only [List.length_cons]
      rw [ih t hb.2.2]

/-- C40: the result of `check_arg` does not depend on what the
initialisation-validity check or the Assignment Type Checker find: with dynamic
annotation inactive it returns true for every parameter and every evaluated
argument, whatever the two checks log; so for a call with matching arity whose
arguments all evaluate, the Call Argument Binder's `check` returns true. -/
theorem check_ignores_checks (h : Host) (fuel : Nat) (fc : FnCallArgChecker) (st : CallState)
    (hd : fc.dynamic_annotation = false) :
    (∀ p arg d0, p.Decl = some d0 →
      check_arg h fuel fc st p arg
        = .ok ((true, st), h.check_validity_for_init_expr d0.Mutable p.Kind arg
            ++ h.check_assign_type p.Kind arg false)) ∧
    (∀ ps, get_params st = .ok (ps.map some) → bindable h ps fc.args →
      ∃ st1 l, FnCallArgChecker.check h fuel fc st = .ok ((true, st1), l)) := by
  refine ⟨fun p arg d0 hdecl => check_arg_plain h fuel fc st p arg d0 hd hdecl, ?_⟩
  intro ps hp hb
  have hlen := bindable_length h ps fc.args hb
  have hdecl : ∀ q ∈ ps, q.Decl ≠ none := by
    intro q hq
    clear hp hlen
    induction ps generalizing fc with
    | nil => simp at hq
    | cons p rest ih =>
      cases hargs : fc.args with
      | nil => rw [hargs] at hb; exact absurd hb (by simp [bindable])
      | cons a t =>
        rw [hargs] at hb
        obtain ⟨⟨d0, hd0, _, _⟩, _, hrest⟩ := hb
        rcases List.mem_cons.mp hq with h1 | h1
        · rw [h1, hd0]; simp
        · exact ih ⟨t, fc.dynamic_annotation, fc.eval_hint⟩ hd hrest h1
  have hstrip : ∀ q d, ps.head? = some q → q.Decl = some d → d.Is_self = false := by
    intro q d hq hqd
    cases ps with
    | nil => simp at hq
    | cons p rest =>
      simp only [List.head?_cons, Option.some.injEq] at hq
      subst hq
      cases hargs : fc.args with
      | nil => rw [hargs] at hb; exact absurd hb (by simp [bindable])
      | cons a t =>
        rw [hargs] at hb
        obtain ⟨⟨d0, hd0, hs, _⟩, _, _⟩ := hb
        rw [hd0] at hqd
        simp only [Option.some.injEq] at hqd
        rw [← hqd]; exact hs
  have hcounts : check_counts fc (ps.map some) = .ok (true, []) := by
    rw [check_counts_eq fc ps hdecl hstrip, if_pos hlen]
  obtain ⟨st1, l, hr⟩ := check_args_loop_bindable h fuel fc hd ps 0 st (by simpa using hb)
  refine ⟨st1, [] ++ l, ?_⟩
  simp only [FnCallArgChecker.check, hp, hcounts, check_args, hr, hd, Bool.and_false,
    Bool.false_eq_true, if_false]

/-- C40 at a concrete input: `fn show(s str)` called as `show(1)`, under a host
whose assignment check is the Assignment Type Checker: the check returns true,
and the `int` argument is reported as incompatible with `str`. -/
theorem check_ignores_checks_witness :
    (∃ st1 l, FnCallArgChecker.check strict_host 1 ⟨[lit "1"], false, none⟩ ⟨show_ins, []⟩
      = .ok ((true, st1), l)) ∧
    FnCallArgChecker.check strict_host 1 ⟨[lit "1"], false, none⟩ ⟨show_ins, []⟩
      = .ok ((true, ⟨show_ins, [ExprModel.other 1]⟩),
          [⟨"incompatible_types", ["str", "int"]⟩]) :=
  ⟨(check_ignores_checks strict_host 1 ⟨[lit "1"], false, none⟩ ⟨show_ins, []⟩ rfl).2
      [str_param] rfl ⟨⟨_, rfl, rfl, fun _ => rfl⟩, rfl, trivial⟩,
    rfl⟩

/-! ### Termination of the compatibility check -/

/-- The element of a reference is smaller than the reference. -/
theorem sizeOf_Ref (t e : TypeKind) (h : t.Ref = some e) : sizeOf t = 1 + sizeOf e := by
  cases t <;> simp_all [TypeKind.Ref]

/-- The element of a pointer is smaller than the pointer. -/
theorem sizeOf_Ptr (t : TypeKind) (e : Option TypeKind) (h : t.Ptr = some e) :
    sizeOf t = 1 + sizeOf e := by
  cases t <;> simp_all [TypeKind.Ptr]

/-- The element of a slice is smaller than the slice. -/
theorem sizeOf_Slc (t e : TypeKind) (h : t.Slc = some e) : sizeOf t = 1 + sizeOf e := by
  cases t <;> simp_all [TypeKind.Slc]

/-- The element of an array is smaller than the array. -/
theorem sizeOf_Arr (t e : TypeKind) (n : Int) (h : t.Arr = some (n, e)) :
    sizeOf e < sizeOf t := by
  cases t <;> simp_all [TypeKind.Arr]

/-- Key and value of a map are smaller than the map. -/
theorem sizeOf_Map (t k v : TypeKind) (h : t.Map = some (k, v)) :
    sizeOf t = 1 + sizeOf k + sizeOf v := by
  cases t <;> simp_all [TypeKind.Map]

/-- The generic arguments of a struct instance are smaller than the struct
type. -/
theorem sizeOf_Strct (t : TypeKind) (s : StructIns) (h : t.Strct = some s) :
    sizeOf s.Generics < sizeOf t := by
  cases t <;> simp_all [TypeKind.Strct]
  cases s
  simp [StructIns.Generics]
  omega

/-- Parameters and result of a function instance are smaller than the function
type. -/
theorem sizeOf_Fnc (t : TypeKind) (f : FnIns) (h : t.Fnc = some f) :
    sizeOf f.Result < sizeOf t := by
  cases t <;> simp_all [TypeKind.Fnc]
  cases f
  simp [FnIns.Result]
  omega

/-- The search for a reference receiver never runs out of fuel: it has none to
spend. -/
theorem trait_receiver_fuel (ms : List Fn) :
    trait_has_reference_receiver_loop ms ≠ .error Fault.out_of_fuel := by
  induction ms with
  | nil => simp [trait_has_reference_receiver_loop]
  | cons m rest ih =>
    cases hp : m.Params with
    | nil => simp [trait_has_reference_receiver_loop, hp]
    | cons p ps =>
      simp only [trait_has_reference_receiver_loop, hp]
      split
      · simp
      · exact ih

/-- The method `check_trait` never runs out of fuel: it reaches no recursive
entry. -/
theorem check_trait_fuel (dest src : TypeKind) :
    check_trait dest src ≠ .error Fault.out_of_fuel := by
  have hstruct : ∀ trt ref s, check_trait_struct trt ref s ≠ .error Fault.out_of_fuel := by
    intro trt ref s hc
    unfold check_trait_struct at hc
    split at hc
    · simp at hc
    · split at hc
      · rename_i e he
        simp only [Except.error.injEq] at hc
        subst hc
        exact trait_receiver_fuel _ he
      · split at hc <;> simp at hc
  intro hc
  unfold check_trait at hc
  split at hc
  · simp at hc
  · split at hc
    · simp at hc
    · split at hc
      · split at hc
        · simp at hc
        · exact hstruct _ _ _ hc
      · split at hc
        · exact hstruct _ _ _ hc
        · split at hc <;> simp at hc

/-- The method `check_ref` does not run out of fuel when its recursive entry
does not on smaller pairs. -/
theorem check_ref_fuel (env : Env) (chk : Checker) (bound : Nat) (hchk : FuelSafe chk bound)
    (deref : Bool) (dest src : TypeKind) (h : sizeOf dest + sizeOf src + 2 ≤ bound) :
    check_ref env chk deref dest src ≠ .error Fault.out_of_fuel := by
  intro hc
  unfold check_ref at hc
  split at hc
  · simp at hc
  · split at hc
    · simp at hc
    · split at hc
      · split at hc
        · simp at hc
        · rename_i e he
          have hs := sizeOf_Ref dest e he
          exact hchk _ _ _ (by simp; omega) hc
      · rename_i e he
        have hs := sizeOf_Ref src e he
        exact hchk _ _ _ (by simp; omega) hc

/-- The method `check_ptr` does not run out of fuel when its recursive entry
does not on smaller pairs. -/
theorem check_ptr_fuel (chk : Checker) (bound : Nat) (hchk : FuelSafe chk bound)
    (dest src : TypeKind) (h : sizeOf dest + sizeOf src + 2 ≤ bound) :
    check_ptr chk dest src ≠ .error Fault.out_of_fuel := by
  intro hc
  unfold check_ptr at hc
  split at hc
  · simp at hc
  · split at hc
    · simp at hc
    · rename_i sp hsp
      split at hc
      · simp at hc
      · rename_i dp hdp
        split at hc
        · simp at hc
        · have h1 := sizeOf_Ptr dest dp hdp
          have h2 := sizeOf_Ptr src sp hsp
          exact hchk _ _ _ (by omega) hc

/-- The method `check_slc` does not run out of fuel when its recursive entry
does not on smaller pairs. -/
theorem check_slc_fuel (chk : Checker) (bound : Nat) (hchk : FuelSafe chk bound)
    (dest src : TypeKind) (h : sizeOf dest + sizeOf src + 2 ≤ bound) :
    check_slc chk dest src ≠ .error Fault.out_of_fuel := by
  intro hc
  unfold check_slc at hc
  split at hc
  · simp at hc
  · split at hc
    · simp at hc
    · rename_i se hse
      split at hc
      · simp at hc
      · rename_i de hde
        have h1 := sizeOf_Slc dest de hde
        have h2 := sizeOf_Slc src se hse
        exact hchk _ _ _ (by simp; omega) hc

/-- The method `check_arr` does not run out of fuel when its recursive entry
does not on smaller pairs. -/
theorem check_arr_fuel (chk : Checker) (bound : Nat) (hchk : FuelSafe chk bound)
    (dest src : TypeKind) (h : sizeOf dest + sizeOf src + 2 ≤ bound) :
    check_arr chk dest src ≠ .error Fault.out_of_fuel := by
  intro hc
  unfold check_arr at hc
  split at hc
  · simp at hc
  · rename_i sn se hse
    split at hc
    · simp at hc
    · rename_i dn de hde
      split at hc
      · simp at hc
      · have h1 := sizeOf_Arr dest de dn hde
        have h2 := sizeOf_Arr src se sn hse
        exact hchk _ _ _ (by simp; omega) hc

/-- The method `check_map` does not run out of fuel when its recursive entry
does not on smaller pairs. -/
theorem check_map_fuel (chk : Checker) (bound : Nat) (hchk : FuelSafe chk bound)
    (dest src : TypeKind) (h : sizeOf dest + sizeOf src + 2 ≤ bound) :
    TypeCompatibilityChecker.check_map chk dest src ≠ .error Fault.out_of_fuel := by
  intro hc
  unfold TypeCompatibilityChecker.check_map at hc
  split at hc
  · simp at hc
  · split at hc
    · simp at hc
    · rename_i sk sv hs
      split at hc
      · simp at hc
      · rename_i dk dv hd
        have h1 := sizeOf_Map dest dk dv hd
        have h2 := sizeOf_Map src sk sv hs
        split at hc
        · rename_i e he
          simp only [Except.error.injEq] at hc
          subst hc
          exact hchk _ _ _ (by simp; omega) he
        · simp at hc
        · split at hc
          · rename_i e he
            simp only [Except.error.injEq] at hc
            subst hc
            exact hchk _ _ _ (by simp; omega) he
          · simp at hc

/-- The loop of `check_struct` does not run out of fuel when its recursive
entry does not on smaller pairs. -/
theorem check_struct_loop_fuel (chk : Checker) (bound : Nat) (hchk : FuelSafe chk bound)
    (sg dg : List TypeKind) (i : Nat) (h : sizeOf dg + sizeOf sg + 2 ≤ bound) :
    check_struct_loop chk sg dg i ≠ .error Fault.out_of_fuel := by
  induction dg generalizing i with
  | nil => simp [check_struct_loop]
  | cons g rest ih =>
    intro hc
    simp only [check_struct_loop] at hc
    have hcons : sizeOf (g :: rest) = 1 + sizeOf g + sizeOf rest := by simp
    split at hc
    · simp at hc
    · rename_i x hx
      have hmem : x ∈ sg := List.get?_mem hx
      have hlt := List.sizeOf_lt_of_mem hmem
      split at hc
      · rename_i e he
        simp only [Except.error.injEq] at hc
        subst hc
        exact hchk _ _ _ (by simp; omega) he
      · simp at hc
      · split at hc
        · rename_i e he
          simp only [Except.error.injEq] at hc
          subst hc
          exact ih (i + 1) (by omega) he
        · simp at hc

/-- The method `check_struct` does not run out of fuel when its recursive entry
does not on smaller pairs. -/
theorem check_struct_fuel (chk : Checker) (bound : Nat) (hchk : FuelSafe chk bound)
    (dest src : TypeKind) (h : sizeOf dest + sizeOf src + 2 ≤ bound) :
    check_struct chk dest src ≠ .error Fault.out_of_fuel := by
  intro hc
  unfold check_struct at hc
  split at hc
  · simp at hc
  · rename_i s hs
    split at hc
    · simp at hc
    · rename_i d hd
      split at hc
      · simp at hc
      · split at hc
        · simp at hc
        · have h1 := sizeOf_Strct dest d hd
          have h2 := sizeOf_Strct src s hs
          exact check_struct_loop_fuel chk bound hchk _ _ 0 (by omega) hc

/-- The loop of `check_fn` never runs out of fuel: it reaches no recursive
entry. -/
theorem check_fn_loop_fuel (chk : Checker) (sp dp : List (Option ParamIns)) :
    check_fn_loop chk sp dp ≠ .error Fault.out_of_fuel := by
  cases sp with
  | nil => simp [check_fn_loop]
  | cons s srest =>
    cases dp with
    | nil => simp [check_fn_loop]
    | cons d drest =>
      cases s <;> cases d <;> simp [check_fn_loop]

/-- The method `check_fn` does not run out of fuel when its recursive entry does
not on smaller pairs. -/
theorem check_fn_fuel (chk : Checker) (bound : Nat) (hchk : FuelSafe chk bound)
    (dest src : TypeKind) (h : sizeOf dest + sizeOf src + 2 ≤ bound) :
    check_fn chk dest src ≠ .error Fault.out_of_fuel := by
  intro hc
  unfold check_fn at hc
  split at hc
  · simp at hc
  · split at hc
    · simp at hc
    · rename_i sf hsf
      split at hc
      · simp at hc
      · rename_i df hdf
        have h1 := sizeOf_Fnc dest df hdf
        have h2 := sizeOf_Fnc src sf hsf
        split at hc
        · simp at hc
        · split at hc
          · simp at hc
          · split at hc
            · rename_i e he
              simp only [Except.error.injEq] at hc
              subst hc
              exact check_fn_loop_fuel chk _ _ he
            · simp at hc
            · split at hc
              · split at hc
                · rename_i e he
                  simp only [Except.error.injEq] at hc
                  subst hc
                  exact hchk _ _ _ (by omega) he
                · simp at hc
              · simp at hc

/-- With fuel above the combined size of the two types, the compatibility check
does not run out of fuel. -/
theorem check_fuel (env : Env) (fuel : Nat) :
    FuelSafe (TypeCompatibilityChecker.check env fuel) fuel := by
  induction fuel with
  | zero => intro deref d s h; omega
  | succ n ih =>
    intro deref dest src h hc
    simp only [TypeCompatibilityChecker.check] at hc
    cases src with
    | none => simp at hc
    | some src =>
      cases dest with
      | none => simp at hc
      | some dest =>
        simp only at hc
        have hsz : sizeOf dest + sizeOf src + 2 ≤ n := by
          simp at h; omega
        by_cases h0 : dest.Ref.isSome = true
        · rw [if_pos h0] at hc
          exact check_ref_fuel env _ n ih _ _ _ hsz hc
        · rw [if_neg h0] at hc
          have hstrip : sizeOf (match src.Ref with | some e => e | none => src) ≤ sizeOf src := by
            cases hr : src.Ref with
            | none => simp
            | some e => have := sizeOf_Ref src e hr; simp; omega
          generalize (match src.Ref with | some e => e | none => src) = s at hc hstrip
          have hsz1 : sizeOf dest + sizeOf s + 2 ≤ n := by omega
          by_cases h1 : dest.Trt.isSome = true
          · rw [if_pos h1] at hc
            exact check_trait_fuel _ _ hc
          · rw [if_neg h1] at hc
            by_cases h2 : dest.Ptr.isSome = true
            · rw [if_pos h2] at hc; exact check_ptr_fuel _ n ih _ _ hsz1 hc
            · rw [if_neg h2] at hc
              by_cases h3 : dest.Slc.isSome = true
              · rw [if_pos h3] at hc; exact check_slc_fuel _ n ih _ _ hsz1 hc
              · rw [if_neg h3] at hc
                by_cases h4 : dest.Arr.isSome = true
                · rw [if_pos h4] at hc; exact check_arr_fuel _ n ih _ _ hsz1 hc
                · rw [if_neg h4] at hc
                  by_cases h5 : dest.Map.isSome = true
                  · rw [if_pos h5] at hc; exact check_map_fuel _ n ih _ _ hsz1 hc
                  · rw [if_neg h5] at hc
                    by_cases h6 : dest.Enm.isSome = true
                    · rw [if_pos h6] at hc
                      unfold check_enum at hc
                      split at hc
                      · simp at hc
                      · split at hc <;> simp at hc
                    · rw [if_neg h6] at hc
                      by_cases h7 : dest.Strct.isSome = true
                      · rw [if_pos h7] at hc; exact check_struct_fuel _ n ih _ _ hsz1 hc
                      · rw [if_neg h7] at hc
                        by_cases h8 : dest.Fnc.isSome = true
                        · rw [if_pos h8] at hc; exact check_fn_fuel _ n ih _ _ hsz1 hc
                        · rw [if_neg h8] at hc
                          split at hc <;> simp at hc

/-- C35: the compatibility check terminates on every pair of resolved types,
with the deref flag on or off: with any fuel above the combined size of `dest`
and `src` it does not run out of fuel, because every recursive entry is on a pair
of strictly smaller combined size. -/
theorem check_terminates (env : Env) (deref : Bool) (dest src : Option TypeKind) (n : Nat) :
    TypeCompatibilityChecker.check env (sizeOf dest + sizeOf src + 1 + n) deref dest src
      ≠ .error Fault.out_of_fuel :=
  check_fuel env _ deref dest src (by omega)

/-! ### Safety of the compatibility check on well-formed types -/

/-- A run that returns stops in no way. -/
theorem only_fuel_ok {α : Type} (x : α) : only_fuel (Except.ok x : Except Fault α) := by
  intro e h; simp at h

/-- The type whose reference payload is `e` is the reference to `e`. -/
theorem eq_ref_of_Ref (t e : TypeKind) (h : t.Ref = some e) : t = TypeKind.ref e := by
  cases t <;> simp_all [TypeKind.Ref]

/-- The type whose array payload is `(n, e)` is the array of `n` times `e`. -/
theorem eq_arr_of_Arr (t e : TypeKind) (n : Int) (h : t.Arr = some (n, e)) :
    t = TypeKind.arr n e := by
  cases t <;> simp_all [TypeKind.Arr]

/-- The type whose struct payload is `s` is the struct type of `s`. -/
theorem eq_strct_of_Strct (t : TypeKind) (s : StructIns) (h : t.Strct = some s) :
    t = TypeKind.strct s := by
  cases t <;> simp_all [TypeKind.Strct]

/-- The type whose trait payload is `trt` is that trait type. -/
theorem eq_trt_of_Trt (t : TypeKind) (trt : Trait) (h : t.Trt = some trt) :
    t = TypeKind.trt trt := by
  cases t <;> simp_all [TypeKind.Trt]

/-- The search for a reference receiver returns when every method declares a
parameter. -/
theorem trait_receiver_safe (ms : List Fn) (h : ∀ m ∈ ms, m.Params ≠ []) :
    only_fuel (trait_has_reference_receiver_loop ms) := by
  induction ms with
  | nil => exact only_fuel_ok _
  | cons m rest ih =>
    cases hp : m.Params with
    | nil => exact absurd hp (h m (List.mem_cons_self _ _))
    | cons p ps =>
      simp only [trait_has_reference_receiver_loop, hp]
      split
      · exact only_fuel_ok _
      · exact ih (fun x hx => h x (List.mem_cons_of_mem _ hx))

/-- The method `check_trait` does not panic on a well-formed trait. -/
theorem check_trait_safe (arity : Nat → Nat) (trt : Trait) (src : TypeKind)
    (hd : WellFormed arity (TypeKind.trt trt)) : only_fuel (check_trait (TypeKind.trt trt) src) := by
  have hm : ∀ m ∈ trt.Methods, m.Params ≠ [] := by cases hd; assumption
  have hstruct : ∀ ref s, only_fuel (check_trait_struct trt ref s) := by
    intro ref s e hc
    unfold check_trait_struct at hc
    split at hc
    · simp at hc
    · split at hc
      · rename_i e0 he
        simp only [Except.error.injEq] at hc
        subst hc
        exact trait_receiver_safe _ hm _ he
      · split at hc <;> simp at hc
  intro e hc
  unfold check_trait at hc
  simp only [TypeKind.Trt] at hc
  split at hc
  · simp at hc
  · split at hc
    · split at hc
      · simp at hc
      · exact hstruct _ _ _ hc
    · split at hc
      · exact hstruct _ _ _ hc
      · split at hc <;> simp at hc

/-- The method `check_ref` does not panic when its recursive entry does not. -/
theorem check_ref_safe (arity : Nat → Nat) (env : Env) (chk : Checker)
    (hchk : SafeChecker arity chk) (deref : Bool) (de src : TypeKind)
    (hd : WellFormed arity (TypeKind.ref de)) (hs : WellFormed arity src) :
    only_fuel (check_ref env chk deref (TypeKind.ref de) src) := by
  have hde : WellFormed arity de := by cases hd; assumption
  intro e hc
  unfold check_ref at hc
  simp only [TypeKind.Ref] at hc
  split at hc
  · simp at hc
  · split at hc
    · simp at hc
    · split at hc
      · exact hchk _ _ _ hde (fun x hx => by cases hx; exact hs) e hc
      · rename_i se hse
        have hsrc := eq_ref_of_Ref src se hse
        subst hsrc
        have hse1 : WellFormed arity se := by cases hs; assumption
        exact hchk _ _ _ hd (fun x hx => by cases hx; exact hse1) e hc

/-- The method `check_ptr` does not panic when its recursive entry does not. -/
theorem check_ptr_safe (arity : Nat → Nat) (chk : Checker) (hchk : SafeChecker arity chk)
    (dp : Option TypeKind) (src : TypeKind)
    (hd : WellFormed arity (TypeKind.ptr dp)) (hs : WellFormed arity src) :
    only_fuel (check_ptr chk (TypeKind.ptr dp) src) := by
  intro e hc
  unfold check_ptr at hc
  simp only [TypeKind.Ptr] at hc
  split at hc
  · simp at hc
  · split at hc
    · simp at hc
    · rename_i sp hsp
      have hsrc := eq_ptr_of_Ptr src sp hsp
      subst hsrc
      split at hc
      · simp at hc
      · cases dp with
        | none => simp [ Ptr_Is_unsafe] at *
        | some d =>
          have hd1 : WellFormed arity d := by cases hd; assumption
          refine hchk _ _ _ hd1 ?_ e hc
          intro x hx
          subst hx
          cases hs; assumption

/-- The method `check_slc` does not panic when its recursive entry does not. -/
theorem check_slc_safe (arity : Nat → Nat) (chk : Checker) (hchk : SafeChecker arity chk)
    (de src : TypeKind) (hd : WellFormed arity (TypeKind.slc de)) (hs : WellFormed arity src) :
    only_fuel (check_slc chk (TypeKind.slc de) src) := by
  have hde : WellFormed arity de := by cases hd; assumption
  intro e hc
  unfold check_slc at hc
  simp only [TypeKind.Slc] at hc
  split at hc
  · simp at hc
  · split at hc
    · simp at hc
    · rename_i se hse
      have hsrc := eq_slc_of_Slc src se hse
      subst hsrc
      have hse1 : WellFormed arity se := by cases hs; assumption
      exact hchk _ _ _ hde (fun x hx => by cases hx; exact hse1) e hc

/-- The method `check_arr` does not panic when its recursive entry does not. -/
theorem check_arr_safe (arity : Nat → Nat) (chk : Checker) (hchk : SafeChecker arity chk)
    (dn : Int) (de src : TypeKind) (hd : WellFormed arity (TypeKind.arr dn de))
    (hs : WellFormed arity src) : only_fuel (check_arr chk (TypeKind.arr dn de) src) := by
  have hde : WellFormed arity de := by cases hd; assumption
  intro e hc
  unfold check_arr at hc
  simp only [TypeKind.Arr] at hc
  split at hc
  · simp at hc
  · rename_i sn se hse
    have hsrc := eq_arr_of_Arr src se sn hse
    subst hsrc
    have hse1 : WellFormed arity se := by cases hs; assumption
    split at hc
    · simp at hc
    · exact hchk _ _ _ hde (fun x hx => by cases hx; exact hse1) e hc

/-- The method `check_map` does not panic when its recursive entry does not. -/
theorem check_map_safe (arity : Nat → Nat) (chk : Checker) (hchk : SafeChecker arity chk)
    (dk dv src : TypeKind) (hd : WellFormed arity (TypeKind.map dk dv))
    (hs : WellFormed arity src) :
    only_fuel (TypeCompatibilityChecker.check_map chk (TypeKind.map dk dv) src) := by
  have hdk : WellFormed arity dk := by cases hd; assumption
  have hdv : WellFormed arity dv := by cases hd; assumption
  intro e hc
  unfold TypeCompatibilityChecker.check_map at hc
  simp only [TypeKind.Map] at hc
  split at hc
  · simp at hc
  · split at hc
    · simp at hc
    · rename_i sk sv hsm
      have hsrc := eq_map_of_Map src sk sv hsm
      subst hsrc
      have hsk : WellFormed arity sk := by cases hs; assumption
      have hsv : WellFormed arity sv := by cases hs; assumption
      split at hc
      · rename_i e0 he
        simp only [Except.error.injEq] at hc
        subst hc
        exact hchk _ _ _ hdk (fun x hx => by cases hx; exact hsk) _ he
      · simp at hc
      · split at hc
        · rename_i e0 he
          simp only [Except.error.injEq] at hc
          subst hc
          exact hchk _ _ _ hdv (fun x hx => by cases hx; exact hsv) _ he
        · simp at hc

/-- The loop of `check_struct` does not panic when the source has a generic
argument for every index it reads. -/
theorem check_struct_loop_safe (arity : Nat → Nat) (chk : Checker)
    (hchk : SafeChecker arity chk) (sg dg : List TypeKind) (i : Nat)
    (hlen : i + dg.length ≤ sg.length) (hdg : ∀ g ∈ dg, WellFormed arity g)
    (hsg : ∀ g ∈ sg, WellFormed arity g) : only_fuel (check_struct_loop chk sg dg i) := by
  induction dg generalizing i with
  | nil => exact only_fuel_ok _
  | cons g rest ih =>
    simp only [List.length_cons] at hlen
    have hi : i < sg.length := by omega
    intro e hc
    simp only [check_struct_loop, List.get?_eq_getElem?, List.getElem?_eq_getElem hi] at hc
    have hw : WellFormed arity sg[i] := hsg _ (List.getElem_mem _)
    split at hc
    · rename_i e0 he
      simp only [Except.error.injEq] at hc
      subst hc
      exact hchk _ _ _ (hdg g (List.mem_cons_self _ _)) (fun x hx => by cases hx; exact hw) _ he
    · simp at hc
    · split at hc
      · rename_i e0 he
        simp only [Except.error.injEq] at hc
        subst hc
        exact ih (i + 1) (by omega) (fun x hx => hdg x (List.mem_cons_of_mem _ hx)) _ he
      · simp at hc

/-- The method `check_struct` does not panic when its recursive entry does
not. -/
theorem check_struct_safe (arity : Nat → Nat) (chk : Checker) (hchk : SafeChecker arity chk)
    (d : StructIns) (src : TypeKind) (hd : WellFormed arity (TypeKind.strct d))
    (hs : WellFormed arity src) : only_fuel (check_struct chk (TypeKind.strct d) src) := by
  intro e hc
  unfold check_struct at hc
  simp only [TypeKind.Strct] at hc
  split at hc
  · simp at hc
  · rename_i s hss
    have hsrc := eq_strct_of_Strct src s hss
    subst hsrc
    split at hc
    · simp at hc
    · rename_i hid
      split at hc
      · simp at hc
      · have hid1 : d.Decl.Id = s.Decl.Id := by simpa using hid
        cases hd with
        | strct _ hdl hdg =>
          cases hs with
          | strct _ hsl hsg =>
            exact check_struct_loop_safe arity chk hchk _ _ 0
              (by rw [hdl, hsl, hid1]; omega) hdg hsg e hc

/-- The loop of `check_fn` does not panic when every entry of both lists is
present: it returns at the first pair. -/
theorem check_fn_loop_safe (chk : Checker) (sp dp : List (Option ParamIns))
    (hlen : sp.length = dp.length) (hsp : ∀ q ∈ sp, q ≠ none) (hdp : ∀ q ∈ dp, q ≠ none) :
    only_fuel (check_fn_loop chk sp dp) := by
  cases sp with
  | nil => exact only_fuel_ok _
  | cons s srest =>
    cases dp with
    | nil => simp at hlen
    | cons d drest =>
      cases s with
      | none => exact absurd rfl (hsp none (List.mem_cons_self _ _))
      | some s1 =>
        cases d with
        | none => exact absurd rfl (hdp none (List.mem_cons_self _ _))
        | some d1 =>
          simp only [check_fn_loop, Option.isSome_some, Bool.and_self, if_true]
          exact only_fuel_ok _

/-- The method `check_fn` does not panic when its recursive entry does not. -/
theorem check_fn_safe (arity : Nat → Nat) (chk : Checker) (hchk : SafeChecker arity chk)
    (df : FnIns) (src : TypeKind) (hd : WellFormed arity (TypeKind.fnc df))
    (hs : WellFormed arity src) : only_fuel (check_fn chk (TypeKind.fnc df) src) := by
  intro e hc
  unfold check_fn at hc
  simp only [TypeKind.Fnc] at hc
  split at hc
  · simp at hc
  · split at hc
    · simp at hc
    · rename_i sf hsf
      have hsrc := eq_fnc_of_Fnc src sf hsf
      subst hsrc
      cases hd with
      | fnc _ hdp hdr =>
        cases hs with
        | fnc _ hsp hsr =>
          split at hc
          · simp at hc
          · rename_i hres
            split at hc
            · simp at hc
            · rename_i hlen
              have hlen1 : sf.Params.length = df.Params.length := by simpa using hlen
              split at hc
              · rename_i e0 he
                simp only [Except.error.injEq] at hc
                subst hc
                exact check_fn_loop_safe chk _ _ hlen1 hsp hdp _ he
              · simp at hc
              · split at hc
                · rename_i hsome
                  split at hc
                  · rename_i e0 he
                    simp only [Except.error.injEq] at hc
                    subst hc
                    have hdsome : df.Result.isSome = true := by
                      have : sf.Result.isSome = df.Result.isSome := by simpa using hres
                      rw [← this]; exact hsome
                    obtain ⟨dr, hdr1⟩ := Option.isSome_iff_exists.mp hdsome
                    rw [hdr1] at he
                    exact hchk _ _ _ (hdr dr hdr1) (fun x hx => hsr x hx) _ he
                  · simp at hc
                · simp at hc

/-- The compatibility check panics on no pair of well-formed types. -/
theorem check_safe (arity : Nat → Nat) (env : Env) (fuel : Nat) :
    SafeChecker arity (TypeCompatibilityChecker.check env fuel) := by
  induction fuel with
  | zero =>
    intro deref d s _ _ e hc
    simp only [TypeCompatibilityChecker.check, Except.error.injEq] at hc
    exact hc.symm
  | succ n ih =>
    intro deref dest src hd hs e hc
    simp only [TypeCompatibilityChecker.check] at hc
    cases src with
    | none => simp at hc
    | some src =>
      have hsrc : WellFormed arity src := hs src rfl
      simp only at hc
      by_cases h0 : dest.Ref.isSome = true
      · rw [if_pos h0] at hc
        obtain ⟨de, hde⟩ := Option.isSome_iff_exists.mp h0
        have := eq_ref_of_Ref dest de hde
        subst this
        exact check_ref_safe arity env _ ih _ _ _ hd hsrc e hc
      · rw [if_neg h0] at hc
        have hstrip : WellFormed arity (match src.Ref with | some e => e | none => src) := by
          cases hr : src.Ref with
          | none => exact hsrc
          | some se =>
            have := eq_ref_of_Ref src se hr
            subst this
            cases hsrc; assumption
        generalize (match src.Ref with | some e => e | none => src) = s at hc hstrip
        cases dest with
        | nil =>
          simp only [TypeKind.Trt, TypeKind.Ptr, TypeKind.Slc, TypeKind.Arr, TypeKind.Map,
            TypeKind.Enm, TypeKind.Strct, TypeKind.Fnc, Option.isSome_none, Bool.false_eq_true,
            if_false] at hc
          split at hc <;> simp at hc
        | prim k =>
          simp only [TypeKind.Trt, TypeKind.Ptr, TypeKind.Slc, TypeKind.Arr, TypeKind.Map,
            TypeKind.Enm, TypeKind.Strct, TypeKind.Fnc, Option.isSome_none, Bool.false_eq_true,
            if_false] at hc
          split at hc <;> simp at hc
        | ref de => simp [TypeKind.Ref] at h0
        | ptr dp =>
          simp only [TypeKind.Trt, TypeKind.Ptr, Option.isSome_none, Option.isSome_some,
            Bool.false_eq_true, if_false, if_true] at hc
          exact check_ptr_safe arity _ ih _ _ hd hstrip e hc
        | slc de =>
          simp only [TypeKind.Trt, TypeKind.Ptr, TypeKind.Slc, Option.isSome_none,
            Option.isSome_some, Bool.false_eq_true, if_false, if_true] at hc
          exact check_slc_safe arity _ ih _ _ hd hstrip e hc
        | arr dn de =>
          simp only [TypeKind.Trt, TypeKind.Ptr, TypeKind.Slc, TypeKind.Arr, Option.isSome_none,
            Option.isSome_some, Bool.false_eq_true, if_false, if_true] at hc
          exact check_arr_safe arity _ ih _ _ _ hd hstrip e hc
        | map dk dv =>
          simp only [TypeKind.Trt, TypeKind.Ptr, TypeKind.Slc, TypeKind.Arr, TypeKind.Map,
            Option.isSome_none, Option.isSome_some, Bool.false_eq_true, if_false, if_true] at hc
          exact check_map_safe arity _ ih _ _ _ hd hstrip e hc
        | strct d =>
          simp only [TypeKind.Trt, TypeKind.Ptr, TypeKind.Slc, TypeKind.Arr, TypeKind.Map,
            TypeKind.Enm, TypeKind.Strct, Option.isSome_none, Option.isSome_some,
            Bool.false_eq_true, if_false, if_true] at hc
          exact check_struct_safe arity _ ih _ _ hd hstrip e hc
        | trt t =>
          simp only [TypeKind.Trt, Option.isSome_some, if_true] at hc
          exact check_trait_safe arity _ _ hd e hc
        | enm en =>
          simp only [TypeKind.Trt, TypeKind.Ptr, TypeKind.Slc, TypeKind.Arr, TypeKind.Map,
            TypeKind.Enm, Option.isSome_none, Option.isSome_some, Bool.false_eq_true, if_false,
            if_true] at hc
          unfold check_enum at hc
          split at hc
          · simp at hc
          · split at hc <;> simp at hc
        | fnc df =>
          simp only [TypeKind.Trt, TypeKind.Ptr, TypeKind.Slc, TypeKind.Arr, TypeKind.Map,
            TypeKind.Enm, TypeKind.Strct, TypeKind.Fnc, Option.isSome_none, Option.isSome_some,
            Bool.false_eq_true, if_false, if_true] at hc
          exact check_fn_safe arity _ ih _ _ hd hstrip e hc
        | tup ts =>
          simp only [TypeKind.Trt, TypeKind.Ptr, TypeKind.Slc, TypeKind.Arr, TypeKind.Map,
            TypeKind.Enm, TypeKind.Strct, TypeKind.Fnc, Option.isSome_none, Bool.false_eq_true,
            if_false] at hc
          split at hc <;> simp at hc

/-- A box of a primitive type is well formed when the declaration `Box` has one
generic parameter. -/
theorem box_well_formed (kind : String) :
    WellFormed (fun _ => 1) (box_of (TypeKind.prim kind)) :=
  WellFormed.strct _ rfl (fun g hg => by
    have hg1 : g = TypeKind.prim kind := by simpa [StructIns.Generics] using hg
    rw [hg1]; exact WellFormed.prim kind)

/-- C36: on well-formed inputs (every function type's parameter entries
present, every trait method declaring at least a receiver parameter, the struct
instances of one declaration carrying the same number of generic arguments) the
compatibility check, with any fuel, never indexes a list out of range and never
dereferences an absent value; and with fuel above the combined size of the two
types it returns a result. -/
theorem check_never_panics (arity : Nat → Nat) (env : Env) (deref : Bool) (dest src : TypeKind)
    (hd : WellFormed arity dest) (hs : WellFormed arity src) :
    (∀ fuel,
      TypeCompatibilityChecker.check env fuel deref (some dest) (some src)
        ≠ .error Fault.index_out_of_range ∧
      TypeCompatibilityChecker.check env fuel deref (some dest) (some src)
        ≠ .error Fault.nil_deref) ∧
    ∃ r, TypeCompatibilityChecker.check env (sizeOf dest + sizeOf src + 3) deref (some dest)
      (some src) = .ok r := by
  have hsafe : ∀ fuel, only_fuel
      (TypeCompatibilityChecker.check env fuel deref (some dest) (some src)) :=
    fun fuel => check_safe arity env fuel deref dest (some src) hd
      (fun x hx => by cases hx; exact hs)
  refine ⟨fun fuel => ⟨fun hc => ?_, fun hc => ?_⟩, ?_⟩
  · exact absurd (hsafe fuel _ hc) (by decide)
  · exact absurd (hsafe fuel _ hc) (by decide)
  · cases hr : TypeCompatibilityChecker.check env (sizeOf dest + sizeOf src + 3) deref
        (some dest) (some src) with
    | ok r => exact ⟨r, rfl⟩
    | error e =>
      have he := hsafe _ e hr
      subst he
      exact absurd hr (check_fuel env _ deref (some dest) (some src)
        (by simp only [Option.some.sizeOf_spec]; omega))

/-- C36 at a concrete input: `Box[int]` against `Box[str]`, two instances of
one declaration with one generic argument each. -/
theorem check_never_panics_witness :
    WellFormed (fun _ => 1) (box_of (TypeKind.prim "int")) ∧
    WellFormed (fun _ => 1) (box_of (TypeKind.prim "str")) ∧
    (∀ fuel,
      TypeCompatibilityChecker.check sample_env fuel false (some (box_of (TypeKind.prim "int")))
        (some (box_of (TypeKind.prim "str"))) ≠ .error Fault.index_out_of_range ∧
      TypeCompatibilityChecker.check sample_env fuel false (some (box_of (TypeKind.prim "int")))
        (some (box_of (TypeKind.prim "str"))) ≠ .error Fault.nil_deref) :=
  ⟨box_well_formed _, box_well_formed _,
    (check_never_panics (fun _ => 1) sample_env false (box_of (TypeKind.prim "int"))
      (box_of (TypeKind.prim "str")) (box_well_formed _) (box_well_formed _)).1⟩

end Sema
